import Mathlib

/-!
# DiskImageUtil: a byte-level model of package `core`

The Go package `core` reads and writes classic Macintosh disk images through
`*os.File` handles.  This development embeds the format logic in Lean:

* a file is a finite list of bytes together with a cursor (`File`);
* `Seek`, `Read`, `Write`, `io.ReadFull` follow the documented behaviour of
  the Go standard library on regular files (a write past the end fills the
  gap with zero bytes, a read at the end reports `EOF`);
* `int64` values are integers, `uint16` and `uint32` values are naturals and
  every conversion `uint32(x)` is an explicit reduction modulo `2^32`; the
  wrap-around of `int64` sums is not modelled, offsets that are used lie
  within a file;
* fallible functions return `Except Error _`, writes themselves never fail;
* loops run on fuel that is shown to be enough (`copy_loop_total`,
  `ProbePartitionMap_total`, `describe_loop_items`);
* the functions of `describe.go` are modelled by what they append to the
  `strings.Builder`: the list of their `tabPrint` calls (`Report`), each with
  its indentation, format string and arguments; `textOf` is the text in the
  builder, the indentation followed by `Sprintf` of each call, with the image
  bytes of a `%s` argument spliced in as they are (the text of a `%.1f`
  quotient and of a date are parameters, `Formats`);
* a `float64` is the rational it denotes and `binary64` rounds to 53
  significant bits, ties to even (`percent`, the value of a progress call).

Definitions keep the names of the Go functions they embed.
-/

namespace core

/-! ## Bytes and big-endian words -/

abbrev Byte := Fin 256

/-- The conversion `byte(n)`: the low eight bits of `n`. -/
def byte (n : Nat) : Byte := ⟨n % 256, Nat.mod_lt n (by decide)⟩

/-- Big-endian image of a `uint16`. -/
def be16 (n : Nat) : List Byte := [byte (n / 256), byte n]

/-- Big-endian image of a `uint32`. -/
def be32 (n : Nat) : List Byte :=
  [byte (n / 16777216), byte (n / 65536), byte (n / 256), byte n]

/-- Big-endian `uint16` found at index `i` of a buffer. -/
def u16At (bs : List Byte) (i : Nat) : Nat :=
  (bs.getD i 0).val * 256 + (bs.getD (i + 1) 0).val

/-- Big-endian `uint32` found at index `i` of a buffer. -/
def u32At (bs : List Byte) (i : Nat) : Nat :=
  (((bs.getD i 0).val * 256 + (bs.getD (i + 1) 0).val) * 256
    + (bs.getD (i + 2) 0).val) * 256 + (bs.getD (i + 3) 0).val

/-- The bytes of an ASCII string constant. -/
def strBytes (s : String) : List Byte := s.toList.map (fun c => byte c.toNat)

/-- A fixed-size byte array `[n]byte` holding `l`: cut or zero-filled to `n` bytes. -/
def fixed (n : Nat) (l : List Byte) : List Byte :=
  l.take n ++ List.replicate (n - l.length) 0

/-- The builtin `copy(dst, src)` on byte slices, returning the new `dst`. -/
def copyBytes (dst src : List Byte) : List Byte :=
  src.take dst.length ++ dst.drop src.length

/-- The call `bytes.TrimRight(b, "\x00")`: drop the trailing NUL bytes. -/
def trimRightNul (b : List Byte) : List Byte :=
  (b.reverse.dropWhile (fun x => x == 0)).reverse

/-! ## Errors and files -/

/-- The errors of the Go program: three I/O errors, `fmt.Errorf` messages and
the run-time panic of an index or slice out of range.  `outOfFuel` is the
model's own: a loop given too little fuel to finish. -/
inductive Error where
  | EOF
  | ErrUnexpectedEOF
  | EINVAL
  | Errorf (msg : String)
  | outOfFuel
  | panic
deriving DecidableEq, Repr

deriving instance DecidableEq for Except

/-- An open regular file: its contents and the position of its cursor. -/
structure File where
  data : List Byte
  pos : Nat
deriving DecidableEq, Repr

/-- The `n` bytes of `d` from offset `p` on (fewer when `d` ends before). -/
def slice (d : List Byte) (p n : Nat) : List Byte := (d.drop p).take n

/-- The file contents after writing `bs` at byte offset `off`. -/
def writeAt (d : List Byte) (off : Nat) (bs : List Byte) : List Byte :=
  if bs.isEmpty then d
  else d.take off ++ List.replicate (off - d.length) 0 ++ bs ++ d.drop (off + bs.length)

/-- The call `f.Seek(offset, 0)`: a negative offset is rejected. -/
def File.Seek (f : File) (offset : Int) : Except Error File :=
  if offset < 0 then .error .EINVAL else .ok { f with pos := offset.toNat }

/-- The call `f.Read(buf[:n])`: as many bytes as are left, at most `n`; `EOF`
when `n > 0` and none is left. -/
def File.Read (f : File) (n : Nat) : Except Error (List Byte × File) :=
  let got := slice f.data f.pos n
  if n ≠ 0 ∧ got.length = 0 then .error .EOF
  else .ok (got, { f with pos := f.pos + got.length })

/-- The call `f.Write(bs)` at the cursor. -/
def File.Write (f : File) (bs : List Byte) : File :=
  { data := writeAt f.data f.pos bs, pos := f.pos + bs.length }

/-- The call `io.ReadFull(f, buf)` with `len(buf) = size`, as `binary.Read` uses it:
exactly `size` bytes, `EOF` when none is left, `ErrUnexpectedEOF` when too few are. -/
def ReadFull (f : File) (size : Nat) : Except Error (List Byte × File) :=
  if size ≤ f.data.length - f.pos then
    .ok (slice f.data f.pos size, { f with pos := f.pos + size })
  else if f.data.length - f.pos = 0 then .error .EOF
  else .error .ErrUnexpectedEOF

/-- What `encoding/binary` needs to know of a fixed-size type. -/
structure Codec (T : Type) where
  size : Nat
  encode : T → List Byte
  decode : List Byte → T

/-- The instance `uint16` of the record codec. -/
def uint16 : Codec Nat where
  size := 2
  encode := be16
  decode := fun bs => u16At bs 0

/-- Generic `ReadBigEndian[T](f, offset)`.  The moved cursor is not returned:
every caller seeks to an absolute offset before its next access. -/
def ReadBigEndian {T : Type} (c : Codec T) (f : File) (offset : Int) : Except Error T :=
  match f.Seek offset with
  | .error e => .error e
  | .ok f1 =>
    match ReadFull f1 c.size with
    | .error e => .error e
    | .ok (bs, _) => .ok (c.decode bs)

/-- The value kept by `v, _ = ReadBigEndian[uint16](...)`: the result, or the
zero value that `ReadBigEndian` returns along with an error. -/
def valueOrZero (r : Except Error Nat) : Nat :=
  match r with
  | .ok v => v
  | .error _ => 0

/-- Generic `WriteBigEndian(f, offset, val)`. -/
def WriteBigEndian {T : Type} (c : Codec T) (f : File) (offset : Int) (val : T) :
    Except Error File :=
  match f.Seek offset with
  | .error e => .error e
  | .ok f1 => .ok (f1.Write (c.encode val))

/-! ## Checksum (utils.go) -/

/-- One round of the loop body of `Checksum16` on the `uint16` accumulator. -/
def Checksum16.step (cksum : Nat) (b : Byte) : Nat :=
  let cksum := (cksum + b.val) % 65536
  ((cksum <<< 1) % 65536) ||| (cksum >>> 15)

/-- The accumulator of `Checksum16` after the loop. -/
def Checksum16.acc (data : List Byte) : Nat :=
  data.foldl Checksum16.step 0

def Checksum16 (data : List Byte) : Nat :=
  let cksum := Checksum16.acc data
  if cksum = 0 then 0xFFFF else cksum

/-- Rotation of a 16-bit word left by one bit, as the specification words it:
the top bit moves to the bottom, the others move up. -/
def rotl16_1 (x : Nat) : Nat := (2 * x) % 65536 + x / 32768

/-- Reference checksum, from the specification's words: start at 0, per byte
add modulo `2^16` and rotate left by one, `0xFFFF` in place of a final 0. -/
def checksum16Ref (data : List Byte) : Nat :=
  let acc := data.foldl (fun acc b => rotl16_1 ((acc + b.val) % 65536)) 0
  if acc = 0 then 0xFFFF else acc

/-! ## Records (structs.go) -/

/-- Block0 (Driver Descriptor Record), 26 bytes. -/
structure DDRecord where
  SbSig : Nat := 0
  SbBlkSize : Nat := 0
  SbBlkCount : Nat := 0
  SbDevType : Nat := 0
  SbDevId : Nat := 0
  SbData : Nat := 0
  SbDrvrCount : Nat := 0
  DdBlock : Nat := 0
  DdSize : Nat := 0
  DdType : Nat := 0
deriving DecidableEq, Repr

/-- Partition Map Entry, 512 bytes. -/
structure Partition where
  PmSig : Nat := 0
  PmSigPad : Nat := 0
  PmMapBlkCnt : Nat := 0
  PmPyPartStart : Nat := 0
  PmPartBlkCnt : Nat := 0
  PmPartName : List Byte := List.replicate 32 0
  PmPartType : List Byte := List.replicate 32 0
  PmLgDataStart : Nat := 0
  PmDataCnt : Nat := 0
  PmPartStatus : Nat := 0
  PmLgBootStart : Nat := 0
  PmBootSize : Nat := 0
  PmBootAddr : Nat := 0
  PmBootAddr2 : Nat := 0
  PmBootEntry : Nat := 0
  PmBootEntry2 : Nat := 0
  PmBootCksum : Nat := 0
  PmProcessor : List Byte := List.replicate 16 0
  PmPad : List Byte := List.replicate 376 0
deriving DecidableEq, Repr

/-- Every field of a `DDRecord` is within the range of its Go type. -/
def DDRecord.WF (d : DDRecord) : Prop :=
  d.SbSig < 65536 ∧ d.SbBlkSize < 65536 ∧ d.SbBlkCount < 4294967296 ∧ d.SbDevType < 65536
    ∧ d.SbDevId < 65536 ∧ d.SbData < 4294967296 ∧ d.SbDrvrCount < 65536
    ∧ d.DdBlock < 4294967296 ∧ d.DdSize < 65536 ∧ d.DdType < 65536

/-- Every field of a `Partition` is within the range of its Go type. -/
def Partition.WF (p : Partition) : Prop :=
  p.PmSig < 65536 ∧ p.PmSigPad < 65536 ∧ p.PmMapBlkCnt < 4294967296
    ∧ p.PmPyPartStart < 4294967296 ∧ p.PmPartBlkCnt < 4294967296
    ∧ p.PmPartName.length = 32 ∧ p.PmPartType.length = 32
    ∧ p.PmLgDataStart < 4294967296 ∧ p.PmDataCnt < 4294967296
    ∧ p.PmPartStatus < 4294967296 ∧ p.PmLgBootStart < 4294967296
    ∧ p.PmBootSize < 4294967296 ∧ p.PmBootAddr < 4294967296
    ∧ p.PmBootAddr2 < 4294967296 ∧ p.PmBootEntry < 4294967296
    ∧ p.PmBootEntry2 < 4294967296 ∧ p.PmBootCksum < 4294967296
    ∧ p.PmProcessor.length = 16 ∧ p.PmPad.length = 376

/-- Big-endian layout of `DDRecord`, fields in declared order. -/
def DDRecord.codec : Codec DDRecord where
  size := 26
  encode := fun d =>
    be16 d.SbSig ++ be16 d.SbBlkSize ++ be32 d.SbBlkCount ++ be16 d.SbDevType
      ++ be16 d.SbDevId ++ be32 d.SbData ++ be16 d.SbDrvrCount ++ be32 d.DdBlock
      ++ be16 d.DdSize ++ be16 d.DdType
  decode := fun bs =>
    { SbSig := u16At bs 0, SbBlkSize := u16At bs 2, SbBlkCount := u32At bs 4,
      SbDevType := u16At bs 8, SbDevId := u16At bs 10, SbData := u32At bs 12,
      SbDrvrCount := u16At bs 16, DdBlock := u32At bs 18, DdSize := u16At bs 22,
      DdType := u16At bs 24 }

/-- Big-endian layout of `Partition`, fields in declared order. -/
def Partition.codec : Codec Partition where
  size := 512
  encode := fun p =>
    be16 p.PmSig ++ be16 p.PmSigPad ++ be32 p.PmMapBlkCnt ++ be32 p.PmPyPartStart
      ++ be32 p.PmPartBlkCnt ++ fixed 32 p.PmPartName ++ fixed 32 p.PmPartType
      ++ be32 p.PmLgDataStart ++ be32 p.PmDataCnt ++ be32 p.PmPartStatus
      ++ be32 p.PmLgBootStart ++ be32 p.PmBootSize ++ be32 p.PmBootAddr
      ++ be32 p.PmBootAddr2 ++ be32 p.PmBootEntry ++ be32 p.PmBootEntry2
      ++ be32 p.PmBootCksum ++ fixed 16 p.PmProcessor ++ fixed 376 p.PmPad
  decode := fun bs =>
    { PmSig := u16At bs 0, PmSigPad := u16At bs 2, PmMapBlkCnt := u32At bs 4,
      PmPyPartStart := u32At bs 8, PmPartBlkCnt := u32At bs 12,
      PmPartName := (bs.drop 16).take 32, PmPartType := (bs.drop 48).take 32,
      PmLgDataStart := u32At bs 80, PmDataCnt := u32At bs 84,
      PmPartStatus := u32At bs 88, PmLgBootStart := u32At bs 92,
      PmBootSize := u32At bs 96, PmBootAddr := u32At bs 100,
      PmBootAddr2 := u32At bs 104, PmBootEntry := u32At bs 108,
      PmBootEntry2 := u32At bs 112, PmBootCksum := u32At bs 116,
      PmProcessor := (bs.drop 120).take 16, PmPad := (bs.drop 136).take 376 }

/-! ## Conversion and probing (convert.go) -/

def HFSVolumeHardwareLockBit : Nat := 7

def HFSVolumeSoftwareLockBit : Nat := 15

/-- The conversion `uint32(x)` of an `int64`. -/
def toUint32 (x : Int) : Nat := (x % 4294967296).toNat

/-- The `uint16` complement `^uint16(x)`. -/
def not16 (x : Nat) : Nat := 0xFFFF ^^^ x

/-- The update of the attribute word in `WriteHFSVolumeAttributes`: both lock
bits cleared when `rw`, both set otherwise. -/
def WriteHFSVolumeAttributes.patch (rw : Bool) (volAttrs : Nat) : Nat :=
  if rw then
    (volAttrs &&& not16 (1 <<< HFSVolumeHardwareLockBit))
      &&& not16 (1 <<< HFSVolumeSoftwareLockBit)
  else
    (volAttrs ||| (1 <<< HFSVolumeHardwareLockBit))
      ||| (1 <<< HFSVolumeSoftwareLockBit)

def WriteHFSVolumeAttributes (f : File) (hfsStart : Int) (rw : Bool) : Except Error File :=
  let offset := hfsStart + 512 * 2
  let attrOffset := offset + 10
  match f.Seek attrOffset with
  | .error e => .error e
  | .ok f1 =>
    match ReadFull f1 2 with
    | .error e => .error e
    | .ok (bs, f2) =>
      let volAttrs := u16At bs 0
      let volAttrs := WriteHFSVolumeAttributes.patch rw volAttrs
      match f2.Seek attrOffset with
      | .error e => .error e
      | .ok f3 => .ok (f3.Write (be16 volAttrs))

/-- The copy loop of `WriteHFSVolumeData`, run for at most `fuel` rounds.  The
last component lists the arguments of the progress callback as pairs
(bytes copied so far, `hfsLen`), whose quotient the Go code passes on. -/
def WriteHFSVolumeData.loop (hfsLen : Int) (progress : Bool) :
    Nat → File → File → Int → List (Int × Int) → Except Error (File × File × List (Int × Int))
  | 0, ofd, ifd, bytesRemaining, calls =>
    if bytesRemaining > 0 then .error .outOfFuel else .ok (ofd, ifd, calls)
  | fuel + 1, ofd, ifd, bytesRemaining, calls =>
    if bytesRemaining > 0 then
      let chunkSize : Int := 256 * 1024
      let toRead := if bytesRemaining < chunkSize then bytesRemaining else chunkSize
      match ifd.Read toRead.toNat with
      | .error e => .error e
      | .ok (buf, ifd1) =>
        let ofd1 := ofd.Write buf
        let bytesRemaining := bytesRemaining - (buf.length : Int)
        let calls := if progress then calls ++ [(hfsLen - bytesRemaining, hfsLen)] else calls
        WriteHFSVolumeData.loop hfsLen progress fuel ofd1 ifd1 bytesRemaining calls
    else .ok (ofd, ifd, calls)

/-- The function `WriteHFSVolumeData`; `progress` tells whether a callback is
supplied.  It returns the destination file and the callback arguments.  Every
round copies at least one byte, so `hfsLen` rounds of fuel are enough. -/
def WriteHFSVolumeData (ofd ifd : File) (rdStart wrStart hfsLen : Int) (rw : Bool)
    (progress : Bool) : Except Error (File × List (Int × Int)) :=
  match ifd.Seek rdStart with
  | .error e => .error e
  | .ok ifd1 =>
    match ofd.Seek wrStart with
    | .error e => .error e
    | .ok ofd1 =>
      match WriteHFSVolumeData.loop hfsLen progress hfsLen.toNat ofd1 ifd1 hfsLen [] with
      | .error e => .error e
      | .ok (ofd2, _, calls) =>
        match WriteHFSVolumeAttributes ofd2 wrStart rw with
        | .error e => .error e
        | .ok ofd3 => .ok (ofd3, calls)

/-- The record `ddr` that `WriteDriverDescriptorRecord` builds; the `int64`
division truncates towards zero. -/
def WriteDriverDescriptorRecord.ddr (hfsLen : Int) : DDRecord :=
  let blockSize : Int := 512
  let totalBytes := 0xC000 + hfsLen
  let totalBlks := Int.tdiv totalBytes blockSize
  { SbSig := 0x4552
    SbBlkSize := 512
    SbBlkCount := toUint32 totalBlks
    SbDevType := 1
    SbDevId := 1
    SbDrvrCount := 1
    DdBlock := 0x40
    DdSize := 0x13
    DdType := 1 }

def WriteDriverDescriptorRecord (f : File) (hfsLen : Int) : Except Error File :=
  WriteBigEndian DDRecord.codec f 0 (WriteDriverDescriptorRecord.ddr hfsLen)

/-- The entry `pme` that `WriteApplePartitionMapEntry` builds. -/
def WriteApplePartitionMapEntry.pme (mapBlks : Nat) : Partition :=
  let pme : Partition :=
    { PmSig := 0x504D
      PmMapBlkCnt := mapBlks
      PmPyPartStart := 1
      PmPartBlkCnt := 63
      PmDataCnt := 63
      PmPartStatus := 0x37 }
  let pme := { pme with PmPartName := copyBytes pme.PmPartName (strBytes "Apple") }
  { pme with PmPartType := copyBytes pme.PmPartType (strBytes "Apple_partition_map") }

def WriteApplePartitionMapEntry (f : File) (mapBlks : Nat) : Except Error File :=
  WriteBigEndian Partition.codec f 0x200 (WriteApplePartitionMapEntry.pme mapBlks)

/-- The entry `pme` that `WriteDriverPartitionEntry` builds; the driver blob
`AppleDriver43` is a constant of the package that is passed in. -/
def WriteDriverPartitionEntry.pme (AppleDriver43 : List Byte) (mapBlks : Nat) : Partition :=
  let pme : Partition :=
    { PmSig := 0x504D
      PmMapBlkCnt := mapBlks
      PmPyPartStart := 64
      PmPartBlkCnt := 32
      PmDataCnt := 32
      PmPartStatus := 0x7F
      PmBootSize := AppleDriver43.length % 4294967296
      PmBootCksum := 0x0000F624 }
  let pme := { pme with PmPartName := copyBytes pme.PmPartName (strBytes "Macintosh") }
  let pme := { pme with PmPartType := copyBytes pme.PmPartType (strBytes "Apple_Driver43") }
  let pme := { pme with PmProcessor := copyBytes pme.PmProcessor (strBytes "68000") }
  let pme := { pme with PmPad := pme.PmPad.set 1 0x01 }
  let pme := { pme with PmPad := pme.PmPad.set 2 0x06 }
  let pme := { pme with PmPad := pme.PmPad.set 11 0x01 }
  { pme with PmPad := pme.PmPad.set 13 0x07 }

def WriteDriverPartitionEntry (AppleDriver43 : List Byte) (f : File) (mapBlks : Nat) :
    Except Error File :=
  WriteBigEndian Partition.codec f 0x400 (WriteDriverPartitionEntry.pme AppleDriver43 mapBlks)

/-- The entry `pme` that `WriteHFSPartitionEntry` builds. -/
def WriteHFSPartitionEntry.pme (mapBlks : Nat) (writable : Bool) (hfsLen : Int) : Partition :=
  let flags : Nat := if writable then 0xB7 else 0x97
  let pme : Partition :=
    { PmSig := 0x504D
      PmMapBlkCnt := mapBlks
      PmPyPartStart := 96
      PmPartBlkCnt := toUint32 (Int.tdiv hfsLen 0x200)
      PmDataCnt := toUint32 (Int.tdiv hfsLen 0x200)
      PmPartStatus := flags }
  let pme := { pme with PmPartName := copyBytes pme.PmPartName (strBytes "MacOS") }
  { pme with PmPartType := copyBytes pme.PmPartType (strBytes "Apple_HFS") }

def WriteHFSPartitionEntry (f : File) (mapBlks : Nat) (writable : Bool) (hfsLen : Int) :
    Except Error File :=
  WriteBigEndian Partition.codec f 0x600 (WriteHFSPartitionEntry.pme mapBlks writable hfsLen)

def WriteDriverData (AppleDriver43 : List Byte) (f : File) : Except Error File :=
  match f.Seek 0x8000 with
  | .error e => .error e
  | .ok f1 => .ok (f1.Write AppleDriver43)

def WriteDeviceImage (AppleDriver43 : List Byte) (ofd ifd : File) (hfsStart hfsLen : Int)
    (rw : Bool) (progress : Bool) : Except Error (File × List (Int × Int)) :=
  let mapBlks : Nat := 3
  match WriteDriverDescriptorRecord ofd hfsLen with
  | .error e => .error e
  | .ok ofd =>
    match WriteApplePartitionMapEntry ofd mapBlks with
    | .error e => .error e
    | .ok ofd =>
      match WriteDriverPartitionEntry AppleDriver43 ofd mapBlks with
      | .error e => .error e
      | .ok ofd =>
        match WriteHFSPartitionEntry ofd mapBlks rw hfsLen with
        | .error e => .error e
        | .ok ofd =>
          match WriteDriverData AppleDriver43 ofd with
          | .error e => .error e
          | .ok ofd => WriteHFSVolumeData ofd ifd hfsStart 0xC000 hfsLen rw progress

/-- The inner loop of `ProbePartitionMap`: take 512 off `partLength` while it is
at least 512 and the partition overruns the file. -/
def ProbePartitionMap.shrink (partOffset fileSize : Int) : Nat → Int → Except Error Int
  | 0, partLength =>
    if partLength ≥ 512 ∧ partOffset + partLength > fileSize then .error .outOfFuel
    else .ok partLength
  | fuel + 1, partLength =>
    if partLength ≥ 512 ∧ partOffset + partLength > fileSize then
      ProbePartitionMap.shrink partOffset fileSize fuel (partLength - 512)
    else .ok partLength

/-- The outer loop of `ProbePartitionMap`, run for at most `fuel` entries. -/
def ProbePartitionMap.loop (f : File) (fileSize : Int) : Nat → Int → Except Error (Int × Int)
  | 0, pmeOffset =>
    if pmeOffset > 0 then .error .outOfFuel
    else .error (.Errorf "HFS partition not found")
  | fuel + 1, pmeOffset =>
    if pmeOffset > 0 then
      match ReadBigEndian Partition.codec f pmeOffset with
      | .error e => .error e
      | .ok pme =>
        if pme.PmSig ≠ 0x504D then .error (.Errorf "HFS partition not found")
        else
          let partOffset : Int := (pme.PmPyPartStart : Int) * 512
          let partLength : Int := (pme.PmPartBlkCnt : Int) * 512
          let pType := trimRightNul pme.PmPartType
          if pType = strBytes "Apple_HFS" then
            if partOffset > fileSize then .error (.Errorf "partition start beyond file size")
            else
              match ProbePartitionMap.shrink partOffset fileSize pme.PmPartBlkCnt partLength with
              | .error e => .error e
              | .ok partLength => .ok (partOffset, partLength)
          else ProbePartitionMap.loop f fileSize fuel (pmeOffset + 512)
    else .error (.Errorf "HFS partition not found")

/-- The function `ProbePartitionMap`.  Each entry read needs 512 more bytes of
the file, so one round of fuel per 512 bytes, and one more, are enough. -/
def ProbePartitionMap (f : File) (fileSize : Int) : Except Error (Int × Int) :=
  ProbePartitionMap.loop f fileSize (f.data.length / 512 + 1) 512

/-- The function `ProbeFile`, returning (file size, volume offset, volume length). -/
def ProbeFile (f : File) : Except Error (Int × Int × Int) :=
  let fileSize : Int := f.data.length
  match ReadBigEndian DDRecord.codec f 0 with
  | .error e => .error e
  | .ok ddr =>
    let hfsSig : Nat := valueOrZero (ReadBigEndian uint16 f 0x400)
    let hfsSig : Nat := if ¬ (hfsSig = 0x4244 ∨ hfsSig = 0x482B) then 0 else hfsSig
    if ddr.SbSig = 0x4552 then
      match ProbePartitionMap f fileSize with
      | .error e => .error e
      | .ok (start, len) => .ok (fileSize, start, len)
    else if ddr.SbSig = 0x4C4B ∨ (ddr.SbSig = 0 ∧ hfsSig ≠ 0) then .ok (fileSize, 0, fileSize)
    else .error (.Errorf "unknown format")

/-! ## Closed forms of the conversion -/

/-- The destination contents once the copy loop has moved `len` bytes of `src`
from offset `rd` to offset `wr` of `dst`. -/
def copied (dst src : List Byte) (rd wr len : Nat) : List Byte :=
  writeAt dst wr (slice src rd len)

/-- The destination contents after the copy and the rewrite of the attribute
word at `wr + 1034`. -/
def converted (dst src : List Byte) (rd wr len : Nat) (rw : Bool) : List Byte :=
  writeAt (copied dst src rd wr len) (wr + 1034)
    (be16 (WriteHFSVolumeAttributes.patch rw (u16At (copied dst src rd wr len) (wr + 1034))))

/-- The destination contents after the five header writes of `WriteDeviceImage`:
the descriptor record, the three map entries and the driver. -/
def header (AppleDriver43 : List Byte) (d : List Byte) (rw : Bool) (hfsLen : Int) : List Byte :=
  writeAt
    (writeAt
      (writeAt
        (writeAt
          (writeAt d 0 (DDRecord.codec.encode (WriteDriverDescriptorRecord.ddr hfsLen)))
          0x200 (Partition.codec.encode (WriteApplePartitionMapEntry.pme 3)))
        0x400 (Partition.codec.encode (WriteDriverPartitionEntry.pme AppleDriver43 3)))
      0x600 (Partition.codec.encode (WriteHFSPartitionEntry.pme 3 rw hfsLen)))
    0x8000 AppleDriver43

/-! ## Sample stores -/

/-- A sample HFS+ volume of three blocks: two empty boot blocks, then a volume
header with signature `H+`, version 4 and last-mounted version `10.0`. -/
def hfsPlusVolume : File :=
  ⟨List.replicate 1024 0
    ++ [0x48, 0x2B, 0x00, 0x04, 0x00, 0x00, 0x01, 0x00, 0x31, 0x30, 0x2E, 0x30]
    ++ List.replicate 500 0, 0⟩

/-- A sample source of 1036 zero bytes. -/
def zeroVolume : File := ⟨List.replicate 1036 0, 0⟩

/-- A sample source of 1037 zero bytes: two blocks and 13 bytes more. -/
def oddVolume : File := ⟨List.replicate 1037 0, 0⟩

/-- The sample `zeroVolume` with both lock bits set in the word at 1034. -/
def zeroVolumeLocked : File := ⟨List.replicate 1034 0 ++ [0x80, 0x80], 1036⟩

/-- A sample raw HFS image: 1024 zero bytes, then the signature `BD`. -/
def rawHFSFile : File := ⟨List.replicate 1024 0 ++ [0x42, 0x44], 0⟩

/-- A sample partition map entry of type "Apple_HFS": 4 blocks from block 2. -/
def sampleEntry : Partition :=
  { PmSig := 0x504D
    PmMapBlkCnt := 1
    PmPyPartStart := 2
    PmPartBlkCnt := 4
    PmPartType := fixed 32 (strBytes "Apple_HFS") }

/-- A sample store: an empty block 0, then `sampleEntry` as the only map entry. -/
def sampleMap : File := ⟨List.replicate 512 0 ++ Partition.codec.encode sampleEntry, 0⟩

/-- A sample driver blob of 19 blocks. -/
def sampleDriver : List Byte := List.replicate 9728 0x4E

/-- The destination file a conversion leaves when it succeeds (the empty file
stands for a failed conversion). -/
def imageOf (r : Except Error (File × List (Int × Int))) : File :=
  match r with
  | .ok (f, _) => f
  | .error _ => ⟨[], 0⟩

/-! ## More records (structs.go) -/

/-- Big-endian image of a `uint64`. -/
def be64 (n : Nat) : List Byte := be32 (n / 4294967296) ++ be32 n

/-- Big-endian `uint64` found at index `i` of a buffer. -/
def u64At (bs : List Byte) (i : Nat) : Nat := u32At bs i * 4294967296 + u32At bs (i + 4)

/-- An array `[n]uint32` holding `l`: cut or zero-filled to `n` words. -/
def fixedWords (n : Nat) (l : List Nat) : List Nat :=
  l.take n ++ List.replicate (n - l.length) 0

/-- Big-endian image of an array `[n]uint32`. -/
def be32s (n : Nat) (l : List Nat) : List Byte := ((fixedWords n l).map be32).flatten

/-- The array `[n]uint32` found at index `i` of a buffer. -/
def u32sAt (bs : List Byte) (i n : Nat) : List Nat :=
  (List.range n).map (fun j => u32At bs (i + 4 * j))

/-- Boot Block Header, 148 bytes. -/
structure BootBlockHeader where
  BbID : Nat := 0
  BbEntry : Nat := 0
  BbVersion : Nat := 0
  BbPageFlags : Nat := 0
  BbSysName : List Byte := List.replicate 16 0
  BbShellName : List Byte := List.replicate 16 0
  BbDbg1Name : List Byte := List.replicate 16 0
  BbDbg2Name : List Byte := List.replicate 16 0
  BbScreenName : List Byte := List.replicate 16 0
  BbHelloName : List Byte := List.replicate 16 0
  BbScrapName : List Byte := List.replicate 16 0
  BbCntFCBs : Nat := 0
  BbCntEvts : Nat := 0
  Bb128KSHeap : Nat := 0
  Bb256KSHeap : Nat := 0
  BbSysHeapSize : Nat := 0
  Filler : Nat := 0
  BbSysHeapExtra : Nat := 0
  BbSysHeapFract : Nat := 0
deriving DecidableEq, Repr

/-- Extent descriptor of HFS, 4 bytes. -/
structure ExtDescriptor where
  XdrStABN : Nat := 0
  XdrNumAB : Nat := 0
deriving DecidableEq, Repr

/-- Big-endian image of an array `[3]ExtDescriptor`. -/
def beExts (l : List ExtDescriptor) : List Byte :=
  (((l.take 3 ++ List.replicate (3 - l.length) (ExtDescriptor.mk 0 0)).map
    (fun x => be16 x.XdrStABN ++ be16 x.XdrNumAB))).flatten

/-- The array `[3]ExtDescriptor` found at index `i` of a buffer. -/
def extsAt (bs : List Byte) (i : Nat) : List ExtDescriptor :=
  (List.range 3).map (fun j => { XdrStABN := u16At bs (i + 4 * j),
                                 XdrNumAB := u16At bs (i + 4 * j + 2) })

/-- Master Directory Block (MDB) for HFS, 162 bytes. -/
structure MasterDirectoryBlock where
  DrSigWord : Nat := 0
  DrCrDate : Nat := 0
  DrLsMod : Nat := 0
  DrAtrb : Nat := 0
  DrNmFls : Nat := 0
  DrVBMSt : Nat := 0
  DrAllocPtr : Nat := 0
  DrNmAlBlks : Nat := 0
  DrAlBlkSiz : Nat := 0
  DrClpSiz : Nat := 0
  DrAlBlSt : Nat := 0
  DrNxtCNID : Nat := 0
  DrFreeBks : Nat := 0
  DrVolName : List Byte := List.replicate 28 0
  DrVolBkUp : Nat := 0
  DrVSeqNum : Nat := 0
  DrWrCnt : Nat := 0
  DrXTClpSiz : Nat := 0
  DrCTClpSiz : Nat := 0
  DrNmRtDirs : Nat := 0
  DrFilCnt : Nat := 0
  DrDirCnt : Nat := 0
  DrFndrInfo : List Nat := List.replicate 8 0
  DrVCSize : Nat := 0
  DrVBMCSize : Nat := 0
  DrCtlCSize : Nat := 0
  DrXTFlSize : Nat := 0
  DrXTExtRec : List ExtDescriptor := List.replicate 3 (ExtDescriptor.mk 0 0)
  DrCTFlSize : Nat := 0
  DrCTExtRec : List ExtDescriptor := List.replicate 3 (ExtDescriptor.mk 0 0)
deriving DecidableEq, Repr

/-- Extent descriptor of HFS+, 8 bytes. -/
structure HFSPlusExtentDescriptor where
  StartBlock : Nat := 0
  BlockCount : Nat := 0
deriving DecidableEq, Repr

/-- Fork data of HFS+, 80 bytes. -/
structure HFSPlusForkData where
  LogicalSize : Nat := 0
  ClumpSize : Nat := 0
  TotalBlocks : Nat := 0
  Extents : List HFSPlusExtentDescriptor := List.replicate 8 (HFSPlusExtentDescriptor.mk 0 0)
deriving DecidableEq, Repr

/-- Big-endian image of a `HFSPlusForkData`. -/
def beFork (k : HFSPlusForkData) : List Byte :=
  be64 k.LogicalSize ++ be32 k.ClumpSize ++ be32 k.TotalBlocks
    ++ (((k.Extents.take 8 ++ List.replicate (8 - k.Extents.length)
        (HFSPlusExtentDescriptor.mk 0 0)).map
      (fun x => be32 x.StartBlock ++ be32 x.BlockCount))).flatten

/-- The `HFSPlusForkData` found at index `i` of a buffer. -/
def forkAt (bs : List Byte) (i : Nat) : HFSPlusForkData :=
  { LogicalSize := u64At bs i
    ClumpSize := u32At bs (i + 8)
    TotalBlocks := u32At bs (i + 12)
    Extents := (List.range 8).map (fun j =>
      { StartBlock := u32At bs (i + 16 + 8 * j), BlockCount := u32At bs (i + 16 + 8 * j + 4) }) }

/-- HFS Plus Volume Header, 512 bytes. -/
structure HFSPlusVolumeHeader where
  Signature : Nat := 0
  Version : Nat := 0
  Attributes : Nat := 0
  LastMountedVersion : Nat := 0
  JournalInfoBlock : Nat := 0
  CreateDate : Nat := 0
  ModifyDate : Nat := 0
  BackupDate : Nat := 0
  CheckedDate : Nat := 0
  FileCount : Nat := 0
  DirCount : Nat := 0
  BlockSize : Nat := 0
  TotalBlocks : Nat := 0
  FreeBlocks : Nat := 0
  NextAllocation : Nat := 0
  ResClumpSize : Nat := 0
  DataClumpSize : Nat := 0
  NextCatalogID : Nat := 0
  WriteCount : Nat := 0
  EncodingsBitmap : Nat := 0
  FinderInfo : List Nat := List.replicate 8 0
  AllocationFile : HFSPlusForkData := {}
  ExtentsFile : HFSPlusForkData := {}
  CatalogFile : HFSPlusForkData := {}
  AttributesFile : HFSPlusForkData := {}
  StartupFile : HFSPlusForkData := {}
deriving DecidableEq, Repr

/-- Big-endian layout of `BootBlockHeader`, fields in declared order. -/
def BootBlockHeader.codec : Codec BootBlockHeader where
  size := 148
  encode := fun b =>
    be16 b.BbID ++ be32 b.BbEntry ++ be16 b.BbVersion ++ be16 b.BbPageFlags
      ++ fixed 16 b.BbSysName ++ fixed 16 b.BbShellName ++ fixed 16 b.BbDbg1Name
      ++ fixed 16 b.BbDbg2Name ++ fixed 16 b.BbScreenName ++ fixed 16 b.BbHelloName
      ++ fixed 16 b.BbScrapName ++ be16 b.BbCntFCBs ++ be16 b.BbCntEvts
      ++ be32 b.Bb128KSHeap ++ be32 b.Bb256KSHeap ++ be32 b.BbSysHeapSize
      ++ be16 b.Filler ++ be32 b.BbSysHeapExtra ++ be32 b.BbSysHeapFract
  decode := fun bs =>
    { BbID := u16At bs 0, BbEntry := u32At bs 2, BbVersion := u16At bs 6,
      BbPageFlags := u16At bs 8,
      BbSysName := (bs.drop 10).take 16, BbShellName := (bs.drop 26).take 16,
      BbDbg1Name := (bs.drop 42).take 16, BbDbg2Name := (bs.drop 58).take 16,
      BbScreenName := (bs.drop 74).take 16, BbHelloName := (bs.drop 90).take 16,
      BbScrapName := (bs.drop 106).take 16,
      BbCntFCBs := u16At bs 122, BbCntEvts := u16At bs 124,
      Bb128KSHeap := u32At bs 126, Bb256KSHeap := u32At bs 130,
      BbSysHeapSize := u32At bs 134, Filler := u16At bs 138,
      BbSysHeapExtra := u32At bs 140, BbSysHeapFract := u32At bs 144 }

/-- Big-endian layout of `MasterDirectoryBlock`, fields in declared order. -/
def MasterDirectoryBlock.codec : Codec MasterDirectoryBlock where
  size := 162
  encode := fun m =>
    be16 m.DrSigWord ++ be32 m.DrCrDate ++ be32 m.DrLsMod ++ be16 m.DrAtrb
      ++ be16 m.DrNmFls ++ be16 m.DrVBMSt ++ be16 m.DrAllocPtr ++ be16 m.DrNmAlBlks
      ++ be32 m.DrAlBlkSiz ++ be32 m.DrClpSiz ++ be16 m.DrAlBlSt ++ be32 m.DrNxtCNID
      ++ be16 m.DrFreeBks ++ fixed 28 m.DrVolName ++ be32 m.DrVolBkUp
      ++ be16 m.DrVSeqNum ++ be32 m.DrWrCnt ++ be32 m.DrXTClpSiz ++ be32 m.DrCTClpSiz
      ++ be16 m.DrNmRtDirs ++ be32 m.DrFilCnt ++ be32 m.DrDirCnt
      ++ be32s 8 m.DrFndrInfo ++ be16 m.DrVCSize ++ be16 m.DrVBMCSize
      ++ be16 m.DrCtlCSize ++ be32 m.DrXTFlSize ++ beExts m.DrXTExtRec
      ++ be32 m.DrCTFlSize ++ beExts m.DrCTExtRec
  decode := fun bs =>
    { DrSigWord := u16At bs 0, DrCrDate := u32At bs 2, DrLsMod := u32At bs 6,
      DrAtrb := u16At bs 10, DrNmFls := u16At bs 12, DrVBMSt := u16At bs 14,
      DrAllocPtr := u16At bs 16, DrNmAlBlks := u16At bs 18, DrAlBlkSiz := u32At bs 20,
      DrClpSiz := u32At bs 24, DrAlBlSt := u16At bs 28, DrNxtCNID := u32At bs 30,
      DrFreeBks := u16At bs 34, DrVolName := (bs.drop 36).take 28,
      DrVolBkUp := u32At bs 64, DrVSeqNum := u16At bs 68, DrWrCnt := u32At bs 70,
      DrXTClpSiz := u32At bs 74, DrCTClpSiz := u32At bs 78, DrNmRtDirs := u16At bs 82,
      DrFilCnt := u32At bs 84, DrDirCnt := u32At bs 88, DrFndrInfo := u32sAt bs 92 8,
      DrVCSize := u16At bs 124, DrVBMCSize := u16At bs 126, DrCtlCSize := u16At bs 128,
      DrXTFlSize := u32At bs 130, DrXTExtRec := extsAt bs 134,
      DrCTFlSize := u32At bs 146, DrCTExtRec := extsAt bs 150 }

/-- Big-endian layout of `HFSPlusVolumeHeader`, fields in declared order. -/
def HFSPlusVolumeHeader.codec : Codec HFSPlusVolumeHeader where
  size := 512
  encode := fun v =>
    be16 v.Signature ++ be16 v.Version ++ be32 v.Attributes ++ be32 v.LastMountedVersion
      ++ be32 v.JournalInfoBlock ++ be32 v.CreateDate ++ be32 v.ModifyDate
      ++ be32 v.BackupDate ++ be32 v.CheckedDate ++ be32 v.FileCount ++ be32 v.DirCount
      ++ be32 v.BlockSize ++ be32 v.TotalBlocks ++ be32 v.FreeBlocks
      ++ be32 v.NextAllocation ++ be32 v.ResClumpSize ++ be32 v.DataClumpSize
      ++ be32 v.NextCatalogID ++ be32 v.WriteCount ++ be64 v.EncodingsBitmap
      ++ be32s 8 v.FinderInfo ++ beFork v.AllocationFile ++ beFork v.ExtentsFile
      ++ beFork v.CatalogFile ++ beFork v.AttributesFile ++ beFork v.StartupFile
  decode := fun bs =>
    { Signature := u16At bs 0, Version := u16At bs 2, Attributes := u32At bs 4,
      LastMountedVersion := u32At bs 8, JournalInfoBlock := u32At bs 12,
      CreateDate := u32At bs 16, ModifyDate := u32At bs 20, BackupDate := u32At bs 24,
      CheckedDate := u32At bs 28, FileCount := u32At bs 32, DirCount := u32At bs 36,
      BlockSize := u32At bs 40, TotalBlocks := u32At bs 44, FreeBlocks := u32At bs 48,
      NextAllocation := u32At bs 52, ResClumpSize := u32At bs 56,
      DataClumpSize := u32At bs 60, NextCatalogID := u32At bs 64,
      WriteCount := u32At bs 68, EncodingsBitmap := u64At bs 72,
      FinderInfo := u32sAt bs 80 8, AllocationFile := forkAt bs 112,
      ExtentsFile := forkAt bs 192, CatalogFile := forkAt bs 272,
      AttributesFile := forkAt bs 352, StartupFile := forkAt bs 432 }

/-! ## Checksum of a span (utils.go) -/

/-- The call `f.ReadAt(b, offset)` with `len(b) = n`: all `n` bytes at `offset`,
`EOF` when the file ends before; the cursor is not used. -/
def File.ReadAt (f : File) (n : Nat) (offset : Int) : Except Error (List Byte) :=
  if offset < 0 then .error .EINVAL
  else if n ≤ f.data.length - offset.toNat then .ok (slice f.data offset.toNat n)
  else .error .EOF

def ComputeChecksum (f : File) (offset : Int) (length : Nat) : Except Error Nat :=
  match f.ReadAt length offset with
  | .error e => .error e
  | .ok b => .ok (Checksum16 b)

/-! ## Reports (describe.go) -/

/-- An argument of a `tabPrint` call: `float` stands for the `float64`
quotient `num / den`, `time` for the value `time.Unix(unix, 0).UTC()` that is
formatted.  The text `fmt.Sprintf` makes of an argument is given by `Sprintf`. -/
inductive Arg where
  | int (v : Int)
  | str (s : List Byte)
  | float (num den : Nat)
  | time (unix : Int)
deriving DecidableEq, Repr

/-- One call `tabPrint(sb, tab, format, a...)`: what it appends to the builder
is `tab` indentation units followed by the formatted text. -/
structure Piece where
  tab : Nat
  format : String
  args : List Arg
deriving DecidableEq, Repr

/-- What a function appends to the `strings.Builder` it is given: its
`tabPrint` calls in order.  The builder is never read nor reset, so each
function is modelled by what it appends. -/
abbrev Report := List Piece

def hfsEpochOffset : Int := 2082844800

/-- The string `DateStringForHFSDate` returns, as a print argument. -/
def DateStringForHFSDate (hfsDate : Nat) : Arg :=
  if hfsDate = 0 then .str []
  else
    let unixTime : Int := (hfsDate : Int) - hfsEpochOffset
    .time unixTime

/-- The call `tabPrint(sb, tab, format, a...)`: one piece is appended, whose
text `indent + fmt.Sprintf(format, a...)` is `Piece.text`. -/
def tabPrint (tab : Nat) (format : String) (a : List Arg) : Report :=
  [{ tab := tab, format := format, args := a }]

/-- The call `strings.HasPrefix(s, p)` on byte strings. -/
def HasPrefix (s p : List Byte) : Bool := p.isPrefixOf s

/-- The index expression `a[i]`, which panics out of range. -/
def indexByte (a : List Byte) (i : Nat) : Except Error Byte :=
  match a[i]? with
  | some b => .ok b
  | none => .error .panic

/-- The slice expression `a[lo:hi]`, which panics out of range. -/
def sliceBytes (a : List Byte) (lo hi : Nat) : Except Error (List Byte) :=
  if lo ≤ hi ∧ hi ≤ a.length then .ok ((a.drop lo).take (hi - lo)) else .error .panic

def describeHFSPlusVolume (f : File) (offset : Int) (tab : Nat) : Report :=
  match ReadBigEndian HFSPlusVolumeHeader.codec f offset with
  | .error _ => tabPrint tab "Error reading HFS+ volume header\n" []
  | .ok vh =>
    let capacityBytes : Nat := (vh.BlockSize * vh.TotalBlocks) % 2 ^ 64
    let usedBytes : Nat :=
      (vh.BlockSize * ((vh.TotalBlocks + 2 ^ 64 - vh.FreeBlocks) % 2 ^ 64)) % 2 ^ 64
    let freeBytes : Nat := (vh.BlockSize * vh.FreeBlocks) % 2 ^ 64
    tabPrint tab "Created: %s\n" [DateStringForHFSDate vh.CreateDate]
      ++ tabPrint tab "Last modified: %s\n" [DateStringForHFSDate vh.ModifyDate]
      ++ tabPrint tab "Capacity: %.1f MB (%d bytes)\n"
          [.float capacityBytes (1024 * 1024), .int capacityBytes]
      ++ tabPrint tab "Used: %.1f MB (%d bytes)\n" [.float usedBytes (1024 * 1024), .int usedBytes]
      ++ tabPrint tab "Free: %.1f MB (%d bytes)\n" [.float freeBytes (1024 * 1024), .int freeBytes]

/-- The volume name of `describeHFSVolume`: the length byte, clamped to 27,
then the slice `DrVolName[1 : 1+nameLen]`. -/
def describeHFSVolume.name (DrVolName : List Byte) : Except Error (List Byte) :=
  match indexByte DrVolName 0 with
  | .error e => .error e
  | .ok b =>
    let nameLen : Nat := b.val
    let nameLen : Nat := if nameLen > 27 then 27 else nameLen
    sliceBytes DrVolName 1 (1 + nameLen)

/-- The `uint64` byte counts of `describeHFSVolume`: capacity, used and free.
The difference of the block counts is taken in `uint32`. -/
def describeHFSVolume.capacityBytes (mdb : MasterDirectoryBlock) : Nat :=
  (mdb.DrAlBlkSiz * mdb.DrNmAlBlks) % 2 ^ 64

def describeHFSVolume.usedBytes (mdb : MasterDirectoryBlock) : Nat :=
  (mdb.DrAlBlkSiz * ((mdb.DrNmAlBlks + 2 ^ 32 - mdb.DrFreeBks) % 2 ^ 32)) % 2 ^ 64

def describeHFSVolume.freeBytes (mdb : MasterDirectoryBlock) : Nat :=
  (mdb.DrAlBlkSiz * mdb.DrFreeBks) % 2 ^ 64

/-- The lines of `describeHFSVolume` under `if verbose`. -/
def describeHFSVolume.verboseLines (bb : BootBlockHeader) (mdb : MasterDirectoryBlock)
    (tab : Nat) : Report :=
  tabPrint tab "Boot block signature: 0x%04X" [.int bb.BbID]
    ++ (if bb.BbID = 0 then tabPrint 0 " (non-bootable volume)\n" []
        else if bb.BbID = 0x4C4B then tabPrint 0 " 'LK' (bootable volume)\n" []
        else tabPrint 0 " (expected 0x4C4B)\n" [])
    ++ tabPrint tab "Boot block version: 0x%04X\n" [.int bb.BbVersion]
    ++ tabPrint tab "Volume signature: 0x%04X " [.int mdb.DrSigWord]
    ++ (if mdb.DrSigWord = 0x4244 then tabPrint 0 "'BD' (HFS volume)\n" []
        else if mdb.DrSigWord = 0x482B then tabPrint 0 "'H+' (HFS+ volume)\n" []
        else tabPrint 0 "(unrecognized format)\n" [])

def describeHFSVolume (f : File) (offset : Int) (tab : Nat) (verbose : Bool) :
    Except Error Report :=
  match ReadBigEndian BootBlockHeader.codec f offset with
  | .error _ => .ok (tabPrint tab "Error reading HFS boot blocks\n" [])
  | .ok bb =>
    let mdbOffset := offset + 512 * 2
    match ReadBigEndian MasterDirectoryBlock.codec f mdbOffset with
    | .error _ => .ok (tabPrint tab "Error reading volume information block\n" [])
    | .ok mdb =>
      let sb : Report := if verbose then describeHFSVolume.verboseLines bb mdb tab else []
      if mdb.DrSigWord = 0x4244 then
        match describeHFSVolume.name mdb.DrVolName with
        | .error e => .error e
        | .ok name =>
          let capacityBytes := describeHFSVolume.capacityBytes mdb
          let usedBytes := describeHFSVolume.usedBytes mdb
          let freeBytes := describeHFSVolume.freeBytes mdb
          .ok (sb
            ++ tabPrint tab "Volume: %s\n" [.str name]
            ++ tabPrint tab "Created: %s\n" [DateStringForHFSDate mdb.DrCrDate]
            ++ tabPrint tab "Last modified: %s\n" [DateStringForHFSDate mdb.DrLsMod]
            ++ tabPrint tab "Capacity: %.1f MB (%d bytes)\n"
                [.float capacityBytes (1024 * 1024), .int capacityBytes]
            ++ tabPrint tab "Used: %.1f MB (%d bytes)\n"
                [.float usedBytes (1024 * 1024), .int usedBytes]
            ++ tabPrint tab "Free: %.1f MB (%d bytes)\n"
                [.float freeBytes (1024 * 1024), .int freeBytes])
      else if mdb.DrSigWord = 0x482B then .ok (sb ++ describeHFSPlusVolume f mdbOffset tab)
      else .ok sb

/-- The first lines of an entry of `describePartitionMap`: index, name, type,
byte range and truncation mark. -/
def describePartitionMap.sizeLines (fileSize : Int) (tab : Nat) (i : Int) (pme : Partition) :
    Report :=
  let partOffset : Int := (pme.PmPyPartStart : Int) * 512
  let partLength : Int := (pme.PmPartBlkCnt : Int) * 512
  let pName := trimRightNul pme.PmPartName
  let pType := trimRightNul pme.PmPartType
  tabPrint tab "\n" []
    ++ tabPrint tab "Partition %d: %s (%s)\n" [.int i, .str pName, .str pType]
    ++ tabPrint (tab + 1) "Size: %d bytes (offset %d to %d)"
        [.int partLength, .int partOffset, .int (partOffset + partLength)]
    ++ (if partOffset + partLength > fileSize then tabPrint 0 " [TRUNCATED]" [] else [])
    ++ tabPrint 0 "\n" []

/-- The lines of an entry of `describePartitionMap` under
`if strings.HasPrefix(pType, "Apple_Driver")`. -/
def describePartitionMap.driverLines (f : File) (tab : Nat) (pme : Partition) : Report :=
  let partOffset : Int := (pme.PmPyPartStart : Int) * 512
  let pName := trimRightNul pme.PmPartName
  let drvOffset := partOffset
  let drvLength : Int := (pme.PmBootSize : Int)
  let cksum : Nat := valueOrZero (ComputeChecksum f drvOffset drvLength.toNat)
  tabPrint (tab + 1) "Code: %d bytes (offset %d in file)\n" [.int drvLength, .int drvOffset]
    ++ tabPrint (tab + 1) "Checksum: 0x%08X" [.int pme.PmBootCksum]
    ++ (if pme.PmBootCksum = 0 then
          (if HasPrefix pName (strBytes "Maci") then tabPrint 0 " (driver will not load)" []
           else [])
        else
          tabPrint 0 " (computed 0x%04X) " [.int cksum]
            ++ (if cksum % 4294967296 = pme.PmBootCksum then tabPrint 0 " [VERIFIED]" []
                else tabPrint 0 " [VERIFY FAILED]" []))
    ++ tabPrint 0 "\n" []

/-- The body of the loop of `describePartitionMap` for the entry `pme` of index `i`. -/
def describePartitionMap.entry (f : File) (fileSize : Int) (tab : Nat) (i : Int)
    (pme : Partition) : Except Error Report :=
  let partOffset : Int := (pme.PmPyPartStart : Int) * 512
  let pType := trimRightNul pme.PmPartType
  let sb := describePartitionMap.sizeLines fileSize tab i pme
  let sb := if HasPrefix pType (strBytes "Apple_Driver") then
      sb ++ describePartitionMap.driverLines f tab pme else sb
  if HasPrefix pType (strBytes "Apple_HFS") then
    match describeHFSVolume f partOffset (tab + 1) true with
    | .error e => .error e
    | .ok vol => .ok (sb ++ vol)
  else .ok sb

/-- The loop of `describePartitionMap`, run for at most `fuel` entries. -/
def describePartitionMap.loop (f : File) (fileSize : Int) (tab : Nat) :
    Nat → Int → Int → Except Error Report
  | 0, pmeOffset, _ => if pmeOffset > 0 then .error .outOfFuel else .ok []
  | fuel + 1, pmeOffset, i =>
    if pmeOffset > 0 then
      match ReadBigEndian Partition.codec f pmeOffset with
      | .error _ => .ok []
      | .ok pme =>
        if pme.PmSig ≠ 0x504D then .ok []
        else
          match describePartitionMap.entry f fileSize tab i pme with
          | .error e => .error e
          | .ok block =>
            match describePartitionMap.loop f fileSize tab fuel (pmeOffset + 512) (i + 1) with
            | .error e => .error e
            | .ok rest => .ok (block ++ rest)
    else .ok []

/-- The function `describePartitionMap`, on the fuel of `ProbePartitionMap`. -/
def describePartitionMap (f : File) (fileSize : Int) (tab : Nat) : Except Error Report :=
  describePartitionMap.loop f fileSize tab (f.data.length / 512 + 1) 512 0

/-- The arguments of the first `n` progress calls, from the specification's
words: after chunk `k` (counted from 1) the bytes copied so far are
`min (k * 262144) hfsLen`. -/
def progressCalls (hfsLen : Int) (n : Nat) : List (Int × Int) :=
  (List.range n).map (fun (k : Nat) => (min (((k : Int) + 1) * 262144) hfsLen, hfsLen))

/-! ## More sample stores -/

/-- A sample store with no "Apple_HFS" entry: an empty block 0, the map's own
entry, and an empty block that ends the map. -/
def sampleMapWithoutHFS : File :=
  ⟨List.replicate 512 0 ++ Partition.codec.encode (WriteApplePartitionMapEntry.pme 1)
    ++ List.replicate 512 0, 0⟩

/-- A sample HFS volume whose Master Directory Block is corrupt: allocation
block size 512, no allocation block in all, one of them free. -/
def corruptVolume : File :=
  ⟨List.replicate 1024 0 ++ [0x42, 0x44] ++ List.replicate 18 0 ++ [0, 0, 2, 0]
    ++ List.replicate 10 0 ++ [0, 1] ++ List.replicate 126 0, 0⟩

/-- A sample Master Directory Block: 10 allocation blocks of 512 bytes, 3 of
them free, and a volume name field that starts with the length byte 200. -/
def sampleMDB : MasterDirectoryBlock :=
  { DrSigWord := 0x4244
    DrNmAlBlks := 10
    DrAlBlkSiz := 512
    DrFreeBks := 3
    DrVolName := fixed 28 ([200, 0x48, 0x44] ++ List.replicate 25 0x2E) }

/-- A sample HFS volume: empty boot blocks, then `sampleMDB`. -/
def sampleVolume : File :=
  ⟨List.replicate 1024 0 ++ MasterDirectoryBlock.codec.encode sampleMDB, 0⟩

/-- A sample driver entry of type "Apple_Driver43": one block at block 2, of
which 2 bytes are boot code, with the given name and stored checksum. -/
def driverEntry (name : String) (stored : Nat) : Partition :=
  { PmSig := 0x504D
    PmMapBlkCnt := 1
    PmPyPartStart := 2
    PmPartBlkCnt := 1
    PmPartName := fixed 32 (strBytes name)
    PmPartType := fixed 32 (strBytes "Apple_Driver43")
    PmBootSize := 2
    PmBootCksum := stored }

/-- A sample store of three blocks: an empty block 0, `driverEntry` as the only
map entry, then the driver block, whose boot code is `12 34`. -/
def driverMap (name : String) (stored : Nat) : File :=
  ⟨List.replicate 512 0 ++ Partition.codec.encode (driverEntry name stored)
    ++ [0x12, 0x34] ++ List.replicate 510 0, 0⟩

/-- A sample map of three entries in a file cut to 2560 bytes: the map itself,
a driver at block 4 and an HFS partition of 8 blocks from block 5, beyond the
end of the file. -/
def threeEntryMap : File :=
  ⟨List.replicate 512 0
    ++ Partition.codec.encode
        { PmSig := 0x504D, PmMapBlkCnt := 3, PmPyPartStart := 1, PmPartBlkCnt := 3,
          PmPartName := fixed 32 (strBytes "Apple"),
          PmPartType := fixed 32 (strBytes "Apple_partition_map") }
    ++ Partition.codec.encode
        { PmSig := 0x504D, PmMapBlkCnt := 3, PmPyPartStart := 4, PmPartBlkCnt := 1,
          PmPartName := fixed 32 (strBytes "Macintosh"),
          PmPartType := fixed 32 (strBytes "Apple_Driver43"),
          PmBootSize := 2, PmBootCksum := 0xB0 }
    ++ Partition.codec.encode
        { PmSig := 0x504D, PmMapBlkCnt := 3, PmPyPartStart := 5, PmPartBlkCnt := 8,
          PmPartName := fixed 32 (strBytes "MacOS"),
          PmPartType := fixed 32 (strBytes "Apple_HFS") }
    ++ [0x12, 0x34] ++ List.replicate 510 0, 0⟩

/-- A sample source of `2^41` zero bytes, the smallest volume whose count of
512-byte blocks does not fit a `uint32`. -/
def hugeVolume : File := ⟨List.replicate 2199023255552 0, 0⟩

/-! ## The text of a report (describe.go, `fmt`) -/

/-- The text of the verb `%d` for an integer. -/
def decimal (v : Int) : List Byte :=
  match v with
  | .ofNat n => (Nat.toDigits 10 n).map (fun c => byte c.toNat)
  | .negSucc n => byte '-'.toNat :: (Nat.toDigits 10 (n + 1)).map (fun c => byte c.toNat)

/-- The text of the verbs `%04X` and `%08X` for an unsigned value: upper-case
hexadecimal digits, zero-padded to `width`. -/
def hexUpper (width : Nat) (v : Nat) : List Byte :=
  let digits := (Nat.toDigits 16 v).map (fun c => byte c.toUpper.toNat)
  List.replicate (width - digits.length) (byte '0'.toNat) ++ digits

/-- The two texts of the standard library that are not computed here: `%.1f`
of the `float64` quotient `num / den`, and the date that `time.Format` makes
of a Unix time. -/
structure Formats where
  float : Nat → Nat → List Byte
  time : Int → List Byte

/-- The call `fmt.Sprintf(format, a...)` for the verbs that `describe.go` uses,
each with the kind of argument it is used with: `%d`, `%s`, `%04X`, `%08X` and
`%.1f`.  Any other character of the format is copied. -/
def Sprintf (F : Formats) : List Char → List Arg → List Byte
  | '%' :: 'd' :: rest, .int v :: as => decimal v ++ Sprintf F rest as
  | '%' :: 's' :: rest, .str s :: as => s ++ Sprintf F rest as
  | '%' :: 's' :: rest, .time t :: as => F.time t ++ Sprintf F rest as
  | '%' :: '0' :: '4' :: 'X' :: rest, .int v :: as => hexUpper 4 v.toNat ++ Sprintf F rest as
  | '%' :: '0' :: '8' :: 'X' :: rest, .int v :: as => hexUpper 8 v.toNat ++ Sprintf F rest as
  | '%' :: '.' :: '1' :: 'f' :: rest, .float n d :: as => F.float n d ++ Sprintf F rest as
  | c :: rest, as => byte c.toNat :: Sprintf F rest as
  | [], _ => []

/-- What one `tabPrint` call appends to the builder:
`strings.Repeat("    ", tab) + fmt.Sprintf(format, a...)`. -/
def Piece.text (F : Formats) (p : Piece) : List Byte :=
  List.replicate (4 * p.tab) (byte ' '.toNat) ++ Sprintf F p.format.toList p.args

/-- The text that the calls of a report append to the builder, in order. -/
def textOf (F : Formats) (r : Report) : List Byte :=
  (r.map (Piece.text F)).flatten

/-! ## `float64` arithmetic (convert.go, the progress value)

`WriteHFSVolumeData` passes `float64(hfsLen-bytesRemaining) / float64(hfsLen)`
to the callback.  A `float64` is modelled by the rational it denotes; a
conversion and a division give the exact result rounded to 53 significant
bits, ties to the even significand.  The exponent is not bounded: every value
met here lies in the normal range. -/

/-- Nearest integer to a rational, a tie going to the even one. -/
def roundHalfEven (x : ℚ) : ℤ :=
  if x - ⌊x⌋ < 1 / 2 then ⌊x⌋
  else if 1 / 2 < x - ⌊x⌋ then ⌊x⌋ + 1
  else if ⌊x⌋ % 2 = 0 then ⌊x⌋ else ⌊x⌋ + 1

/-- The `float64` nearest to a rational: 53 significant bits, round to nearest
even. -/
def binary64 (x : ℚ) : ℚ :=
  if x = 0 then 0
  else roundHalfEven (x / 2 ^ (Int.log 2 |x| - 52)) * 2 ^ (Int.log 2 |x| - 52)

/-- The value `float64(copied) / float64(hfsLen)` computed in
`WriteHFSVolumeData` for a progress call with these operands. -/
def percent (call : Int × Int) : ℚ :=
  binary64 (binary64 call.1 / binary64 call.2)

/-- A sample source of `2^53 + 1` zero bytes. -/
def longVolume : File := ⟨List.replicate 9007199254740993 0, 0⟩

/-- Whether the byte `c` is directly followed by the byte `d` somewhere in a
text. -/
def hasPair (c d : Byte) : List Byte → Bool
  | x :: y :: rest => (x == c && y == d) || hasPair c d (y :: rest)
  | _ => false

/-! ## Store lemmas -/

theorem length_slice (d : List Byte) (p n : Nat) :
    (slice d p n).length = min n (d.length - p) := by
  simp [slice]

theorem getElem?_slice (d : List Byte) (p n i : Nat) :
    (slice d p n)[i]? = if i < n then d[p + i]? else none := by
  simp [slice, List.getElem?_take, List.getElem?_drop]

theorem slice_add (d : List Byte) (p a b : Nat) :
    slice d p a ++ slice d (p + a) b = slice d p (a + b) := by
  simp only [slice, List.take_add, List.drop_drop]

theorem length_writeAt (d : List Byte) (off : Nat) (bs : List Byte) (h : bs ≠ []) :
    (writeAt d off bs).length = max d.length (off + bs.length) := by
  have h1 : bs.isEmpty = false := by
    cases bs with
    | nil => exact absurd rfl h
    | cons a l => rfl
  simp only [writeAt, h1]
  simp
  omega

theorem writeAt_nil (d : List Byte) (off : Nat) : writeAt d off [] = d := by
  simp [writeAt]

theorem getElem?_writeAt (d : List Byte) (off : Nat) (bs : List Byte) (i : Nat) :
    (writeAt d off bs)[i]? =
      if off ≤ i ∧ i < off + bs.length then bs[i - off]?
      else if i < d.length then d[i]?
      else if i < off ∧ bs ≠ [] then some 0
      else none := by
  cases bs with
  | nil =>
    have e4 : ¬ (off ≤ i ∧ i < off + ([] : List Byte).length) := by
      simp only [List.length_nil]; omega
    simp only [writeAt_nil, e4, if_false]
    by_cases h : i < d.length
    · simp [h]
    · simp only [h, if_false]
      simp
      omega
  | cons b l =>
    have hlen : (b :: l).length = l.length + 1 := rfl
    generalize hbs : b :: l = bs at hlen
    have hne : bs.isEmpty = false := by rw [← hbs]; rfl
    have hne2 : bs ≠ [] := by rw [← hbs]; simp
    simp only [writeAt, hne, Bool.false_eq_true, if_false]
    simp only [List.getElem?_append, List.length_append, List.length_take,
      List.length_replicate, List.getElem?_take, List.getElem?_replicate,
      List.getElem?_drop]
    by_cases h1 : i < off
    · by_cases h2 : i < d.length
      · have e1 : i < min off d.length + (off - d.length) + bs.length := by omega
        have e2 : i < min off d.length + (off - d.length) := by omega
        have e3 : i < min off d.length := by omega
        have e4 : ¬ (off ≤ i ∧ i < off + bs.length) := by omega
        simp [e1, e2, e3, e4, h1, h2]
      · have e1 : i < min off d.length + (off - d.length) + bs.length := by omega
        have e2 : i < min off d.length + (off - d.length) := by omega
        have e3 : ¬ i < min off d.length := by omega
        have e4 : ¬ (off ≤ i ∧ i < off + bs.length) := by omega
        have e5 : i - min off d.length < off - d.length := by omega
        simp [e1, e2, e3, e4, e5, h1, h2, hne2]
    · by_cases h2 : i < off + bs.length
      · have e1 : i < min off d.length + (off - d.length) + bs.length := by omega
        have e2 : ¬ i < min off d.length + (off - d.length) := by omega
        have e4 : (off ≤ i ∧ i < off + bs.length) := by omega
        have e5 : i - (min off d.length + (off - d.length)) = i - off := by omega
        simp [e1, e2, e4, e5]
      · have e1 : ¬ i < min off d.length + (off - d.length) + bs.length := by omega
        have e4 : ¬ (off ≤ i ∧ i < off + bs.length) := by omega
        have e5 : off + bs.length + (i - (min off d.length + (off - d.length) + bs.length)) = i := by omega
        simp only [e1, e4, e5, if_false]
        by_cases h3 : i < d.length
        · simp [h3]
        · have e6 : ¬ (i < off ∧ bs ≠ []) := by omega
          have e7 : d[i]? = none := List.getElem?_eq_none (by omega)
          simp [h3, e6, e7]

/-! ## Big-endian words and records -/

theorem byte_val (n : Nat) : (byte n).val = n % 256 := rfl

@[simp] theorem length_be16 (n : Nat) : (be16 n).length = 2 := rfl

@[simp] theorem length_be32 (n : Nat) : (be32 n).length = 4 := rfl

@[simp] theorem length_fixed (n : Nat) (l : List Byte) : (fixed n l).length = n := by
  simp [fixed]; omega

theorem fixed_of_length (n : Nat) (l : List Byte) (h : l.length = n) : fixed n l = l := by
  simp [fixed, h]

theorem getD_append_skip (l₁ l₂ : List Byte) (i : Nat) (h : l₁.length ≤ i) :
    (l₁ ++ l₂).getD i 0 = l₂.getD (i - l₁.length) 0 := by
  simp only [List.getD_eq_getElem?_getD, List.getElem?_append]
  have : ¬ i < l₁.length := by omega
  simp [this]

theorem u16At_append_skip (l₁ l₂ : List Byte) (i : Nat) (h : l₁.length ≤ i) :
    u16At (l₁ ++ l₂) i = u16At l₂ (i - l₁.length) := by
  unfold u16At
  rw [getD_append_skip _ _ _ h, getD_append_skip _ _ _ (by omega : l₁.length ≤ i + 1)]
  have : i + 1 - l₁.length = i - l₁.length + 1 := by omega
  rw [this]

theorem u32At_append_skip (l₁ l₂ : List Byte) (i : Nat) (h : l₁.length ≤ i) :
    u32At (l₁ ++ l₂) i = u32At l₂ (i - l₁.length) := by
  unfold u32At
  rw [getD_append_skip _ _ _ h, getD_append_skip _ _ _ (by omega : l₁.length ≤ i + 1),
    getD_append_skip _ _ _ (by omega : l₁.length ≤ i + 2),
    getD_append_skip _ _ _ (by omega : l₁.length ≤ i + 3)]
  have e1 : i + 1 - l₁.length = i - l₁.length + 1 := by omega
  have e2 : i + 2 - l₁.length = i - l₁.length + 2 := by omega
  have e3 : i + 3 - l₁.length = i - l₁.length + 3 := by omega
  rw [e1, e2, e3]

theorem drop_append_skip (l₁ l₂ : List Byte) (i : Nat) (h : l₁.length ≤ i) :
    (l₁ ++ l₂).drop i = l₂.drop (i - l₁.length) := by
  have : i = l₁.length + (i - l₁.length) := by omega
  rw [this, List.drop_append]
  simp

theorem u16At_be16 (n : Nat) (rest : List Byte) : u16At (be16 n ++ rest) 0 = n % 65536 := by
  simp [u16At, be16, byte_val]
  omega

theorem u16At_be16_nil (n : Nat) : u16At (be16 n) 0 = n % 65536 := by
  simp [u16At, be16, byte_val]
  omega

theorem u32At_be32 (n : Nat) (rest : List Byte) :
    u32At (be32 n ++ rest) 0 = n % 4294967296 := by
  simp [u32At, be32, byte_val]
  omega

theorem take_append_self (l rest : List Byte) (n : Nat) (h : l.length = n) :
    (l ++ rest).take n = l := by
  rw [← h]; simp

theorem DDRecord_length_encode (d : DDRecord) : (DDRecord.codec.encode d).length = 26 := by
  simp [DDRecord.codec]

theorem Partition_length_encode (p : Partition) : (Partition.codec.encode p).length = 512 := by
  simp [Partition.codec]

theorem DDRecord_decode_encode (d : DDRecord) (h : d.WF) :
    DDRecord.codec.decode (DDRecord.codec.encode d) = d := by
  obtain ⟨h1, h2, h3, h4, h5, h6, h7, h8, h9, h10⟩ := h
  cases d
  simp only [DDRecord.codec, List.append_assoc] at *
  simp only [u16At_append_skip, u32At_append_skip, length_be16, length_be32, Nat.le_refl,
    Nat.reduceLeDiff, Nat.reduceSub, u16At_be16, u32At_be32, u16At_be16_nil, Nat.zero_le]
  simp [Nat.mod_eq_of_lt, *]

theorem Partition_decode_encode (p : Partition) (h : p.WF) :
    Partition.codec.decode (Partition.codec.encode p) = p := by
  obtain ⟨h1, h2, h3, h4, h5, h6, h7, h8, h9, h10, h11, h12, h13, h14, h15, h16, h17,
    h18, h19⟩ := h
  cases p
  simp only [Partition.codec, List.append_assoc] at *
  simp only [fixed_of_length _ _ h6, fixed_of_length _ _ h7, fixed_of_length _ _ h18,
    fixed_of_length _ _ h19]
  simp only [u16At_append_skip, u32At_append_skip, drop_append_skip, length_be16,
    length_be32, Nat.le_refl, Nat.reduceLeDiff, Nat.reduceSub, u16At_be16, u32At_be32,
    Nat.zero_le, h6, h7, h18, h19, List.drop_zero, take_append_self]
  simp [Nat.mod_eq_of_lt, *]

/-! ## File operations -/

theorem Seek_ok (f : File) (off : Int) (h : 0 ≤ off) :
    f.Seek off = .ok ⟨f.data, off.toNat⟩ := by
  have : ¬ off < 0 := by omega
  simp [File.Seek, this]

theorem Seek_error (f : File) (off : Int) (h : off < 0) : f.Seek off = .error .EINVAL := by
  simp [File.Seek, h]

theorem ReadFull_ok (f : File) (size : Nat) (h : size ≤ f.data.length - f.pos) :
    ReadFull f size = .ok (slice f.data f.pos size, ⟨f.data, f.pos + size⟩) := by
  simp [ReadFull, h]

theorem ReadFull_error (f : File) (size : Nat) (h : f.data.length - f.pos < size) :
    ∃ e, ReadFull f size = .error e := by
  have : ¬ size ≤ f.data.length - f.pos := by omega
  simp only [ReadFull, this, if_false]
  split
  · exact ⟨_, rfl⟩
  · exact ⟨_, rfl⟩

theorem ReadBigEndian_ok {T : Type} (c : Codec T) (f : File) (off : Int) (h0 : 0 ≤ off)
    (h : c.size ≤ f.data.length - off.toNat) :
    ReadBigEndian c f off = .ok (c.decode (slice f.data off.toNat c.size)) := by
  simp only [ReadBigEndian, Seek_ok f off h0]
  rw [ReadFull_ok _ _ (by simpa using h)]

theorem ReadBigEndian_error {T : Type} (c : Codec T) (f : File) (off : Int)
    (h : off < 0 ∨ f.data.length - off.toNat < c.size) :
    ∃ e, ReadBigEndian c f off = .error e := by
  by_cases h0 : off < 0
  · exact ⟨.EINVAL, by simp only [ReadBigEndian, Seek_error f off h0]⟩
  · have h1 : f.data.length - off.toNat < c.size := by
      rcases h with h | h
      · exact absurd h h0
      · exact h
    obtain ⟨e, he⟩ := ReadFull_error ⟨f.data, off.toNat⟩ c.size (by simpa using h1)
    exact ⟨e, by simp only [ReadBigEndian, Seek_ok f off (by omega), he]⟩

theorem ReadBigEndian_inv {T : Type} (c : Codec T) (f : File) (off : Int) (v : T)
    (h : ReadBigEndian c f off = .ok v) :
    0 ≤ off ∧ c.size ≤ f.data.length - off.toNat
      ∧ v = c.decode (slice f.data off.toNat c.size) := by
  by_cases h1 : off < 0 ∨ f.data.length - off.toNat < c.size
  · obtain ⟨e, he⟩ := ReadBigEndian_error c f off h1
    rw [he] at h
    cases h
  · have h0 : 0 ≤ off := by omega
    have h2 : c.size ≤ f.data.length - off.toNat := by omega
    rw [ReadBigEndian_ok c f off h0 h2] at h
    cases h
    exact ⟨h0, h2, rfl⟩

theorem WriteBigEndian_ok {T : Type} (c : Codec T) (f : File) (off : Int) (v : T)
    (h0 : 0 ≤ off) :
    WriteBigEndian c f off v
      = .ok ⟨writeAt f.data off.toNat (c.encode v), off.toNat + (c.encode v).length⟩ := by
  simp only [WriteBigEndian, Seek_ok f off h0, File.Write]

/-! ## More on `slice` and `writeAt` -/

theorem length_writeAt_ge (d : List Byte) (off : Nat) (bs : List Byte) :
    d.length ≤ (writeAt d off bs).length := by
  by_cases h : bs = []
  · subst h; simp [writeAt_nil]
  · rw [length_writeAt d off bs h]; omega

theorem slice_writeAt_self (d : List Byte) (off : Nat) (bs : List Byte) :
    slice (writeAt d off bs) off bs.length = bs := by
  apply List.ext_getElem?
  intro i
  rw [getElem?_slice, getElem?_writeAt]
  by_cases h : i < bs.length
  · have e : off ≤ off + i ∧ off + i < off + bs.length := by omega
    have e2 : off + i - off = i := by omega
    simp [h, e2]
  · have e : bs[i]? = none := List.getElem?_eq_none (by omega)
    simp [h, e]

theorem slice_writeAt_of_le (d : List Byte) (off : Nat) (bs : List Byte) (p n : Nat)
    (h1 : p + n ≤ off) (h2 : p + n ≤ d.length) :
    slice (writeAt d off bs) p n = slice d p n := by
  apply List.ext_getElem?
  intro i
  rw [getElem?_slice, getElem?_slice, getElem?_writeAt]
  by_cases h : i < n
  · have e : ¬ (off ≤ p + i ∧ p + i < off + bs.length) := by omega
    have e2 : p + i < d.length := by omega
    simp [h, e, e2]
  · simp [h]

theorem slice_writeAt_of_ge (d : List Byte) (off : Nat) (bs : List Byte) (p n : Nat)
    (h1 : off + bs.length ≤ p) :
    slice (writeAt d off bs) p n = slice d p n := by
  apply List.ext_getElem?
  intro i
  rw [getElem?_slice, getElem?_slice, getElem?_writeAt]
  by_cases h : i < n
  · have e : ¬ (off ≤ p + i ∧ p + i < off + bs.length) := by omega
    have e3 : ¬ (p + i < off ∧ bs ≠ []) := by omega
    simp only [h, e, e3, if_true, if_false]
    by_cases e2 : p + i < d.length
    · simp [e2]
    · simp only [e2, if_false]
      exact (List.getElem?_eq_none (by omega)).symm
  · simp [h]

theorem writeAt_writeAt_append (d : List Byte) (p : Nat) (a b : List Byte) :
    writeAt (writeAt d p a) (p + a.length) b = writeAt d p (a ++ b) := by
  by_cases ha : a = []
  · subst ha; simp [writeAt_nil]
  by_cases hb : b = []
  · subst hb; simp [writeAt_nil]
  have hab : a ++ b ≠ [] := by simp [ha]
  have hal : 0 < a.length := List.length_pos.mpr ha
  have hbl : 0 < b.length := List.length_pos.mpr hb
  apply List.ext_getElem?
  intro i
  simp only [getElem?_writeAt, length_writeAt d p a ha, List.length_append,
    List.getElem?_append]
  by_cases h1 : i < p
  · have e1 : ¬ (p + a.length ≤ i ∧ i < p + a.length + b.length) := by omega
    have e2 : ¬ (p ≤ i ∧ i < p + a.length) := by omega
    have e3 : ¬ (p ≤ i ∧ i < p + (a.length + b.length)) := by omega
    have e4 : i < max d.length (p + a.length) := by omega
    simp [e1, e2, e3, e4, h1, ha, hab]
  · by_cases h2 : i < p + a.length
    · have e1 : ¬ (p + a.length ≤ i ∧ i < p + a.length + b.length) := by omega
      have e2 : (p ≤ i ∧ i < p + a.length) := by omega
      have e3 : (p ≤ i ∧ i < p + (a.length + b.length)) := by omega
      have e4 : i < max d.length (p + a.length) := by omega
      have e5 : i - p < a.length := by omega
      simp [e1, e2, e3, e4, e5]
    · by_cases h3 : i < p + a.length + b.length
      · have e1 : (p + a.length ≤ i ∧ i < p + a.length + b.length) := by omega
        have e3 : (p ≤ i ∧ i < p + (a.length + b.length)) := by omega
        have e5 : ¬ i - p < a.length := by omega
        have e6 : i - (p + a.length) = i - p - a.length := by omega
        simp [e1, e3, e5, e6]
      · have e1 : ¬ (p + a.length ≤ i ∧ i < p + a.length + b.length) := by omega
        have e2 : ¬ (p ≤ i ∧ i < p + a.length) := by omega
        have e3 : ¬ (p ≤ i ∧ i < p + (a.length + b.length)) := by omega
        have e7 : ¬ (i < p + a.length ∧ b ≠ []) := by omega
        have e8 : ¬ (i < p ∧ a ≠ []) := by omega
        have e9 : ¬ (i < p ∧ a ++ b ≠ []) := by omega
        have e10 : (i < max d.length (p + a.length)) ↔ i < d.length := by omega
        simp only [e1, e2, e3, e7, e8, e9, e10, if_false]
        by_cases e11 : i < d.length
        · simp [e11]
        · simp [e11]

/-! ## The copy loop -/

theorem Read_ok (f : File) (n : Nat) (h : 0 < (slice f.data f.pos n).length) :
    f.Read n = .ok (slice f.data f.pos n, ⟨f.data, f.pos + (slice f.data f.pos n).length⟩) := by
  have : ¬ (n ≠ 0 ∧ (slice f.data f.pos n).length = 0) := by omega
  simp only [File.Read, this, if_false]

theorem Read_eof (f : File) (n : Nat) (hn : 0 < n) (h : f.data.length ≤ f.pos) :
    f.Read n = .error .EOF := by
  have h1 : n ≠ 0 := by omega
  have h2 : (slice f.data f.pos n).length = 0 := by
    rw [length_slice]; omega
  simp [File.Read, h1, h2]

theorem toRead_cases (r : Int) (hr : 0 < r) :
    (if r < 256 * 1024 then r else (256 * 1024 : Int)).toNat = min r.toNat 262144 := by
  split <;> omega

theorem copy_loop_ok (hfsLen : Int) (progress : Bool) :
    ∀ (fuel : Nat) (ofd ifd : File) (r : Int) (calls : List (Int × Int)),
      r.toNat ≤ fuel → (0 < r → ifd.pos + r.toNat ≤ ifd.data.length) →
      ∃ calls', WriteHFSVolumeData.loop hfsLen progress fuel ofd ifd r calls
        = .ok (⟨writeAt ofd.data ofd.pos (slice ifd.data ifd.pos r.toNat), ofd.pos + r.toNat⟩,
            ⟨ifd.data, ifd.pos + r.toNat⟩, calls') := by
  intro fuel
  induction fuel with
  | zero =>
    intro ofd ifd r calls hf _
    have hr : ¬ r > 0 := by omega
    have h0 : r.toNat = 0 := by omega
    refine ⟨calls, ?_⟩
    simp only [WriteHFSVolumeData.loop, hr, if_false, h0, slice, List.take_zero, writeAt_nil,
      Nat.add_zero]
  | succ fuel ih =>
    intro ofd ifd r calls hf hen
    by_cases hr : r > 0
    · have hen' := hen hr
      have ht := toRead_cases r hr
      generalize hT : (if r < 256 * 1024 then r else (256 * 1024 : Int)).toNat = t at ht
      have hlen : (slice ifd.data ifd.pos t).length = t := by
        rw [length_slice]; omega
      have hread := Read_ok ifd t (by omega)
      rw [hlen] at hread
      have hr' : (r - ((slice ifd.data ifd.pos t).length : Int)).toNat = r.toNat - t := by
        rw [hlen]; omega
      obtain ⟨calls', hc⟩ := ih (ofd.Write (slice ifd.data ifd.pos t)) ⟨ifd.data, ifd.pos + t⟩
        (r - ((slice ifd.data ifd.pos t).length : Int))
        (if progress then
          calls ++ [(hfsLen - (r - ((slice ifd.data ifd.pos t).length : Int)), hfsLen)]
         else calls)
        (by omega) (by intro _; simp only [hr']; omega)
      refine ⟨calls', ?_⟩
      simp only [WriteHFSVolumeData.loop, hr, if_true, hT, hread]
      rw [hc]
      simp only [File.Write, hr', hlen]
      have e1 : writeAt (writeAt ofd.data ofd.pos (slice ifd.data ifd.pos t)) (ofd.pos + t)
          (slice ifd.data (ifd.pos + t) (r.toNat - t))
          = writeAt ofd.data ofd.pos (slice ifd.data ifd.pos r.toNat) := by
        have := writeAt_writeAt_append ofd.data ofd.pos (slice ifd.data ifd.pos t)
          (slice ifd.data (ifd.pos + t) (r.toNat - t))
        rw [hlen, slice_add] at this
        rw [this]
        congr 2
        omega
      have e2 : ofd.pos + t + (r.toNat - t) = ofd.pos + r.toNat := by omega
      have e3 : ifd.pos + t + (r.toNat - t) = ifd.pos + r.toNat := by omega
      have e0 : (r - (t : Int)).toNat = r.toNat - t := by omega
      rw [e0, e1, e2, e3]
    · have h0 : r.toNat = 0 := by omega
      refine ⟨calls, ?_⟩
      simp only [WriteHFSVolumeData.loop, hr, if_false, h0, slice, List.take_zero, writeAt_nil,
        Nat.add_zero]

theorem copy_loop_short (hfsLen : Int) (progress : Bool) :
    ∀ (fuel : Nat) (ofd ifd : File) (r : Int) (calls : List (Int × Int)),
      r.toNat ≤ fuel → 0 < r → ifd.data.length < ifd.pos + r.toNat →
      WriteHFSVolumeData.loop hfsLen progress fuel ofd ifd r calls = .error .EOF := by
  intro fuel
  induction fuel with
  | zero =>
    intro ofd ifd r calls hf hr _
    omega
  | succ fuel ih =>
    intro ofd ifd r calls hf hr hsh
    have hr1 : r > 0 := hr
    have ht := toRead_cases r hr
    generalize hT : (if r < 256 * 1024 then r else (256 * 1024 : Int)).toNat = t at ht
    by_cases hav : ifd.data.length ≤ ifd.pos
    · have hread := Read_eof ifd t (by omega) hav
      simp only [WriteHFSVolumeData.loop, hr1, if_true, hT, hread]
    · have hlen : (slice ifd.data ifd.pos t).length = min t (ifd.data.length - ifd.pos) :=
        length_slice _ _ _
      generalize hg : (slice ifd.data ifd.pos t).length = g at hlen
      have hread := Read_ok ifd t (by omega)
      rw [hg] at hread
      simp only [WriteHFSVolumeData.loop, hr1, if_true, hT, hread, hg]
      exact ih _ _ _ _ (by omega) (by omega) (by simp only; omega)

/-! ## Volume attributes and volume data -/

theorem getD_slice (d : List Byte) (p n i : Nat) (h : i < n) :
    (slice d p n).getD i 0 = d.getD (p + i) 0 := by
  simp only [List.getD_eq_getElem?_getD, getElem?_slice, h, if_true]

theorem u16At_slice (d : List Byte) (p n i : Nat) (h : i + 2 ≤ n) :
    u16At (slice d p n) i = u16At d (p + i) := by
  unfold u16At
  rw [getD_slice _ _ _ _ (by omega), getD_slice _ _ _ _ (by omega)]
  rfl

theorem u32At_slice (d : List Byte) (p n i : Nat) (h : i + 4 ≤ n) :
    u32At (slice d p n) i = u32At d (p + i) := by
  unfold u32At
  rw [getD_slice _ _ _ _ (by omega), getD_slice _ _ _ _ (by omega),
    getD_slice _ _ _ _ (by omega), getD_slice _ _ _ _ (by omega)]
  rfl

theorem WriteHFSVolumeAttributes_ok (f : File) (s : Int) (rw : Bool) (h0 : 0 ≤ s)
    (h : s.toNat + 1036 ≤ f.data.length) :
    WriteHFSVolumeAttributes f s rw
      = .ok ⟨writeAt f.data (s.toNat + 1034)
          (be16 (WriteHFSVolumeAttributes.patch rw (u16At f.data (s.toNat + 1034)))),
          s.toNat + 1036⟩ := by
  have e : (s + 512 * 2 + 10).toNat = s.toNat + 1034 := by omega
  simp only [WriteHFSVolumeAttributes, Seek_ok _ _ (by omega : 0 ≤ s + 512 * 2 + 10), e]
  rw [ReadFull_ok _ _ (by simp only; omega)]
  simp only [File.Write, u16At_slice _ _ 2 0 (Nat.le_refl _), length_be16, Nat.add_zero]

theorem WriteHFSVolumeAttributes_short (f : File) (s : Int) (rw : Bool) (h0 : 0 ≤ s)
    (h : f.data.length < s.toNat + 1036) :
    ∃ e, WriteHFSVolumeAttributes f s rw = .error e := by
  have e : (s + 512 * 2 + 10).toNat = s.toNat + 1034 := by omega
  obtain ⟨err, he⟩ := ReadFull_error ⟨f.data, s.toNat + 1034⟩ 2 (by simp only; omega)
  exact ⟨err, by
    simp only [WriteHFSVolumeAttributes, Seek_ok _ _ (by omega : 0 ≤ s + 512 * 2 + 10), e, he]⟩

/-- Success of `WriteHFSVolumeData` from its preconditions, with the contents
of the destination. -/
theorem WriteHFSVolumeData_ok (ofd ifd : File) (rd wr len : Int) (rw progress : Bool)
    (hrd : 0 ≤ rd) (hwr : 0 ≤ wr)
    (hsrc : 0 < len → rd.toNat + len.toNat ≤ ifd.data.length)
    (hdst : wr.toNat + 1036 ≤ (copied ofd.data ifd.data rd.toNat wr.toNat len.toNat).length) :
    ∃ calls, WriteHFSVolumeData ofd ifd rd wr len rw progress
      = .ok (⟨converted ofd.data ifd.data rd.toNat wr.toNat len.toNat rw, wr.toNat + 1036⟩,
          calls) := by
  obtain ⟨calls, hc⟩ := copy_loop_ok len progress len.toNat ⟨ofd.data, wr.toNat⟩
    ⟨ifd.data, rd.toNat⟩ len [] (Nat.le_refl _) hsrc
  refine ⟨calls, ?_⟩
  simp only [WriteHFSVolumeData, Seek_ok _ _ hrd, Seek_ok _ _ hwr, hc]
  rw [WriteHFSVolumeAttributes_ok _ _ _ hwr hdst]
  rfl

/-- What a successful `WriteHFSVolumeData` tells about its arguments and result. -/
theorem WriteHFSVolumeData_inv (ofd ifd : File) (rd wr len : Int) (rw progress : Bool)
    (dst : File) (calls : List (Int × Int))
    (h : WriteHFSVolumeData ofd ifd rd wr len rw progress = .ok (dst, calls)) :
    0 ≤ rd ∧ 0 ≤ wr ∧ (0 < len → rd.toNat + len.toNat ≤ ifd.data.length)
      ∧ wr.toNat + 1036 ≤ (copied ofd.data ifd.data rd.toNat wr.toNat len.toNat).length
      ∧ dst = ⟨converted ofd.data ifd.data rd.toNat wr.toNat len.toNat rw, wr.toNat + 1036⟩ := by
  by_cases hrd : rd < 0
  · simp only [WriteHFSVolumeData, Seek_error _ _ hrd] at h
    cases h
  by_cases hwr : wr < 0
  · simp only [WriteHFSVolumeData, Seek_ok _ _ (by omega : 0 ≤ rd), Seek_error _ _ hwr] at h
    cases h
  have hrd0 : 0 ≤ rd := by omega
  have hwr0 : 0 ≤ wr := by omega
  by_cases hsrc : 0 < len → rd.toNat + len.toNat ≤ ifd.data.length
  · by_cases hdst : wr.toNat + 1036
        ≤ (copied ofd.data ifd.data rd.toNat wr.toNat len.toNat).length
    · obtain ⟨calls', hc⟩ := WriteHFSVolumeData_ok ofd ifd rd wr len rw progress hrd0 hwr0
        hsrc hdst
      rw [hc] at h
      cases h
      exact ⟨hrd0, hwr0, hsrc, hdst, rfl⟩
    · obtain ⟨calls', hc⟩ := copy_loop_ok len progress len.toNat ⟨ofd.data, wr.toNat⟩
        ⟨ifd.data, rd.toNat⟩ len [] (Nat.le_refl _) hsrc
      obtain ⟨e, he⟩ := WriteHFSVolumeAttributes_short
        ⟨copied ofd.data ifd.data rd.toNat wr.toNat len.toNat, wr.toNat + len.toNat⟩ wr rw
        hwr0 (by simp only; omega)
      simp only [WriteHFSVolumeData, Seek_ok _ _ hrd0, Seek_ok _ _ hwr0, hc] at h
      simp only [copied] at he
      rw [he] at h
      cases h
  · have hlen : 0 < len := by
      by_contra hc
      exact hsrc (fun h' => absurd h' hc)
    have hsh : ifd.data.length < rd.toNat + len.toNat := by
      by_contra hc
      exact hsrc (fun _ => by omega)
    have hc := copy_loop_short len progress len.toNat ⟨ofd.data, wr.toNat⟩
      ⟨ifd.data, rd.toNat⟩ len [] (Nat.le_refl _) hlen hsh
    simp only [WriteHFSVolumeData, Seek_ok _ _ hrd0, Seek_ok _ _ hwr0, hc] at h
    cases h

/-! ## The partition map walk -/

theorem shrink_eq (off fs : Int) :
    ∀ (fuel n : Nat), n ≤ fuel →
      ProbePartitionMap.shrink off fs fuel ((n : Int) * 512)
        = .ok (max 0 (min ((n : Int) * 512) (512 * ((fs - off) / 512)))) := by
  intro fuel
  induction fuel with
  | zero =>
    intro n hn
    have h0 : n = 0 := by omega
    subst h0
    have hg : ¬ (((0 : Nat) : Int) * 512 ≥ 512 ∧ off + ((0 : Nat) : Int) * 512 > fs) := by omega
    simp only [ProbePartitionMap.shrink, hg, if_false]
    have e2 : ((0 : Nat) : Int) * 512
        = max 0 (min (((0 : Nat) : Int) * 512) (512 * ((fs - off) / 512))) := by omega
    rw [← e2]
  | succ fuel ih =>
    intro n hn
    by_cases hg : ((n : Int) * 512 ≥ 512 ∧ off + (n : Int) * 512 > fs)
    · simp only [ProbePartitionMap.shrink, hg, and_self, if_true]
      have h1 : 1 ≤ n := by omega
      have e : (n : Int) * 512 - 512 = ((n - 1 : Nat) : Int) * 512 := by omega
      rw [e, ih (n - 1) (by omega)]
      have e2 : max 0 (min (((n - 1 : Nat) : Int) * 512) (512 * ((fs - off) / 512)))
          = max 0 (min ((n : Int) * 512) (512 * ((fs - off) / 512))) := by omega
      rw [e2]
    · simp only [ProbePartitionMap.shrink, hg, if_false]
      have e2 : (n : Int) * 512
          = max 0 (min ((n : Int) * 512) (512 * ((fs - off) / 512))) := by omega
      rw [← e2]

theorem entry_offset_pos (k : Nat) : (512 : Int) * ((k : Int) + 1) > 0 := by omega

theorem loop_inv (f : File) (fs : Int) :
    ∀ (fuel k : Nat) (off len : Int),
      ProbePartitionMap.loop f fs fuel (512 * ((k : Int) + 1)) = .ok (off, len) →
      ∃ (j : Nat) (pme : Partition), k ≤ j
        ∧ (∀ i, k ≤ i → i < j → ∃ q, ReadBigEndian Partition.codec f (512 * ((i : Int) + 1)) = .ok q
            ∧ q.PmSig = 0x504D ∧ trimRightNul q.PmPartType ≠ strBytes "Apple_HFS")
        ∧ ReadBigEndian Partition.codec f (512 * ((j : Int) + 1)) = .ok pme
        ∧ pme.PmSig = 0x504D ∧ trimRightNul pme.PmPartType = strBytes "Apple_HFS"
        ∧ off = (pme.PmPyPartStart : Int) * 512 ∧ off ≤ fs
        ∧ len = max 0 (min ((pme.PmPartBlkCnt : Int) * 512) (512 * ((fs - off) / 512))) := by
  intro fuel
  induction fuel with
  | zero =>
    intro k off len h
    simp only [ProbePartitionMap.loop, entry_offset_pos k, if_true] at h
    cases h
  | succ fuel ih =>
    intro k off len h
    simp only [ProbePartitionMap.loop, entry_offset_pos k, if_true] at h
    cases hr : ReadBigEndian Partition.codec f (512 * ((k : Int) + 1)) with
    | error e =>
      rw [hr] at h
      cases h
    | ok pme =>
      rw [hr] at h
      simp only at h
      by_cases hsig : pme.PmSig = 0x504D
      · simp only [hsig, ne_eq, not_true_eq_false, if_false] at h
        by_cases hty : trimRightNul pme.PmPartType = strBytes "Apple_HFS"
        · simp only [hty, if_true] at h
          by_cases hoff : (pme.PmPyPartStart : Int) * 512 > fs
          · simp only [hoff, if_true] at h
            cases h
          · simp only [hoff, if_false] at h
            rw [shrink_eq _ _ _ _ (Nat.le_refl _)] at h
            simp only [Except.ok.injEq, Prod.mk.injEq] at h
            refine ⟨k, pme, Nat.le_refl _, ?_, hr, hsig, hty, h.1.symm, ?_, ?_⟩
            · intro i h1 h2
              omega
            · rw [← h.1]; omega
            · rw [← h.1]; exact h.2.symm
        · simp only [hty, if_false] at h
          have e : (512 : Int) * ((k : Int) + 1) + 512 = 512 * (((k + 1 : Nat) : Int) + 1) := by
            push_cast; ring
          rw [e] at h
          obtain ⟨j, q, hkj, hbefore, hrest⟩ := ih (k + 1) off len h
          refine ⟨j, q, by omega, ?_, hrest⟩
          intro i h1 h2
          by_cases hik : i = k
          · subst hik
            exact ⟨pme, hr, hsig, hty⟩
          · exact hbefore i (by omega) h2
      · simp only [ne_eq, hsig, not_false_eq_true, if_true] at h
        cases h

theorem loop_skip (f : File) (fs : Int) (fuel : Nat) (off : Int) (pme : Partition)
    (hoff : 0 < off) (hr : ReadBigEndian Partition.codec f off = .ok pme)
    (hsig : pme.PmSig = 0x504D) (hty : trimRightNul pme.PmPartType ≠ strBytes "Apple_HFS") :
    ProbePartitionMap.loop f fs (fuel + 1) off = ProbePartitionMap.loop f fs fuel (off + 512) := by
  have h1 : off > 0 := hoff
  simp only [ProbePartitionMap.loop, h1, if_true, hr, hsig, ne_eq, not_true_eq_false, if_false,
    hty]

theorem loop_hit (f : File) (fs : Int) (fuel : Nat) (off : Int) (pme : Partition)
    (hoff : 0 < off) (hr : ReadBigEndian Partition.codec f off = .ok pme)
    (hsig : pme.PmSig = 0x504D) (hty : trimRightNul pme.PmPartType = strBytes "Apple_HFS")
    (hfit : (pme.PmPyPartStart : Int) * 512 ≤ fs) :
    ProbePartitionMap.loop f fs (fuel + 1) off
      = .ok ((pme.PmPyPartStart : Int) * 512,
          max 0 (min ((pme.PmPartBlkCnt : Int) * 512)
            (512 * ((fs - (pme.PmPyPartStart : Int) * 512) / 512)))) := by
  have h1 : off > 0 := hoff
  have h2 : ¬ (pme.PmPyPartStart : Int) * 512 > fs := by omega
  simp only [ProbePartitionMap.loop, h1, if_true, hr, hsig, ne_eq, not_true_eq_false, if_false,
    hty, h2, shrink_eq _ _ _ _ (Nat.le_refl _)]

/-! ## The attribute word -/

theorem u16At_lt (d : List Byte) (p : Nat) : u16At d p < 65536 := by
  unfold u16At
  have h1 := (d.getD p 0).isLt
  have h2 := (d.getD (p + 1) 0).isLt
  omega

theorem u16At_writeAt_self (d : List Byte) (p w : Nat) :
    u16At (writeAt d p (be16 w)) p = w % 65536 := by
  have h := u16At_slice (writeAt d p (be16 w)) p 2 0 (Nat.le_refl _)
  rw [Nat.add_zero] at h
  rw [← h]
  have h2 := slice_writeAt_self d p (be16 w)
  rw [length_be16] at h2
  rw [h2, u16At_be16_nil]

theorem u16At_congr (a b : List Byte) (p q : Nat) (h0 : a[p]? = b[q]?)
    (h1 : a[p + 1]? = b[q + 1]?) : u16At a p = u16At b q := by
  simp only [u16At, List.getD_eq_getElem?_getD, h0, h1]

theorem patch_testBit (rw : Bool) (x k : Nat) (hx : x < 65536) :
    (WriteHFSVolumeAttributes.patch rw x).testBit k
      = if k = 7 ∨ k = 15 then !rw else x.testBit k := by
  have e7 : (1 : Nat) <<< HFSVolumeHardwareLockBit = 2 ^ 7 := by decide
  have e15 : (1 : Nat) <<< HFSVolumeSoftwareLockBit = 2 ^ 15 := by decide
  have eF : (0xFFFF : Nat) = 2 ^ 16 - 1 := by decide
  cases rw with
  | true =>
    simp only [WriteHFSVolumeAttributes.patch, if_true, not16, e7, e15, eF, Nat.testBit_and,
      Nat.testBit_xor, Nat.testBit_two_pow, Nat.testBit_two_pow_sub_one, Bool.not_true]
    by_cases h7 : k = 7
    · subst h7; simp
    by_cases h15 : k = 15
    · subst h15; simp
    by_cases h16 : k < 16
    · have a : ¬ (7 = k) := fun h => h7 h.symm
      have b : ¬ (15 = k) := fun h => h15 h.symm
      simp [h7, h15, h16, a, b]
    · have hb : x.testBit k = false :=
        Nat.testBit_lt_two_pow (Nat.lt_of_lt_of_le hx
          (by
            have : (65536 : Nat) = 2 ^ 16 := by decide
            rw [this]
            exact Nat.pow_le_pow_right (by decide) (by omega)))
      simp [h7, h15, hb]
  | false =>
    simp only [WriteHFSVolumeAttributes.patch, Bool.false_eq_true, if_false, e7, e15,
      Nat.testBit_or, Nat.testBit_two_pow, Bool.not_false]
    by_cases h7 : k = 7
    · subst h7; simp
    by_cases h15 : k = 15
    · subst h15; simp
    have a : ¬ (7 = k) := fun h => h7 h.symm
    have b : ¬ (15 = k) := fun h => h15 h.symm
    simp [h7, h15, a, b]

theorem patch_lt (rw : Bool) (x : Nat) (hx : x < 65536) :
    WriteHFSVolumeAttributes.patch rw x < 65536 := by
  have h16 : (65536 : Nat) = 2 ^ 16 := by decide
  cases rw with
  | true =>
    simp only [WriteHFSVolumeAttributes.patch, if_true]
    exact Nat.lt_of_le_of_lt Nat.and_le_left (Nat.lt_of_le_of_lt Nat.and_le_left hx)
  | false =>
    simp only [WriteHFSVolumeAttributes.patch, Bool.false_eq_true, if_false]
    rw [h16] at hx ⊢
    exact Nat.or_lt_two_pow (Nat.or_lt_two_pow hx (by decide)) (by decide)

theorem length_converted (dst src : List Byte) (rd wr len : Nat) (rw : Bool)
    (h : wr + 1036 ≤ (copied dst src rd wr len).length) :
    (converted dst src rd wr len rw).length = (copied dst src rd wr len).length := by
  unfold converted
  rw [length_writeAt _ _ _ (by simp [be16]), length_be16]
  omega

/-- The attribute word of the converted volume is the patched word of the copy. -/
theorem u16At_converted (dst src : List Byte) (rd wr len : Nat) (rw : Bool) :
    u16At (converted dst src rd wr len rw) (wr + 1034)
      = WriteHFSVolumeAttributes.patch rw (u16At (copied dst src rd wr len) (wr + 1034)) := by
  unfold converted
  rw [u16At_writeAt_self, Nat.mod_eq_of_lt (patch_lt _ _ (u16At_lt _ _))]

/-- Away from the attribute word the converted volume is the copy. -/
theorem getElem?_converted (dst src : List Byte) (rd wr len : Nat) (rw : Bool) (j : Nat)
    (h : wr + 1036 ≤ (copied dst src rd wr len).length)
    (hj : j < wr + 1034 ∨ wr + 1036 ≤ j) :
    (converted dst src rd wr len rw)[j]? = (copied dst src rd wr len)[j]? := by
  unfold converted
  rw [getElem?_writeAt, length_be16]
  have e : ¬ (wr + 1034 ≤ j ∧ j < wr + 1034 + 2) := by omega
  simp only [e, if_false]
  by_cases h1 : j < (copied dst src rd wr len).length
  · simp [h1]
  · have e2 : ¬ (j < wr + 1034 ∧ be16 (WriteHFSVolumeAttributes.patch rw
        (u16At (copied dst src rd wr len) (wr + 1034))) ≠ []) := by omega
    simp only [h1, e2, if_false]
    exact (List.getElem?_eq_none (by omega)).symm

/-- Inside the copied span the copy holds the source bytes. -/
theorem getElem?_copied_inside (dst src : List Byte) (rd wr len i : Nat)
    (hsrc : rd + len ≤ src.length) (hi : i < len) :
    (copied dst src rd wr len)[wr + i]? = src[rd + i]? := by
  unfold copied
  rw [getElem?_writeAt, length_slice]
  have e : wr ≤ wr + i ∧ wr + i < wr + min len (src.length - rd) := by omega
  have e2 : wr + i - wr = i := by omega
  simp only [e, and_self, if_true, e2, getElem?_slice, hi]

/-- Outside the copied span the copy leaves the old destination bytes. -/
theorem getElem?_copied_outside (dst src : List Byte) (rd wr len j : Nat)
    (hj : j < dst.length) (hout : j < wr ∨ wr + len ≤ j) :
    (copied dst src rd wr len)[j]? = dst[j]? := by
  unfold copied
  rw [getElem?_writeAt, length_slice]
  have e : ¬ (wr ≤ j ∧ j < wr + min len (src.length - rd)) := by omega
  simp only [e, if_false, hj, if_true]

theorem length_copied (dst src : List Byte) (rd wr len : Nat)
    (hsrc : rd + len ≤ src.length) (hlen : 0 < len) :
    (copied dst src rd wr len).length = max dst.length (wr + len) := by
  unfold copied
  have hl : (slice src rd len).length = len := by rw [length_slice]; omega
  rw [length_writeAt _ _ _ (by intro hc; rw [hc] at hl; simp at hl; omega), hl]

/-! ## The device image -/

theorem WriteDeviceImage_eq (AppleDriver43 : List Byte) (ofd ifd : File) (hfsStart hfsLen : Int)
    (rw progress : Bool) :
    ∃ pos, WriteDeviceImage AppleDriver43 ofd ifd hfsStart hfsLen rw progress
      = WriteHFSVolumeData ⟨header AppleDriver43 ofd.data rw hfsLen, pos⟩ ifd hfsStart 0xC000
          hfsLen rw progress := by
  refine ⟨0x8000 + AppleDriver43.length, ?_⟩
  have e0 : (0 : Int).toNat = 0 := rfl
  have e1 : (0x200 : Int).toNat = 0x200 := rfl
  have e2 : (0x400 : Int).toNat = 0x400 := rfl
  have e3 : (0x600 : Int).toNat = 0x600 := rfl
  have e4 : (0x8000 : Int).toNat = 0x8000 := rfl
  simp only [WriteDeviceImage, WriteDriverDescriptorRecord, WriteApplePartitionMapEntry,
    WriteDriverPartitionEntry, WriteHFSPartitionEntry, WriteDriverData,
    WriteBigEndian_ok _ _ _ _ (by decide : (0 : Int) ≤ 0),
    WriteBigEndian_ok _ _ _ _ (by decide : (0 : Int) ≤ 0x200),
    WriteBigEndian_ok _ _ _ _ (by decide : (0 : Int) ≤ 0x400),
    WriteBigEndian_ok _ _ _ _ (by decide : (0 : Int) ≤ 0x600),
    Seek_ok _ _ (by decide : (0 : Int) ≤ 0x8000), File.Write, header, e0, e1, e2, e3, e4]

/-- Nothing `WriteHFSVolumeData` does depends on the cursor of the destination. -/
theorem WriteHFSVolumeData_pos (d : List Byte) (p q : Nat) (ifd : File) (rd wr len : Int)
    (rw progress : Bool) :
    WriteHFSVolumeData ⟨d, p⟩ ifd rd wr len rw progress
      = WriteHFSVolumeData ⟨d, q⟩ ifd rd wr len rw progress := by
  by_cases hwr : wr < 0
  · simp only [WriteHFSVolumeData, Seek_error _ _ hwr]
  · simp only [WriteHFSVolumeData, Seek_ok _ _ (by omega : 0 ≤ wr)]

/-! ## The checksum, the lock bits and the copied span -/

theorem rotl16_1_eq (x : Nat) (hx : x < 65536) :
    ((x <<< 1) % 65536) ||| (x >>> 15) = rotl16_1 x := by
  simp only [rotl16_1, Nat.shiftLeft_eq, Nat.shiftRight_eq_div_pow]
  norm_num
  rcases Nat.lt_or_ge x 32768 with h | h
  · have h1 : x / 32768 = 0 := by omega
    rw [h1]; simp; omega
  · have h1 : x / 32768 = 1 := by omega
    have h2 : x * 2 % 65536 = 2 * (x - 32768) := by omega
    have h3 : 2 * x % 65536 = 2 * (x - 32768) := by omega
    have h4 : (2 * (x - 32768)) ||| 1 = 2 * (x - 32768) + 1 := by
      have h := Nat.lor_bit false (x - 32768) true 0
      simp [Nat.bit_val] at h
      exact h
    rw [h1, h2, h3, h4]

theorem step_eq_rotl (c : Nat) (b : Byte) :
    Checksum16.step c b = rotl16_1 ((c + b.val) % 65536) :=
  rotl16_1_eq _ (Nat.mod_lt _ (by decide))

/-- C5: for every byte sequence `Checksum16` equals the reference checksum (fold
from 0 with `acc := rotl16_1 ((acc + byte) mod 2^16)`, then `0xFFFF` in place
of a final 0); in particular the checksum of the empty sequence is `0xFFFF`. -/
theorem Checksum16_eq_checksum16Ref (data : List Byte) :
    Checksum16 data = checksum16Ref data ∧ Checksum16 [] = 0xFFFF := by
  constructor
  · have h : Checksum16.step = fun acc b => rotl16_1 ((acc + b.val) % 65536) := by
      funext c b
      exact step_eq_rotl c b
    simp only [Checksum16, Checksum16.acc, checksum16Ref, h]
  · rfl

/-- C6: after a successful conversion, by `WriteDeviceImage` (volume at `0xC000`)
or by `WriteHFSVolumeData` at any destination offset `d`, the big-endian word at
volume start + 1034 of the destination has bits 7 and 15 both set when
`writable = false` and both clear when `writable = true`. -/
theorem lock_bits_after_conversion (AppleDriver43 : List Byte) (ofd ifd : File)
    (hfsStart hfsLen d : Int) (writable progress : Bool) (dst : File)
    (calls : List (Int × Int)) :
    (WriteDeviceImage AppleDriver43 ofd ifd hfsStart hfsLen writable progress = .ok (dst, calls) →
        (u16At dst.data (0xC000 + 1034)).testBit 7 = !writable
          ∧ (u16At dst.data (0xC000 + 1034)).testBit 15 = !writable)
    ∧ (WriteHFSVolumeData ofd ifd hfsStart d hfsLen writable progress = .ok (dst, calls) →
        (u16At dst.data (d.toNat + 1034)).testBit 7 = !writable
          ∧ (u16At dst.data (d.toNat + 1034)).testBit 15 = !writable) := by
  constructor
  · intro h
    obtain ⟨pos, hp⟩ := WriteDeviceImage_eq AppleDriver43 ofd ifd hfsStart hfsLen writable progress
    rw [hp] at h
    obtain ⟨_, _, _, _, hdst⟩ := WriteHFSVolumeData_inv _ _ _ _ _ _ _ _ _ h
    have e : (0xC000 : Int).toNat = 0xC000 := rfl
    rw [hdst, e]
    simp only [u16At_converted, patch_testBit _ _ _ (u16At_lt _ _)]
    simp
  · intro h
    obtain ⟨_, _, _, _, hdst⟩ := WriteHFSVolumeData_inv _ _ _ _ _ _ _ _ _ h
    rw [hdst]
    simp only [u16At_converted, patch_testBit _ _ _ (u16At_lt _ _)]
    simp

/-- C8: a successful `WriteHFSVolumeData` with `hfsLength ≥ 1036` makes
`dest[destOffset + i] = source[hfsStart + i]` for every `i < hfsLength` other
than 1034 and 1035; the word at those two bytes differs from the source word
only in bits 7 and 15; destination bytes outside
`[destOffset, destOffset + hfsLength)` are unchanged. -/
theorem WriteHFSVolumeData_frame (ofd ifd : File) (hfsStart destOffset hfsLength : Int)
    (writable progress : Bool) (dst : File) (calls : List (Int × Int))
    (h : WriteHFSVolumeData ofd ifd hfsStart destOffset hfsLength writable progress
      = .ok (dst, calls))
    (hlen : 1036 ≤ hfsLength) :
    hfsStart.toNat + hfsLength.toNat ≤ ifd.data.length
    ∧ (∀ i : Nat, i < hfsLength.toNat → i ≠ 1034 → i ≠ 1035 →
        dst.data[destOffset.toNat + i]? = ifd.data[hfsStart.toNat + i]?)
    ∧ (∀ k : Nat, k ≠ 7 → k ≠ 15 →
        (u16At dst.data (destOffset.toNat + 1034)).testBit k
          = (u16At ifd.data (hfsStart.toNat + 1034)).testBit k)
    ∧ (∀ j : Nat, j < ofd.data.length →
        (j < destOffset.toNat ∨ destOffset.toNat + hfsLength.toNat ≤ j) →
        dst.data[j]? = ofd.data[j]?) := by
  obtain ⟨_, _, hsrc, hfit, hdst⟩ := WriteHFSVolumeData_inv _ _ _ _ _ _ _ _ _ h
  have hsrc' := hsrc (by omega)
  have hl : 1036 ≤ hfsLength.toNat := by omega
  rw [hdst]
  refine ⟨hsrc', ?_, ?_, ?_⟩
  · intro i hi h1 h2
    rw [getElem?_converted _ _ _ _ _ _ _ hfit (by omega),
      getElem?_copied_inside _ _ _ _ _ _ hsrc' hi]
  · intro k h7 h15
    have hk : ¬ (k = 7 ∨ k = 15) := by omega
    simp only [u16At_converted, patch_testBit _ _ _ (u16At_lt _ _), hk, if_false]
    rw [u16At_congr _ ifd.data (destOffset.toNat + 1034) (hfsStart.toNat + 1034)
      (getElem?_copied_inside _ _ _ _ _ 1034 hsrc' (by omega))
      (getElem?_copied_inside _ _ _ _ _ 1035 hsrc' (by omega))]
  · intro j hj hout
    rw [getElem?_converted _ _ _ _ _ _ _ hfit (by omega),
      getElem?_copied_outside _ _ _ _ _ _ hj hout]

/-- Success of `WriteDeviceImage` on a source that holds the volume. -/
theorem WriteDeviceImage_ok (AppleDriver43 : List Byte) (ofd ifd : File) (hfsStart hfsLen : Int)
    (rw progress : Bool) (hrd : 0 ≤ hfsStart) (hlen : 1036 ≤ hfsLen)
    (hsrc : hfsStart.toNat + hfsLen.toNat ≤ ifd.data.length) :
    ∃ calls, WriteDeviceImage AppleDriver43 ofd ifd hfsStart hfsLen rw progress
      = .ok (⟨converted (header AppleDriver43 ofd.data rw hfsLen) ifd.data hfsStart.toNat 0xC000
          hfsLen.toNat rw, 0xC000 + 1036⟩, calls) := by
  obtain ⟨pos, hp⟩ := WriteDeviceImage_eq AppleDriver43 ofd ifd hfsStart hfsLen rw progress
  have hl := length_copied (header AppleDriver43 ofd.data rw hfsLen) ifd.data hfsStart.toNat
    0xC000 hfsLen.toNat hsrc (by omega)
  obtain ⟨calls, hc⟩ := WriteHFSVolumeData_ok ⟨header AppleDriver43 ofd.data rw hfsLen, pos⟩ ifd
    hfsStart 0xC000 hfsLen rw progress hrd (by decide) (fun _ => hsrc)
    (by
      have e : (0xC000 : Int).toNat = 0xC000 := rfl
      rw [e]
      simp only [hl]
      omega)
  exact ⟨calls, by rw [hp, hc]; rfl⟩

theorem imageOf_spec (r : Except Error (File × List (Int × Int))) (f : File)
    (calls : List (Int × Int)) (h : r = .ok (f, calls)) : r = .ok (imageOf r, calls) := by
  subst h
  rfl

theorem toUint32_of_range (x : Int) (h0 : 0 ≤ x) (h1 : x < 4294967296) :
    ((toUint32 x : Nat) : Int) = x := by
  unfold toUint32
  omega

theorem toUint32_lt (x : Int) : toUint32 x < 4294967296 := by
  unfold toUint32
  omega

theorem ddr_WF (hfsLen : Int) : (WriteDriverDescriptorRecord.ddr hfsLen).WF := by
  unfold DDRecord.WF
  simp only [WriteDriverDescriptorRecord.ddr]
  repeat' apply And.intro
  all_goals first
    | exact toUint32_lt _
    | decide

theorem hfs_pme_WF (mapBlks : Nat) (writable : Bool) (hfsLen : Int)
    (hm : mapBlks < 4294967296) : (WriteHFSPartitionEntry.pme mapBlks writable hfsLen).WF := by
  have hs : (if writable = true then 0xB7 else 0x97) < 4294967296 := by
    cases writable <;> decide
  unfold Partition.WF
  simp only [WriteHFSPartitionEntry.pme]
  repeat' apply And.intro
  all_goals first
    | exact List.length_replicate _ _
    | exact toUint32_lt _
    | exact hm
    | exact hs
    | decide

/-- Reading back a record just written at `off`. -/
theorem ReadBigEndian_WriteBigEndian (f : File) (off : Int) (h0 : 0 ≤ off) {T : Type}
    (c : Codec T) (v : T) (hsize : (c.encode v).length = c.size) (hpos : 0 < c.size) :
    ∃ f', WriteBigEndian c f off v = .ok f'
      ∧ ReadBigEndian c f' off = .ok (c.decode (c.encode v)) := by
  refine ⟨_, WriteBigEndian_ok c f off v h0, ?_⟩
  have hne : c.encode v ≠ [] := by
    intro hc
    rw [hc] at hsize
    simp at hsize
    omega
  rw [ReadBigEndian_ok _ _ _ h0 (by
    simp only [length_writeAt _ _ _ hne, hsize]
    omega)]
  simp only
  rw [← hsize, slice_writeAt_self]

/-- C7: the code evaluated on a sample HFS+ volume (signature `0x482B` at volume
offset 1024): the conversion with `writable = false` succeeds and bytes 1034 and
1035, the low half of the last-mounted version, come out as `0xAE 0xB0` where
the source holds `0x2E 0x30`. -/
theorem hfsplus_volume_is_patched :
    u16At hfsPlusVolume.data 1024 = 0x482B
      ∧ ∃ dst calls, WriteHFSVolumeData ⟨[], 0⟩ hfsPlusVolume 0 0 1536 false false
          = .ok (dst, calls)
        ∧ slice hfsPlusVolume.data 1034 2 = [0x2E, 0x30]
        ∧ slice dst.data 1034 2 = [0xAE, 0xB0] := by
  refine ⟨by decide!, ⟨List.replicate 1024 0
    ++ [0x48, 0x2B, 0x00, 0x04, 0x00, 0x00, 0x01, 0x00, 0x31, 0x30, 0xAE, 0xB0]
    ++ List.replicate 500 0, 1036⟩, [], by decide!, by decide!, by decide!⟩

/-- C9 (as stated, refuted): for `hfsLength = 1` the block count written is 96,
not `ceil((0xC000 + 1) / 512) = 97`. -/
theorem ddr_block_count_not_ceil :
    ∃ f' ddr, WriteDriverDescriptorRecord ⟨[], 0⟩ 1 = .ok f'
      ∧ ReadBigEndian DDRecord.codec f' 0 = .ok ddr
      ∧ ddr.SbBlkCount = 96
      ∧ (ddr.SbBlkCount : Int) ≠ (0xC000 + 1 + 511) / 512 :=
  ⟨_, _, rfl, rfl, rfl, by decide⟩

/-- C9 (amended): for every `hfsLength ≥ 0` with `(0xC000 + hfsLength) / 512`
below `2^32`, the Driver Descriptor Record that `WriteDriverDescriptorRecord`
writes at offset 0 has block count `floor((0xC000 + hfsLength) / 512)`,
signature `0x4552`, block size 512, driver count 1, driver block `0x40`, driver
size `0x13` and OS type 1. -/
theorem WriteDriverDescriptorRecord_fields (f : File) (hfsLength : Int) (h0 : 0 ≤ hfsLength)
    (hb : (0xC000 + hfsLength) / 512 < 4294967296) :
    ∃ f' ddr, WriteDriverDescriptorRecord f hfsLength = .ok f'
      ∧ ReadBigEndian DDRecord.codec f' 0 = .ok ddr
      ∧ (ddr.SbBlkCount : Int) = (0xC000 + hfsLength) / 512
      ∧ ddr.SbSig = 0x4552 ∧ ddr.SbBlkSize = 512 ∧ ddr.SbDrvrCount = 1
      ∧ ddr.DdBlock = 0x40 ∧ ddr.DdSize = 0x13 ∧ ddr.DdType = 1 := by
  obtain ⟨f', hw, hr⟩ := ReadBigEndian_WriteBigEndian f 0 (by decide) DDRecord.codec
    (WriteDriverDescriptorRecord.ddr hfsLength) (DDRecord_length_encode _) (by decide)
  rw [DDRecord_decode_encode _ (ddr_WF hfsLength)] at hr
  refine ⟨f', _, hw, hr, ?_, rfl, rfl, rfl, rfl, rfl, rfl⟩
  simp only [WriteDriverDescriptorRecord.ddr]
  rw [Int.tdiv_eq_ediv (by omega) (by decide)]
  exact toUint32_of_range _ (by omega) hb

theorem WriteDriverDescriptorRecord_fields_witness :
    ∃ f' ddr, WriteDriverDescriptorRecord ⟨[], 0⟩ 1536 = .ok f'
      ∧ ReadBigEndian DDRecord.codec f' 0 = .ok ddr
      ∧ (ddr.SbBlkCount : Int) = (0xC000 + 1536) / 512
      ∧ ddr.SbSig = 0x4552 ∧ ddr.SbBlkSize = 512 ∧ ddr.SbDrvrCount = 1
      ∧ ddr.DdBlock = 0x40 ∧ ddr.DdSize = 0x13 ∧ ddr.DdType = 1 :=
  WriteDriverDescriptorRecord_fields ⟨[], 0⟩ 1536 (by decide) (by decide)

/-- C10: for every `hfsLength ≥ 0` with `hfsLength / 512 < 2^32` (and `mapBlks`
a `uint32`), decoding the
entry that `WriteHFSPartitionEntry` writes at offset `0x600` gives signature
`0x504D`, name "MacOS" and type "Apple_HFS" NUL-padded to 32 bytes, physical
start block 96, block count and data count both `floor(hfsLength / 512)`, and
status `0xB7` when writable and `0x97` otherwise; these two differ in bit 5 only. -/
theorem WriteHFSPartitionEntry_fields (f : File) (mapBlks : Nat) (writable : Bool)
    (hfsLength : Int) (hm : mapBlks < 4294967296) (h0 : 0 ≤ hfsLength)
    (hb : hfsLength / 512 < 4294967296) :
    ∃ f' pme, WriteHFSPartitionEntry f mapBlks writable hfsLength = .ok f'
      ∧ ReadBigEndian Partition.codec f' 0x600 = .ok pme
      ∧ pme.PmSig = 0x504D
      ∧ pme.PmPartName = fixed 32 (strBytes "MacOS")
      ∧ pme.PmPartType = fixed 32 (strBytes "Apple_HFS")
      ∧ pme.PmPyPartStart = 96
      ∧ (pme.PmPartBlkCnt : Int) = hfsLength / 512
      ∧ (pme.PmDataCnt : Int) = hfsLength / 512
      ∧ pme.PmPartStatus = (if writable then 0xB7 else 0x97)
      ∧ 0xB7 ^^^ 0x97 = 1 <<< 5 := by
  obtain ⟨f', hw, hr⟩ := ReadBigEndian_WriteBigEndian f 0x600 (by decide) Partition.codec
    (WriteHFSPartitionEntry.pme mapBlks writable hfsLength) (Partition_length_encode _)
    (by decide)
  rw [Partition_decode_encode _ (hfs_pme_WF mapBlks writable hfsLength hm)] at hr
  have hcount : ((toUint32 (Int.tdiv hfsLength 0x200) : Nat) : Int) = hfsLength / 512 := by
    rw [Int.tdiv_eq_ediv h0 (by decide)]
    exact toUint32_of_range _ (by omega) hb
  have hname : (WriteHFSPartitionEntry.pme mapBlks writable hfsLength).PmPartName
      = fixed 32 (strBytes "MacOS") := by
    simp only [WriteHFSPartitionEntry.pme]
    decide
  have htype : (WriteHFSPartitionEntry.pme mapBlks writable hfsLength).PmPartType
      = fixed 32 (strBytes "Apple_HFS") := by
    simp only [WriteHFSPartitionEntry.pme]
    decide
  refine ⟨f', _, hw, hr, rfl, hname, htype, rfl, hcount, hcount, rfl, by decide⟩

theorem WriteHFSPartitionEntry_fields_witness :
    ∃ f' pme, WriteHFSPartitionEntry ⟨[], 0⟩ 3 true 1536 = .ok f'
      ∧ ReadBigEndian Partition.codec f' 0x600 = .ok pme
      ∧ pme.PmSig = 0x504D
      ∧ pme.PmPartName = fixed 32 (strBytes "MacOS")
      ∧ pme.PmPartType = fixed 32 (strBytes "Apple_HFS")
      ∧ pme.PmPyPartStart = 96
      ∧ (pme.PmPartBlkCnt : Int) = 1536 / 512
      ∧ (pme.PmDataCnt : Int) = 1536 / 512
      ∧ pme.PmPartStatus = (if true then 0xB7 else 0x97)
      ∧ 0xB7 ^^^ 0x97 = 1 <<< 5 :=
  WriteHFSPartitionEntry_fields ⟨[], 0⟩ 3 true 1536 (by decide) (by decide) (by decide)

theorem lock_bits_after_conversion_witness :
    ((u16At (imageOf (WriteDeviceImage sampleDriver ⟨[], 0⟩ zeroVolume 0 1036 false false)).data
          (0xC000 + 1034)).testBit 7 = !false
      ∧ (u16At (imageOf (WriteDeviceImage sampleDriver ⟨[], 0⟩ zeroVolume 0 1036 false
          false)).data (0xC000 + 1034)).testBit 15 = !false)
    ∧ ((u16At zeroVolumeLocked.data ((0 : Int).toNat + 1034)).testBit 7 = !false
      ∧ (u16At zeroVolumeLocked.data ((0 : Int).toNat + 1034)).testBit 15 = !false) := by
  obtain ⟨calls, h⟩ := WriteDeviceImage_ok sampleDriver ⟨[], 0⟩ zeroVolume 0 1036 false false
    (by decide) (by decide) (by decide!)
  exact ⟨(lock_bits_after_conversion sampleDriver ⟨[], 0⟩ zeroVolume 0 1036 0 false false _
      calls).1 (imageOf_spec _ _ _ h),
    (lock_bits_after_conversion sampleDriver ⟨[], 0⟩ zeroVolume 0 1036 0 false false
      zeroVolumeLocked []).2 (by decide!)⟩

theorem WriteHFSVolumeData_frame_witness :
    (0 : Int).toNat + (1036 : Int).toNat ≤ zeroVolume.data.length
    ∧ (∀ i : Nat, i < (1036 : Int).toNat → i ≠ 1034 → i ≠ 1035 →
        zeroVolumeLocked.data[(0 : Int).toNat + i]? = zeroVolume.data[(0 : Int).toNat + i]?)
    ∧ (∀ k : Nat, k ≠ 7 → k ≠ 15 →
        (u16At zeroVolumeLocked.data ((0 : Int).toNat + 1034)).testBit k
          = (u16At zeroVolume.data ((0 : Int).toNat + 1034)).testBit k)
    ∧ (∀ j : Nat, j < (File.mk [] 0).data.length →
        (j < (0 : Int).toNat ∨ (0 : Int).toNat + (1036 : Int).toNat ≤ j) →
        zeroVolumeLocked.data[j]? = (File.mk [] 0).data[j]?) :=
  WriteHFSVolumeData_frame ⟨[], 0⟩ zeroVolume 0 0 1036 false false zeroVolumeLocked []
    (by decide!) (by decide)

/-! ## Classification of a file -/

theorem ReadDDR_sig (f : File) (h : 26 ≤ f.data.length) :
    ∃ ddr, ReadBigEndian DDRecord.codec f 0 = .ok ddr ∧ ddr.SbSig = u16At f.data 0 := by
  refine ⟨_, ReadBigEndian_ok DDRecord.codec f 0 (by decide) (by
    have e : (0 : Int).toNat = 0 := rfl
    have e2 : DDRecord.codec.size = 26 := rfl
    rw [e, e2]; omega), ?_⟩
  have e : (0 : Int).toNat = 0 := rfl
  have e2 : DDRecord.codec.size = 26 := rfl
  have h2 := u16At_slice f.data 0 26 0 (by decide)
  rw [e, e2]
  exact h2

theorem ReadSig400 (f : File) :
    valueOrZero (ReadBigEndian uint16 f 0x400)
      = if 1026 ≤ f.data.length then u16At f.data 0x400 else 0 := by
  have e : (0x400 : Int).toNat = 0x400 := rfl
  have e2 : uint16.size = 2 := rfl
  by_cases h : 1026 ≤ f.data.length
  · rw [ReadBigEndian_ok uint16 f 0x400 (by decide) (by rw [e, e2]; omega)]
    simp only [valueOrZero, h, if_true, e, e2]
    have h2 := u16At_slice f.data 0x400 2 0 (by decide)
    exact h2
  · obtain ⟨err, he⟩ := ReadBigEndian_error uint16 f 0x400 (Or.inr (by rw [e, e2]; omega))
    rw [he]
    simp only [valueOrZero, h, if_false]

/-- The outcome of `ProbeFile` in terms of the words at offsets 0 and `0x400`. -/
theorem ProbeFile_eq (f : File) (h : 26 ≤ f.data.length) :
    ProbeFile f =
      if u16At f.data 0 = 0x4552 then
        match ProbePartitionMap f f.data.length with
        | .error e => .error e
        | .ok (start, len) => .ok (f.data.length, start, len)
      else if u16At f.data 0 = 0x4C4B
          ∨ (u16At f.data 0 = 0 ∧ 1026 ≤ f.data.length
              ∧ (u16At f.data 0x400 = 0x4244 ∨ u16At f.data 0x400 = 0x482B)) then
        .ok (f.data.length, 0, f.data.length)
      else .error (.Errorf "unknown format") := by
  obtain ⟨ddr, hr, hsig⟩ := ReadDDR_sig f h
  unfold ProbeFile
  simp only [hr, ReadSig400, hsig]
  by_cases h1 : u16At f.data 0 = 0x4552
  · simp only [h1, if_true]
  · simp only [h1, if_false]
    by_cases h2 : u16At f.data 0 = 0x4C4B
    · simp [h2]
    · by_cases h3 : 1026 ≤ f.data.length
      · by_cases h4 : u16At f.data 0x400 = 0x4244 ∨ u16At f.data 0x400 = 0x482B
        · have h5 : u16At f.data 0x400 ≠ 0 := by
            rcases h4 with h4 | h4 <;> rw [h4] <;> decide
          simp [h2, h3, h4, h5]
        · simp [h2, h3, h4]
      · simp [h2, h3]

/-- C2: with the 26 bytes of the descriptor record readable, `ProbeFile`
classifies in strict priority order: word `0x4552` at offset 0 gives exactly the
result of `ProbePartitionMap` (whatever offset `0x400` holds); otherwise `0x4C4B`
gives `(0, fileSize)`; otherwise word 0 with a readable word `0x4244` or `0x482B`
at `0x400` gives `(0, fileSize)`; every other case fails with "unknown format". -/
theorem ProbeFile_classification (f : File) (h : 26 ≤ f.data.length) :
    (u16At f.data 0 = 0x4552 →
        ProbeFile f = match ProbePartitionMap f f.data.length with
          | .error e => .error e
          | .ok (start, len) => .ok (f.data.length, start, len))
    ∧ (u16At f.data 0 = 0x4C4B → ProbeFile f = .ok (f.data.length, 0, f.data.length))
    ∧ (u16At f.data 0 = 0 → 1026 ≤ f.data.length →
        (u16At f.data 0x400 = 0x4244 ∨ u16At f.data 0x400 = 0x482B) →
        ProbeFile f = .ok (f.data.length, 0, f.data.length))
    ∧ (u16At f.data 0 ≠ 0x4552 → u16At f.data 0 ≠ 0x4C4B →
        ¬ (u16At f.data 0 = 0 ∧ 1026 ≤ f.data.length
            ∧ (u16At f.data 0x400 = 0x4244 ∨ u16At f.data 0x400 = 0x482B)) →
        ProbeFile f = .error (.Errorf "unknown format")) := by
  rw [ProbeFile_eq f h]
  refine ⟨?_, ?_, ?_, ?_⟩
  · intro h1
    rw [if_pos h1]
  · intro h1
    have h0 : ¬ (u16At f.data 0 = 0x4552) := by rw [h1]; decide
    rw [if_neg h0, if_pos (Or.inl h1)]
  · intro h1 h2 h3
    have h0 : ¬ (u16At f.data 0 = 0x4552) := by rw [h1]; decide
    rw [if_neg h0, if_pos (Or.inr ⟨h1, h2, h3⟩)]
  · intro h1 h2 h3
    have h4 : ¬ (u16At f.data 0 = 0x4C4B ∨ (u16At f.data 0 = 0 ∧ 1026 ≤ f.data.length
        ∧ (u16At f.data 0x400 = 0x4244 ∨ u16At f.data 0x400 = 0x482B))) := by
      intro hc
      rcases hc with hc | hc
      · exact h2 hc
      · exact h3 hc
    rw [if_neg h1, if_neg h4]

theorem ProbeFile_classification_witness :
    (u16At rawHFSFile.data 0 = 0x4552 →
        ProbeFile rawHFSFile = match ProbePartitionMap rawHFSFile rawHFSFile.data.length with
          | .error e => .error e
          | .ok (start, len) => .ok (rawHFSFile.data.length, start, len))
    ∧ (u16At rawHFSFile.data 0 = 0x4C4B →
        ProbeFile rawHFSFile = .ok (rawHFSFile.data.length, 0, rawHFSFile.data.length))
    ∧ (u16At rawHFSFile.data 0 = 0 → 1026 ≤ rawHFSFile.data.length →
        (u16At rawHFSFile.data 0x400 = 0x4244 ∨ u16At rawHFSFile.data 0x400 = 0x482B) →
        ProbeFile rawHFSFile = .ok (rawHFSFile.data.length, 0, rawHFSFile.data.length))
    ∧ (u16At rawHFSFile.data 0 ≠ 0x4552 → u16At rawHFSFile.data 0 ≠ 0x4C4B →
        ¬ (u16At rawHFSFile.data 0 = 0 ∧ 1026 ≤ rawHFSFile.data.length
            ∧ (u16At rawHFSFile.data 0x400 = 0x4244 ∨ u16At rawHFSFile.data 0x400 = 0x482B)) →
        ProbeFile rawHFSFile = .error (.Errorf "unknown format")) :=
  ProbeFile_classification rawHFSFile (by decide!)

/-- C3: when `ProbePartitionMap` succeeds it returns the values of the first
entry (in 512-byte steps from offset 512, all earlier entries having signature
`0x504D` and another type) whose type, trailing NUL bytes trimmed, is
"Apple_HFS": `offset = start_block * 512` and
`length = min(block_count * 512, 512 * floor((fileSize - offset) / 512))`; so
`length` is a multiple of 512, `length ≤ block_count * 512` and
`offset + length ≤ fileSize`. -/
theorem ProbePartitionMap_result (f : File) (fileSize offset length : Int)
    (h : ProbePartitionMap f fileSize = .ok (offset, length)) :
    ∃ (k : Nat) (pme : Partition),
      (∀ i, i < k → ∃ q, ReadBigEndian Partition.codec f (512 * ((i : Int) + 1)) = .ok q
          ∧ q.PmSig = 0x504D ∧ trimRightNul q.PmPartType ≠ strBytes "Apple_HFS")
      ∧ ReadBigEndian Partition.codec f (512 * ((k : Int) + 1)) = .ok pme
      ∧ pme.PmSig = 0x504D ∧ trimRightNul pme.PmPartType = strBytes "Apple_HFS"
      ∧ offset = (pme.PmPyPartStart : Int) * 512
      ∧ length = min ((pme.PmPartBlkCnt : Int) * 512) (512 * ((fileSize - offset) / 512))
      ∧ (512 : Int) ∣ length
      ∧ length ≤ (pme.PmPartBlkCnt : Int) * 512
      ∧ offset + length ≤ fileSize := by
  have e : (512 : Int) = 512 * (((0 : Nat) : Int) + 1) := by decide
  unfold ProbePartitionMap at h
  rw [e] at h
  obtain ⟨k, pme, _, hbefore, hr, hsig, hty, hoff, hle, hlen⟩ := loop_inv f fileSize _ 0 _ _ h
  refine ⟨k, pme, fun i hi => hbefore i (Nat.zero_le _) hi, hr, hsig, hty, hoff, ?_, ?_, ?_, ?_⟩
  · rw [hlen]; omega
  · rw [hlen]; omega
  · rw [hlen]; omega
  · rw [hlen]; omega

theorem ProbePartitionMap_result_witness :
    ∃ (k : Nat) (pme : Partition),
      (∀ i, i < k → ∃ q, ReadBigEndian Partition.codec sampleMap (512 * ((i : Int) + 1)) = .ok q
          ∧ q.PmSig = 0x504D ∧ trimRightNul q.PmPartType ≠ strBytes "Apple_HFS")
      ∧ ReadBigEndian Partition.codec sampleMap (512 * ((k : Int) + 1)) = .ok pme
      ∧ pme.PmSig = 0x504D ∧ trimRightNul pme.PmPartType = strBytes "Apple_HFS"
      ∧ (1024 : Int) = (pme.PmPyPartStart : Int) * 512
      ∧ (512 : Int) = min ((pme.PmPartBlkCnt : Int) * 512) (512 * ((2000 - 1024) / 512))
      ∧ (512 : Int) ∣ 512
      ∧ (512 : Int) ≤ (pme.PmPartBlkCnt : Int) * 512
      ∧ (1024 : Int) + 512 ≤ 2000 :=
  ProbePartitionMap_result sampleMap 2000 1024 512 (by decide!)

/-- C4 (as stated, refuted): the "Apple_HFS" entry of `sampleMap` spans bytes
1024 to 3072, beyond a file size of 1100, and `ProbePartitionMap` succeeds with
length 0, which is below 512. -/
theorem ProbePartitionMap_returns_zero_length :
    ReadBigEndian Partition.codec sampleMap 512 = .ok sampleEntry
      ∧ (sampleEntry.PmPyPartStart : Int) * 512 + (sampleEntry.PmPartBlkCnt : Int) * 512 > 1100
      ∧ ProbePartitionMap sampleMap 1100 = .ok (1024, 0)
      ∧ ¬ ((0 : Int) ≥ 512) := by
  refine ⟨by decide!, by decide, by decide!, by decide⟩

/-- C4 (amended): if the "Apple_HFS" entry's offset + length exceeds `fileSize`
then `ProbePartitionMap` either fails or returns the length
`512 * floor((fileSize - offset) / 512)`: never negative, a multiple of 512, and
below 512 (then 0) exactly when fewer than 512 bytes of the file follow the
offset. -/
theorem ProbePartitionMap_overrun (f : File) (fileSize offset length : Int)
    (h : ProbePartitionMap f fileSize = .ok (offset, length)) :
    ∃ (k : Nat) (pme : Partition),
      ReadBigEndian Partition.codec f (512 * ((k : Int) + 1)) = .ok pme
      ∧ trimRightNul pme.PmPartType = strBytes "Apple_HFS"
      ∧ offset = (pme.PmPyPartStart : Int) * 512
      ∧ ((pme.PmPyPartStart : Int) * 512 + (pme.PmPartBlkCnt : Int) * 512 > fileSize →
          length = 512 * ((fileSize - offset) / 512)
            ∧ 0 ≤ length
            ∧ (length < 512 ↔ fileSize - offset < 512)
            ∧ (length < 512 → length = 0)) := by
  have e : (512 : Int) = 512 * (((0 : Nat) : Int) + 1) := by decide
  unfold ProbePartitionMap at h
  rw [e] at h
  obtain ⟨k, pme, _, _, hr, _, hty, hoff, hle, hlen⟩ := loop_inv f fileSize _ 0 _ _ h
  refine ⟨k, pme, hr, hty, hoff, ?_⟩
  intro hover
  rw [hlen]
  refine ⟨?_, ?_, ?_, ?_⟩ <;> omega

theorem ProbePartitionMap_overrun_witness :
    ∃ (k : Nat) (pme : Partition),
      ReadBigEndian Partition.codec sampleMap (512 * ((k : Int) + 1)) = .ok pme
      ∧ trimRightNul pme.PmPartType = strBytes "Apple_HFS"
      ∧ (1024 : Int) = (pme.PmPyPartStart : Int) * 512
      ∧ ((pme.PmPyPartStart : Int) * 512 + (pme.PmPartBlkCnt : Int) * 512 > 1100 →
          (0 : Int) = 512 * ((1100 - 1024) / 512)
            ∧ (0 : Int) ≤ 0
            ∧ ((0 : Int) < 512 ↔ (1100 : Int) - 1024 < 512)
            ∧ ((0 : Int) < 512 → (0 : Int) = 0)) :=
  ProbePartitionMap_overrun sampleMap 1100 1024 0 (by decide!)

/-! ## Probing a written image -/

theorem apple_pme_WF : (WriteApplePartitionMapEntry.pme 3).WF := by
  unfold Partition.WF
  simp only [WriteApplePartitionMapEntry.pme]
  repeat' apply And.intro
  all_goals first
    | exact List.length_replicate _ _
    | decide

theorem driver_pme_WF (AppleDriver43 : List Byte) :
    (WriteDriverPartitionEntry.pme AppleDriver43 3).WF := by
  have hpad : (((((List.replicate 376 (0 : Byte)).set 1 0x01).set 2 0x06).set 11 0x01).set 13
      0x07).length = 376 := by
    simp only [List.length_set, List.length_replicate]
  unfold Partition.WF
  simp only [WriteDriverPartitionEntry.pme]
  repeat' apply And.intro
  all_goals first
    | exact hpad
    | exact Nat.mod_lt _ (by decide)
    | decide

/-- A slice that holds `bs` keeps holding it after a write above it. -/
theorem slice_holds_of_le (d : List Byte) (off : Nat) (ws : List Byte) (p : Nat)
    (bs : List Byte) (hbs : bs ≠ []) (h : slice d p bs.length = bs) (hle : p + bs.length ≤ off) :
    slice (writeAt d off ws) p bs.length = bs := by
  have hl : (slice d p bs.length).length = bs.length := by rw [h]
  rw [length_slice] at hl
  have hpos : 0 < bs.length := List.length_pos.mpr hbs
  rw [slice_writeAt_of_le _ _ _ _ _ hle (by omega), h]

/-- The first four blocks of the header hold the four records. -/
theorem header_slices (AppleDriver43 d : List Byte) (rw : Bool) (hfsLen : Int) :
    0x800 ≤ (header AppleDriver43 d rw hfsLen).length
      ∧ slice (header AppleDriver43 d rw hfsLen) 0 26
          = DDRecord.codec.encode (WriteDriverDescriptorRecord.ddr hfsLen)
      ∧ slice (header AppleDriver43 d rw hfsLen) 0x200 512
          = Partition.codec.encode (WriteApplePartitionMapEntry.pme 3)
      ∧ slice (header AppleDriver43 d rw hfsLen) 0x400 512
          = Partition.codec.encode (WriteDriverPartitionEntry.pme AppleDriver43 3)
      ∧ slice (header AppleDriver43 d rw hfsLen) 0x600 512
          = Partition.codec.encode (WriteHFSPartitionEntry.pme 3 rw hfsLen) := by
  generalize hE0 : DDRecord.codec.encode (WriteDriverDescriptorRecord.ddr hfsLen) = E0
  generalize hE1 : Partition.codec.encode (WriteApplePartitionMapEntry.pme 3) = E1
  generalize hE2 : Partition.codec.encode (WriteDriverPartitionEntry.pme AppleDriver43 3) = E2
  generalize hE3 : Partition.codec.encode (WriteHFSPartitionEntry.pme 3 rw hfsLen) = E3
  have l0 : E0.length = 26 := by rw [← hE0]; exact DDRecord_length_encode _
  have l1 : E1.length = 512 := by rw [← hE1]; exact Partition_length_encode _
  have l2 : E2.length = 512 := by rw [← hE2]; exact Partition_length_encode _
  have l3 : E3.length = 512 := by rw [← hE3]; exact Partition_length_encode _
  have n0 : E0 ≠ [] := by intro hc; rw [hc] at l0; simp at l0
  have n1 : E1 ≠ [] := by intro hc; rw [hc] at l1; simp at l1
  have n2 : E2 ≠ [] := by intro hc; rw [hc] at l2; simp at l2
  have n3 : E3 ≠ [] := by intro hc; rw [hc] at l3; simp at l3
  simp only [header, hE0, hE1, hE2, hE3]
  generalize hH1 : writeAt d 0 E0 = H1
  generalize hH2 : writeAt H1 0x200 E1 = H2
  generalize hH3 : writeAt H2 0x400 E2 = H3
  generalize hH4 : writeAt H3 0x600 E3 = H4
  have s0 : slice H1 0 E0.length = E0 := by rw [← hH1]; exact slice_writeAt_self _ _ _
  have s1 : slice H2 0x200 E1.length = E1 := by rw [← hH2]; exact slice_writeAt_self _ _ _
  have s2 : slice H3 0x400 E2.length = E2 := by rw [← hH3]; exact slice_writeAt_self _ _ _
  have s3 : slice H4 0x600 E3.length = E3 := by rw [← hH4]; exact slice_writeAt_self _ _ _
  have len4 : 0x800 ≤ H4.length := by
    rw [← hH4, length_writeAt _ _ _ n3, l3]; omega
  have a0 : slice H2 0 E0.length = E0 := by
    rw [← hH2]; exact slice_holds_of_le _ _ _ _ _ n0 s0 (by omega)
  have b0 : slice H3 0 E0.length = E0 := by
    rw [← hH3]; exact slice_holds_of_le _ _ _ _ _ n0 a0 (by omega)
  have c0 : slice H4 0 E0.length = E0 := by
    rw [← hH4]; exact slice_holds_of_le _ _ _ _ _ n0 b0 (by omega)
  have d0 := slice_holds_of_le H4 0x8000 AppleDriver43 _ _ n0 c0 (by omega)
  have b1 : slice H3 0x200 E1.length = E1 := by
    rw [← hH3]; exact slice_holds_of_le _ _ _ _ _ n1 s1 (by omega)
  have c1 : slice H4 0x200 E1.length = E1 := by
    rw [← hH4]; exact slice_holds_of_le _ _ _ _ _ n1 b1 (by omega)
  have d1 := slice_holds_of_le H4 0x8000 AppleDriver43 _ _ n1 c1 (by omega)
  have c2 : slice H4 0x400 E2.length = E2 := by
    rw [← hH4]; exact slice_holds_of_le _ _ _ _ _ n2 s2 (by omega)
  have d2 := slice_holds_of_le H4 0x8000 AppleDriver43 _ _ n2 c2 (by omega)
  have d3 := slice_holds_of_le H4 0x8000 AppleDriver43 _ _ n3 s3 (by omega)
  rw [l0] at d0
  rw [l1] at d1
  rw [l2] at d2
  rw [l3] at d3
  exact ⟨Nat.le_trans len4 (length_writeAt_ge _ _ _), d0, d1, d2, d3⟩

/-- Below `0xC000` the converted image is the header. -/
theorem slice_converted_header (hdr src : List Byte) (rd len : Nat) (rw : Bool) (p n : Nat)
    (hfit : 0xC000 + 1036 ≤ (copied hdr src rd 0xC000 len).length)
    (hp : p + n ≤ 0x800) (hh : 0x800 ≤ hdr.length) :
    slice (converted hdr src rd 0xC000 len rw) p n = slice hdr p n := by
  have h1 : p + n ≤ 0xC000 + 1034 := by omega
  have h2 : p + n ≤ (copied hdr src rd 0xC000 len).length := by omega
  have h3 : p + n ≤ 0xC000 := by omega
  have h4 : p + n ≤ hdr.length := by omega
  unfold converted
  rw [slice_writeAt_of_le _ _ _ p n h1 h2]
  unfold copied
  rw [slice_writeAt_of_le _ _ _ p n h3 h4]

theorem read_entry (D : List Byte) (pos : Nat) (off : Int) (n : Nat) (p : Partition)
    (hoff : off = (n : Int)) (hlen : n + 512 ≤ D.length)
    (hs : slice D n 512 = Partition.codec.encode p) (hwf : p.WF) :
    ReadBigEndian Partition.codec ⟨D, pos⟩ off = .ok p := by
  have e : off.toNat = n := by omega
  have e2 : Partition.codec.size = 512 := rfl
  rw [ReadBigEndian_ok _ _ _ (by omega) (by rw [e, e2]; simp only; omega), e, e2]
  simp only
  rw [hs, Partition_decode_encode _ hwf]

theorem hfs_pme_count (rw : Bool) (len : Int) (h0 : 0 ≤ len) :
    (((WriteHFSPartitionEntry.pme 3 rw len).PmPartBlkCnt : Nat) : Int)
      = (len / 512) % 4294967296 := by
  simp only [WriteHFSPartitionEntry.pme]
  rw [Int.tdiv_eq_ediv h0 (by decide)]
  unfold toUint32
  omega

theorem hfs_pme_start (rw : Bool) (len : Int) :
    (WriteHFSPartitionEntry.pme 3 rw len).PmPyPartStart = 96 := rfl

theorem apple_pme_type :
    trimRightNul (WriteApplePartitionMapEntry.pme 3).PmPartType ≠ strBytes "Apple_HFS" := by
  simp only [WriteApplePartitionMapEntry.pme]
  decide

theorem driver_pme_type (AppleDriver43 : List Byte) :
    trimRightNul (WriteDriverPartitionEntry.pme AppleDriver43 3).PmPartType
      ≠ strBytes "Apple_HFS" := by
  simp only [WriteDriverPartitionEntry.pme]
  decide

theorem hfs_pme_type (rw : Bool) (len : Int) :
    trimRightNul (WriteHFSPartitionEntry.pme 3 rw len).PmPartType = strBytes "Apple_HFS" := by
  simp only [WriteHFSPartitionEntry.pme]
  decide

theorem ddr_sig (len : Int) :
    u16At (DDRecord.codec.encode (WriteDriverDescriptorRecord.ddr len)) 0 = 0x4552 := by
  have h : (DDRecord.codec.decode
      (DDRecord.codec.encode (WriteDriverDescriptorRecord.ddr len))).SbSig = 0x4552 := by
    rw [DDRecord_decode_encode _ (ddr_WF len)]
    rfl
  exact h

/-- Probing a converted image: the partition map leads to the volume at `0xC000`
and the block count of the "Apple_HFS" entry gives the length. -/
theorem ProbeFile_image (AppleDriver43 d src : List Byte) (rd : Nat) (len : Int) (rw : Bool)
    (pos : Nat) (h0 : 0 ≤ len)
    (hfit : 0xC000 + 1036
      ≤ (copied (header AppleDriver43 d rw len) src rd 0xC000 len.toNat).length)
    (hsrc : 0 < len → rd + len.toNat ≤ src.length) :
    ProbeFile ⟨converted (header AppleDriver43 d rw len) src rd 0xC000 len.toNat rw, pos⟩
      = .ok (((converted (header AppleDriver43 d rw len) src rd 0xC000 len.toNat rw).length : Int),
          0xC000, 512 * ((len / 512) % 4294967296)) := by
  obtain ⟨hh, s0, s1, s2, s3⟩ := header_slices AppleDriver43 d rw len
  have hB := hfs_pme_count rw len h0
  have hS : (((WriteHFSPartitionEntry.pme 3 rw len).PmPyPartStart : Nat) : Int) = 96 := by
    rw [hfs_pme_start]
    rfl
  have sig1 : (WriteApplePartitionMapEntry.pme 3).PmSig = 0x504D := rfl
  have sig2 : (WriteDriverPartitionEntry.pme AppleDriver43 3).PmSig = 0x504D := rfl
  have sig3 : (WriteHFSPartitionEntry.pme 3 rw len).PmSig = 0x504D := rfl
  have ty1 := apple_pme_type
  have ty2 := driver_pme_type AppleDriver43
  have ty3 := hfs_pme_type rw len
  have wf3 := hfs_pme_WF 3 rw len (by decide)
  have sigD := ddr_sig len
  generalize WriteHFSPartitionEntry.pme 3 rw len = P3 at hB hS sig3 ty3 wf3 s3
  have hLge : 0xC000 + len.toNat
      ≤ (copied (header AppleDriver43 d rw len) src rd 0xC000 len.toNat).length := by
    by_cases hpos : 0 < len
    · rw [length_copied _ _ _ _ _ (hsrc hpos) (by omega)]
      omega
    · have : len.toNat = 0 := by omega
      omega
  have hL := length_converted (header AppleDriver43 d rw len) src rd 0xC000 len.toNat rw hfit
  have t0 := slice_converted_header (header AppleDriver43 d rw len) src rd len.toNat rw 0 26
    hfit (by decide) hh
  have t1 := slice_converted_header (header AppleDriver43 d rw len) src rd len.toNat rw 0x200 512
    hfit (by decide) hh
  have t2 := slice_converted_header (header AppleDriver43 d rw len) src rd len.toNat rw 0x400 512
    hfit (by decide) hh
  have t3 := slice_converted_header (header AppleDriver43 d rw len) src rd len.toNat rw 0x600 512
    hfit (by decide) hh
  rw [s0] at t0
  rw [s1] at t1
  rw [s2] at t2
  rw [s3] at t3
  generalize converted (header AppleDriver43 d rw len) src rd 0xC000 len.toNat rw = D
    at hL t0 t1 t2 t3
  generalize (copied (header AppleDriver43 d rw len) src rd 0xC000 len.toNat).length = C
    at hfit hLge hL
  have w0 : u16At D 0 = 0x4552 := by
    have h := u16At_slice D 0 26 0 (by decide)
    rw [t0] at h
    rw [← h]
    exact sigD
  have r1 := read_entry D pos 512 512 _ (by decide) (by omega) t1 apple_pme_WF
  have r2 := read_entry D pos (512 + 512) 1024 _ (by decide) (by omega) t2 (driver_pme_WF AppleDriver43)
  have r3 := read_entry D pos (512 + 512 + 512) 1536 P3 (by decide) (by omega) t3 wf3
  have key : ProbePartitionMap ⟨D, pos⟩ (D.length : Int)
      = .ok (0xC000, 512 * (len / 512 % 4294967296)) := by
    obtain ⟨n, hn⟩ : ∃ n, D.length / 512 + 1 = n + 1 + 1 + 1 := ⟨D.length / 512 - 2, by omega⟩
    show ProbePartitionMap.loop ⟨D, pos⟩ (D.length : Int) (D.length / 512 + 1) 512 = _
    rw [hn, loop_skip _ _ _ 512 _ (by decide) r1 sig1 ty1,
      loop_skip _ _ _ (512 + 512) _ (by decide) r2 sig2 ty2,
      loop_hit _ _ _ (512 + 512 + 512) P3 (by decide) r3 sig3 ty3 (by rw [hS]; omega)]
    rw [hS, hB]
    have e1 : (96 : Int) * 512 = 0xC000 := by decide
    have e2 : max 0 (min (len / 512 % 4294967296 * 512)
        (512 * (((D.length : Int) - 96 * 512) / 512)))
        = 512 * (len / 512 % 4294967296) := by omega
    rw [e2, e1]
  have w0' : u16At (File.mk D pos).data 0 = 0x4552 := w0
  have key' : ProbePartitionMap ⟨D, pos⟩ ((File.mk D pos).data.length : Int)
      = .ok (0xC000, 512 * (len / 512 % 4294967296)) := key
  rw [ProbeFile_eq ⟨D, pos⟩ (show 26 ≤ D.length by omega), if_pos w0', key']

/-- Probing what a successful `WriteDeviceImage` left, for a volume length that
is not negative. -/
theorem ProbeFile_after_WriteDeviceImage (AppleDriver43 : List Byte) (ofd ifd : File)
    (hfsStart hfsLen : Int) (rw progress : Bool) (dst : File) (calls : List (Int × Int))
    (h : WriteDeviceImage AppleDriver43 ofd ifd hfsStart hfsLen rw progress = .ok (dst, calls))
    (h0 : 0 ≤ hfsLen) :
    ProbeFile dst = .ok ((dst.data.length : Int), 0xC000, 512 * (hfsLen / 512 % 4294967296)) := by
  obtain ⟨pos, hp⟩ := WriteDeviceImage_eq AppleDriver43 ofd ifd hfsStart hfsLen rw progress
  rw [hp] at h
  obtain ⟨_, _, hsrc, hfit, hdst⟩ := WriteHFSVolumeData_inv _ _ _ _ _ _ _ _ _ h
  have e : (0xC000 : Int).toNat = 0xC000 := rfl
  rw [e] at hfit hdst
  rw [hdst]
  exact ProbeFile_image AppleDriver43 ofd.data ifd.data hfsStart.toNat hfsLen rw _ h0 hfit hsrc

/-- C1 (as stated, refuted): a source of 1037 bytes is converted with
`writable = false` onto an empty destination, and `ProbeFile` on the result
returns volume offset `0xC000` and volume length 1024, not 1037. -/
theorem probe_length_is_not_hfsLength :
    ∃ calls, WriteDeviceImage sampleDriver ⟨[], 0⟩ oddVolume 0 1037 false false
        = .ok (imageOf (WriteDeviceImage sampleDriver ⟨[], 0⟩ oddVolume 0 1037 false false), calls)
      ∧ ProbeFile (imageOf (WriteDeviceImage sampleDriver ⟨[], 0⟩ oddVolume 0 1037 false false))
        = .ok (((imageOf (WriteDeviceImage sampleDriver ⟨[], 0⟩ oddVolume 0 1037 false
            false)).data.length : Int), 0xC000, 1024)
      ∧ (1024 : Int) ≠ 1037 := by
  obtain ⟨calls, h⟩ := WriteDeviceImage_ok sampleDriver ⟨[], 0⟩ oddVolume 0 1037 false false
    (by decide) (by decide) (by decide!)
  have hi := imageOf_spec _ _ _ h
  have hp := ProbeFile_after_WriteDeviceImage sampleDriver ⟨[], 0⟩ oddVolume 0 1037 false false
    _ calls hi (by decide)
  have e : (512 : Int) * (1037 / 512 % 4294967296) = 1024 := by decide
  rw [e] at hp
  exact ⟨calls, hi, hp, by decide⟩

/-- C1 (amended): for every source store, `hfsStart` and `hfsLength ≥ 0` for
which `WriteDeviceImage` succeeds on an empty destination with
`writable = false`, `ProbeFile` on the destination succeeds and returns volume
offset `0xC000` and volume length `512 * (floor(hfsLength / 512) mod 2^32)`: the
original `hfsLength` when that is a multiple of 512 below `2^41`. -/
theorem ProbeFile_WriteDeviceImage (AppleDriver43 : List Byte) (ifd : File)
    (hfsStart hfsLength : Int) (progress : Bool) (dst : File) (calls : List (Int × Int))
    (h : WriteDeviceImage AppleDriver43 ⟨[], 0⟩ ifd hfsStart hfsLength false progress
      = .ok (dst, calls))
    (h0 : 0 ≤ hfsLength) :
    ProbeFile dst
        = .ok ((dst.data.length : Int), 0xC000, 512 * (hfsLength / 512 % 4294967296))
      ∧ (hfsLength % 512 = 0 → hfsLength / 512 < 4294967296 →
          ProbeFile dst = .ok ((dst.data.length : Int), 0xC000, hfsLength)) := by
  have hp := ProbeFile_after_WriteDeviceImage AppleDriver43 ⟨[], 0⟩ ifd hfsStart hfsLength false
    progress dst calls h h0
  refine ⟨hp, ?_⟩
  intro hm hb
  have e : 512 * (hfsLength / 512 % 4294967296) = hfsLength := by omega
  rw [e] at hp
  exact hp

theorem ProbeFile_WriteDeviceImage_witness :
    ProbeFile (imageOf (WriteDeviceImage sampleDriver ⟨[], 0⟩ hfsPlusVolume 0 1536 false false))
        = .ok (((imageOf (WriteDeviceImage sampleDriver ⟨[], 0⟩ hfsPlusVolume 0 1536 false
            false)).data.length : Int), 0xC000, 512 * (1536 / 512 % 4294967296))
      ∧ ((1536 : Int) % 512 = 0 → (1536 : Int) / 512 < 4294967296 →
          ProbeFile (imageOf (WriteDeviceImage sampleDriver ⟨[], 0⟩ hfsPlusVolume 0 1536 false
            false))
          = .ok (((imageOf (WriteDeviceImage sampleDriver ⟨[], 0⟩ hfsPlusVolume 0 1536 false
            false)).data.length : Int), 0xC000, 1536)) := by
  obtain ⟨calls, h⟩ := WriteDeviceImage_ok sampleDriver ⟨[], 0⟩ hfsPlusVolume 0 1536 false false
    (by decide) (by decide) (by decide!)
  exact ProbeFile_WriteDeviceImage sampleDriver hfsPlusVolume 0 1536 false _ calls
    (imageOf_spec _ _ _ h) (by decide)

/-! ## Fuel is enough -/

/-- The copy loop never runs out of fuel when given `bytesRemaining` rounds. -/
theorem copy_loop_total (hfsLen : Int) (progress : Bool) (fuel : Nat) (ofd ifd : File) (r : Int)
    (calls : List (Int × Int)) (hf : r.toNat ≤ fuel) :
    WriteHFSVolumeData.loop hfsLen progress fuel ofd ifd r calls ≠ .error .outOfFuel := by
  by_cases h : 0 < r → ifd.pos + r.toNat ≤ ifd.data.length
  · obtain ⟨calls', hc⟩ := copy_loop_ok hfsLen progress fuel ofd ifd r calls hf h
    rw [hc]
    intro hne
    cases hne
  · have hr : 0 < r := by
      by_contra hc
      exact h (fun h' => absurd h' hc)
    have hsh : ifd.data.length < ifd.pos + r.toNat := by
      by_contra hc
      exact h (fun _ => by omega)
    rw [copy_loop_short hfsLen progress fuel ofd ifd r calls hf hr hsh]
    intro hne
    cases hne

theorem ReadFull_ne_outOfFuel (f : File) (size : Nat) :
    ReadFull f size ≠ .error .outOfFuel := by
  unfold ReadFull
  split
  · intro h; cases h
  · split
    · intro h; cases h
    · intro h; cases h

theorem ReadBigEndian_ne_outOfFuel {T : Type} (c : Codec T) (f : File) (off : Int) :
    ReadBigEndian c f off ≠ .error .outOfFuel := by
  by_cases h0 : off < 0
  · simp only [ReadBigEndian, Seek_error _ _ h0]
    intro h; cases h
  · simp only [ReadBigEndian, Seek_ok _ _ (by omega : 0 ≤ off)]
    cases hr : ReadFull ⟨f.data, off.toNat⟩ c.size with
    | error e =>
      simp only
      intro h
      cases h
      exact ReadFull_ne_outOfFuel _ _ hr
    | ok v =>
      simp only
      intro h
      cases h

theorem walk_total (f : File) (fs : Int) :
    ∀ (fuel k : Nat), 1 ≤ fuel → f.data.length / 512 < k + fuel →
      ProbePartitionMap.loop f fs fuel (512 * ((k : Int) + 1)) ≠ .error .outOfFuel := by
  intro fuel
  induction fuel with
  | zero =>
    intro k h1 _
    omega
  | succ fuel ih =>
    intro k _ hk
    simp only [ProbePartitionMap.loop, entry_offset_pos k, if_true]
    cases hr : ReadBigEndian Partition.codec f (512 * ((k : Int) + 1)) with
    | error e =>
      simp only
      intro hne
      cases hne
      exact ReadBigEndian_ne_outOfFuel _ _ _ hr
    | ok pme =>
      simp only
      by_cases hsig : pme.PmSig = 0x504D
      · simp only [hsig, ne_eq, not_true_eq_false, if_false]
        by_cases hty : trimRightNul pme.PmPartType = strBytes "Apple_HFS"
        · simp only [hty, if_true]
          by_cases hoff : (pme.PmPyPartStart : Int) * 512 > fs
          · simp only [hoff, if_true]
            intro hne
            cases hne
          · simp only [hoff, if_false, shrink_eq _ _ _ _ (Nat.le_refl _)]
            intro hne
            cases hne
        · simp only [hty, if_false]
          have e : (512 : Int) * ((k : Int) + 1) + 512 = 512 * (((k + 1 : Nat) : Int) + 1) := by
            push_cast; ring
          rw [e]
          obtain ⟨_, hread, _⟩ := ReadBigEndian_inv _ _ _ _ hr
          have hsz : Partition.codec.size = 512 := rfl
          rw [hsz] at hread
          exact ih (k + 1) (by omega) (by omega)
      · simp only [ne_eq, hsig, not_false_eq_true, if_true]
        intro hne
        cases hne

/-- The walk of `ProbePartitionMap` never runs out of the fuel it is given. -/
theorem ProbePartitionMap_total (f : File) (fileSize : Int) :
    ProbePartitionMap f fileSize ≠ .error .outOfFuel := by
  have e : (512 : Int) = 512 * (((0 : Nat) : Int) + 1) := by decide
  unfold ProbePartitionMap
  rw [e]
  exact walk_total f fileSize _ 0 (by omega) (by omega)

theorem ReadFull_error_kind (f : File) (size : Nat) (e : Error)
    (h : ReadFull f size = .error e) : e = .EOF ∨ e = .ErrUnexpectedEOF := by
  unfold ReadFull at h
  split at h
  · cases h
  · split at h
    · cases h; exact Or.inl rfl
    · cases h; exact Or.inr rfl

theorem ReadBigEndian_error_kind {T : Type} (c : Codec T) (f : File) (off : Int) (e : Error)
    (h : ReadBigEndian c f off = .error e) :
    ∃ e', ReadBigEndian c f off = .error e'
      ∧ (e' = .EOF ∨ e' = .ErrUnexpectedEOF ∨ e' = .EINVAL) := by
  refine ⟨e, h, ?_⟩
  by_cases h0 : off < 0
  · simp only [ReadBigEndian, Seek_error _ _ h0] at h
    cases h
    exact Or.inr (Or.inr rfl)
  · simp only [ReadBigEndian, Seek_ok _ _ (by omega : 0 ≤ off)] at h
    cases hr : ReadFull ⟨f.data, off.toNat⟩ c.size with
    | error e2 =>
      rw [hr] at h
      cases h
      rcases ReadFull_error_kind _ _ _ hr with h2 | h2
      · exact Or.inl h2
      · exact Or.inr (Or.inl h2)
    | ok v =>
      rw [hr] at h
      cases h

/-! ## Errors of the partition map walk -/

theorem entry_offset_succ (k : Nat) :
    (512 : Int) * ((k : Int) + 1) + 512 = 512 * (((k + 1 : Nat) : Int) + 1) := by
  push_cast
  omega

/-- Entries of another type are walked over: `j` of them cost `j` rounds of fuel. -/
theorem loop_reach (f : File) (fs : Int) :
    ∀ (j fuel k0 : Nat),
      (∀ i, k0 ≤ i → i < k0 + j →
        ∃ q, ReadBigEndian Partition.codec f (512 * ((i : Int) + 1)) = .ok q
          ∧ q.PmSig = 0x504D ∧ trimRightNul q.PmPartType ≠ strBytes "Apple_HFS") →
      ProbePartitionMap.loop f fs (fuel + j) (512 * ((k0 : Int) + 1))
        = ProbePartitionMap.loop f fs fuel (512 * (((k0 + j : Nat) : Int) + 1)) := by
  intro j
  induction j with
  | zero =>
    intro fuel k0 _
    rfl
  | succ j ih =>
    intro fuel k0 hskip
    obtain ⟨q, hq, hsig, hty⟩ := hskip k0 (Nat.le_refl _) (by omega)
    have e : fuel + (j + 1) = (fuel + j) + 1 := by omega
    rw [e, loop_skip f fs (fuel + j) _ q (entry_offset_pos k0) hq hsig hty, entry_offset_succ,
      ih fuel (k0 + 1) (fun i h1 h2 => hskip i (by omega) (by omega))]
    have e2 : k0 + 1 + j = k0 + (j + 1) := by omega
    rw [e2]

theorem loop_beyond (f : File) (fs : Int) (fuel : Nat) (off : Int) (pme : Partition)
    (hoff : 0 < off) (hr : ReadBigEndian Partition.codec f off = .ok pme)
    (hsig : pme.PmSig = 0x504D) (hty : trimRightNul pme.PmPartType = strBytes "Apple_HFS")
    (hbeyond : (pme.PmPyPartStart : Int) * 512 > fs) :
    ProbePartitionMap.loop f fs (fuel + 1) off
      = .error (.Errorf "partition start beyond file size") := by
  have h1 : off > 0 := hoff
  simp only [ProbePartitionMap.loop, h1, if_true, hr, hsig, ne_eq, not_true_eq_false, if_false,
    hty, hbeyond]

theorem loop_stop (f : File) (fs : Int) (fuel : Nat) (off : Int) (pme : Partition)
    (hoff : 0 < off) (hr : ReadBigEndian Partition.codec f off = .ok pme)
    (hsig : pme.PmSig ≠ 0x504D) :
    ProbePartitionMap.loop f fs (fuel + 1) off = .error (.Errorf "HFS partition not found") := by
  have h1 : off > 0 := hoff
  simp only [ProbePartitionMap.loop, h1, if_true, hr, hsig, ne_eq, not_false_eq_true]

/-- An entry that is read at index `k` leaves the walk, started with the fuel
of `ProbePartitionMap`, at least one round when it gets there. -/
theorem fuel_at_entry (f : File) (k : Nat) (pme : Partition)
    (hr : ReadBigEndian Partition.codec f (512 * ((k : Int) + 1)) = .ok pme) :
    ∃ fuel, f.data.length / 512 + 1 = (fuel + 1) + k := by
  obtain ⟨_, hread, _⟩ := ReadBigEndian_inv _ _ _ _ hr
  have hsz : Partition.codec.size = 512 := rfl
  rw [hsz] at hread
  exact ⟨f.data.length / 512 - k, by omega⟩

theorem loop_beyond_inv (f : File) (fs : Int) :
    ∀ (fuel k : Nat),
      ProbePartitionMap.loop f fs fuel (512 * ((k : Int) + 1))
        = .error (.Errorf "partition start beyond file size") →
      ∃ (j : Nat) (pme : Partition), k ≤ j
        ∧ (∀ i, k ≤ i → i < j → ∃ q, ReadBigEndian Partition.codec f (512 * ((i : Int) + 1)) = .ok q
            ∧ q.PmSig = 0x504D ∧ trimRightNul q.PmPartType ≠ strBytes "Apple_HFS")
        ∧ ReadBigEndian Partition.codec f (512 * ((j : Int) + 1)) = .ok pme
        ∧ pme.PmSig = 0x504D ∧ trimRightNul pme.PmPartType = strBytes "Apple_HFS"
        ∧ (pme.PmPyPartStart : Int) * 512 > fs := by
  intro fuel
  induction fuel with
  | zero =>
    intro k h
    simp only [ProbePartitionMap.loop, entry_offset_pos k, if_true] at h
    cases h
  | succ fuel ih =>
    intro k h
    simp only [ProbePartitionMap.loop, entry_offset_pos k, if_true] at h
    cases hr : ReadBigEndian Partition.codec f (512 * ((k : Int) + 1)) with
    | error e =>
      rw [hr] at h
      simp only at h
      obtain ⟨e', he'⟩ : ∃ e', ReadBigEndian Partition.codec f (512 * ((k : Int) + 1))
          = .error e' ∧ (e' = .EOF ∨ e' = .ErrUnexpectedEOF ∨ e' = .EINVAL) :=
        ReadBigEndian_error_kind _ _ _ _ hr
      rw [hr] at he'
      obtain ⟨he1, he2⟩ := he'
      cases he1
      cases h
      rcases he2 with h2 | h2 | h2 <;> cases h2
    | ok pme =>
      rw [hr] at h
      simp only at h
      by_cases hsig : pme.PmSig = 0x504D
      · simp only [hsig, ne_eq, not_true_eq_false, if_false] at h
        by_cases hty : trimRightNul pme.PmPartType = strBytes "Apple_HFS"
        · simp only [hty, if_true] at h
          by_cases hoff : (pme.PmPyPartStart : Int) * 512 > fs
          · exact ⟨k, pme, Nat.le_refl _, fun i h1 h2 => by omega, hr, hsig, hty, hoff⟩
          · simp only [hoff, if_false, shrink_eq _ _ _ _ (Nat.le_refl _)] at h
            cases h
        · simp only [hty, if_false] at h
          rw [entry_offset_succ] at h
          obtain ⟨j, q, hkj, hbefore, hrest⟩ := ih (k + 1) h
          refine ⟨j, q, by omega, ?_, hrest⟩
          intro i h1 h2
          by_cases hik : i = k
          · subst hik
            exact ⟨pme, hr, hsig, hty⟩
          · exact hbefore i (by omega) h2
      · simp only [ne_eq, hsig, not_false_eq_true, if_true] at h
        exact absurd h (by decide)

theorem ProbePartitionMap_eq_loop (f : File) (fileSize : Int) :
    ProbePartitionMap f fileSize
      = ProbePartitionMap.loop f fileSize (f.data.length / 512 + 1)
          (512 * (((0 : Nat) : Int) + 1)) := by
  have e : (512 : Int) * (((0 : Nat) : Int) + 1) = 512 := by decide
  rw [e]
  rfl

/-- C11: `ProbePartitionMap` fails with "partition start beyond file size" if
and only if the first "Apple_HFS" entry it reaches (all entries before it being
map entries of another type) has `start_block * 512 > fileSize`; when
`start_block * 512 = fileSize` it succeeds, with length 0. -/
theorem ProbePartitionMap_start_beyond (f : File) (fileSize : Int) :
    (ProbePartitionMap f fileSize = .error (.Errorf "partition start beyond file size")
      ↔ ∃ (k : Nat) (pme : Partition),
          (∀ i, i < k → ∃ q, ReadBigEndian Partition.codec f (512 * ((i : Int) + 1)) = .ok q
            ∧ q.PmSig = 0x504D ∧ trimRightNul q.PmPartType ≠ strBytes "Apple_HFS")
          ∧ ReadBigEndian Partition.codec f (512 * ((k : Int) + 1)) = .ok pme
          ∧ pme.PmSig = 0x504D ∧ trimRightNul pme.PmPartType = strBytes "Apple_HFS"
          ∧ (pme.PmPyPartStart : Int) * 512 > fileSize)
    ∧ (∀ (k : Nat) (pme : Partition),
        (∀ i, i < k → ∃ q, ReadBigEndian Partition.codec f (512 * ((i : Int) + 1)) = .ok q
          ∧ q.PmSig = 0x504D ∧ trimRightNul q.PmPartType ≠ strBytes "Apple_HFS") →
        ReadBigEndian Partition.codec f (512 * ((k : Int) + 1)) = .ok pme →
        pme.PmSig = 0x504D → trimRightNul pme.PmPartType = strBytes "Apple_HFS" →
        (pme.PmPyPartStart : Int) * 512 = fileSize →
        ProbePartitionMap f fileSize = .ok (fileSize, 0)) := by
  have e : (512 : Int) = 512 * (((0 : Nat) : Int) + 1) := by decide
  have reach : ∀ (k : Nat) (pme : Partition),
      (∀ i, i < k → ∃ q, ReadBigEndian Partition.codec f (512 * ((i : Int) + 1)) = .ok q
        ∧ q.PmSig = 0x504D ∧ trimRightNul q.PmPartType ≠ strBytes "Apple_HFS") →
      ReadBigEndian Partition.codec f (512 * ((k : Int) + 1)) = .ok pme →
      ∃ fuel, ProbePartitionMap f fileSize
        = ProbePartitionMap.loop f fileSize (fuel + 1) (512 * ((k : Int) + 1)) := by
    intro k pme hskip hr
    obtain ⟨fuel, hfuel⟩ := fuel_at_entry f k pme hr
    refine ⟨fuel, ?_⟩
    rw [ProbePartitionMap_eq_loop, hfuel, loop_reach f fileSize k (fuel + 1) 0
      (fun i _ h2 => hskip i (by omega))]
    have e2 : 0 + k = k := by omega
    rw [e2]
  refine ⟨⟨?_, ?_⟩, ?_⟩
  · intro h
    unfold ProbePartitionMap at h
    rw [e] at h
    obtain ⟨j, pme, _, hbefore, hrest⟩ := loop_beyond_inv f fileSize _ 0 h
    exact ⟨j, pme, fun i hi => hbefore i (Nat.zero_le _) hi, hrest⟩
  · rintro ⟨k, pme, hskip, hr, hsig, hty, hbeyond⟩
    obtain ⟨fuel, hf⟩ := reach k pme hskip hr
    rw [hf, loop_beyond f fileSize fuel _ pme (entry_offset_pos k) hr hsig hty hbeyond]
  · intro k pme hskip hr hsig hty heq
    obtain ⟨fuel, hf⟩ := reach k pme hskip hr
    rw [hf, loop_hit f fileSize fuel _ pme (entry_offset_pos k) hr hsig hty (by omega), heq]
    have e3 : max 0 (min ((pme.PmPartBlkCnt : Int) * 512) (512 * ((fileSize - fileSize) / 512)))
        = 0 := by omega
    rw [e3]

theorem ProbePartitionMap_start_beyond_witness :
    ProbePartitionMap sampleMap 1000 = .error (.Errorf "partition start beyond file size")
      ∧ ProbePartitionMap sampleMap 1024 = .ok (1024, 0) := by
  have hskip : ∀ i : Nat, i < 0 →
      ∃ q, ReadBigEndian Partition.codec sampleMap (512 * ((i : Int) + 1)) = .ok q
        ∧ q.PmSig = 0x504D ∧ trimRightNul q.PmPartType ≠ strBytes "Apple_HFS" :=
    fun i hi => absurd hi (Nat.not_lt_zero i)
  exact ⟨(ProbePartitionMap_start_beyond sampleMap 1000).1.mpr
      ⟨0, sampleEntry, hskip, by decide!, by decide, by decide, by decide⟩,
    (ProbePartitionMap_start_beyond sampleMap 1024).2 0 sampleEntry hskip (by decide!)
      (by decide) (by decide) (by decide)⟩

/-- C12: when the entries at offsets 512, 1024, ..., `512 * k` all have
signature `0x504D` and none has type "Apple_HFS", and the block at
`512 * (k + 1)` is readable with another signature, `ProbePartitionMap` fails
with "HFS partition not found" (no offset or length is returned). -/
theorem ProbePartitionMap_not_found (f : File) (fileSize : Int) (k : Nat) (last : Partition)
    (hskip : ∀ i, i < k →
      ∃ q, ReadBigEndian Partition.codec f (512 * ((i : Int) + 1)) = .ok q
        ∧ q.PmSig = 0x504D ∧ trimRightNul q.PmPartType ≠ strBytes "Apple_HFS")
    (hlast : ReadBigEndian Partition.codec f (512 * ((k : Int) + 1)) = .ok last)
    (hsig : last.PmSig ≠ 0x504D) :
    ProbePartitionMap f fileSize = .error (.Errorf "HFS partition not found") := by
  obtain ⟨fuel, hfuel⟩ := fuel_at_entry f k last hlast
  rw [ProbePartitionMap_eq_loop, hfuel,
    loop_reach f fileSize k (fuel + 1) 0 (fun i _ h2 => hskip i (by omega))]
  have e2 : 0 + k = k := by omega
  rw [e2, loop_stop f fileSize fuel _ last (entry_offset_pos k) hlast hsig]

theorem ProbePartitionMap_not_found_witness :
    ProbePartitionMap sampleMapWithoutHFS 1536 = .error (.Errorf "HFS partition not found") :=
  ProbePartitionMap_not_found sampleMapWithoutHFS 1536 1 (Partition.codec.decode (List.replicate 512 0))
    (fun i hi => by
      have h0 : i = 0 := by omega
      subst h0
      exact ⟨WriteApplePartitionMapEntry.pme 1, by decide!, by decide, by decide⟩)
    (by decide!) (by decide!)

/-! ## The accumulator of the checksum -/

theorem acc_append (data : List Byte) (b : Byte) :
    Checksum16.acc (data ++ [b]) = rotl16_1 ((Checksum16.acc data + b.val) % 65536) := by
  simp only [Checksum16.acc, List.foldl_append, List.foldl_cons, List.foldl_nil]
  exact step_eq_rotl _ _

theorem rotl16_1_lt (x : Nat) (hx : x < 65536) : rotl16_1 x < 65536 := by
  unfold rotl16_1
  rcases Nat.lt_or_ge x 32768 with h | h
  · have h1 : x / 32768 = 0 := by omega
    rw [h1]
    omega
  · have h1 : x / 32768 = 1 := by omega
    have h2 : 2 * x % 65536 = 2 * x - 65536 := by omega
    rw [h1, h2]
    omega

theorem acc_lt (data : List Byte) : Checksum16.acc data < 65536 := by
  induction data using List.reverseRecOn with
  | nil => decide
  | append_singleton l b _ =>
    rw [acc_append]
    exact rotl16_1_lt _ (Nat.mod_lt _ (by decide))

theorem rotl16_1_eq_zero (x : Nat) (hx : x < 65536) : rotl16_1 x = 0 ↔ x = 0 := by
  unfold rotl16_1
  rcases Nat.lt_or_ge x 32768 with h | h
  · have h1 : x / 32768 = 0 := by omega
    have h2 : 2 * x % 65536 = 2 * x := by omega
    rw [h1, h2]
    omega
  · have h1 : x / 32768 = 1 := by omega
    rw [h1]
    omega

theorem acc_replicate_zero (n : Nat) : Checksum16.acc (List.replicate n 0) = 0 := by
  induction n with
  | zero => rfl
  | succ n ih =>
    rw [List.replicate_succ', acc_append, ih]
    rfl

/-- C19 (as stated, refuted): the one-byte sequence `[0]` is not empty and leaves
the accumulator of `Checksum16` at 0. -/
theorem accumulator_zero_on_zero_byte :
    ([0] : List Byte) ≠ [] ∧ Checksum16.acc [0] = 0 := by
  decide

/-- C19 (amended): after a sequence `data` followed by a last byte `b` the
accumulator of `Checksum16` is zero if and only if the accumulator after `data`
plus `b` is 0 modulo `2^16`; so it is zero for every all-zero sequence, and
non-zero for a single non-zero byte. -/
theorem accumulator_zero_iff (data : List Byte) (b : Byte) (n : Nat) :
    (Checksum16.acc (data ++ [b]) = 0 ↔ (Checksum16.acc data + b.val) % 65536 = 0)
      ∧ Checksum16.acc (List.replicate n 0) = 0
      ∧ (b ≠ 0 → Checksum16.acc [b] ≠ 0) := by
  refine ⟨?_, acc_replicate_zero n, ?_⟩
  · rw [acc_append]
    exact rotl16_1_eq_zero _ (Nat.mod_lt _ (by decide))
  · intro hb hacc
    have h := acc_append [] b
    rw [List.nil_append, hacc] at h
    have h2 := (rotl16_1_eq_zero _ (Nat.mod_lt _ (by decide))).mp h.symm
    have h3 : Checksum16.acc [] = 0 := rfl
    rw [h3] at h2
    have hlt := b.isLt
    have hv : b.val = 0 := by omega
    exact hb (Fin.ext hv)

theorem accumulator_zero_iff_witness :
    (Checksum16.acc ([1] ++ [2]) = 0 ↔ (Checksum16.acc [1] + (2 : Byte).val) % 65536 = 0)
      ∧ Checksum16.acc (List.replicate 3 0) = 0
      ∧ ((2 : Byte) ≠ 0 → Checksum16.acc [2] ≠ 0) :=
  accumulator_zero_iff [1] 2 3

theorem Checksum16_lt (data : List Byte) : Checksum16 data < 65536 := by
  unfold Checksum16
  simp only
  split
  · decide
  · exact acc_lt data

theorem Checksum16_pos (data : List Byte) : Checksum16 data ≠ 0 := by
  unfold Checksum16
  simp only
  split
  · decide
  · assumption

/-- C20: for every byte sequence `Checksum16` returns a value different from 0
(and below `2^16`), so a stored checksum of 0 never equals a computed one. -/
theorem Checksum16_ne_zero (data : List Byte) :
    Checksum16 data ≠ 0 ∧ Checksum16 data < 65536 ∧ (0 : Nat) ≠ Checksum16 data :=
  ⟨Checksum16_pos data, Checksum16_lt data, fun h => Checksum16_pos data h.symm⟩

/-! ## The HFS volume report -/

theorem u32At_lt (d : List Byte) (p : Nat) : u32At d p < 4294967296 := by
  unfold u32At
  have h1 := (d.getD p 0).isLt
  have h2 := (d.getD (p + 1) 0).isLt
  have h3 := (d.getD (p + 2) 0).isLt
  have h4 := (d.getD (p + 3) 0).isLt
  omega

theorem name_of_field (field : List Byte) (h : field.length = 28) :
    describeHFSVolume.name field = .ok (slice field 1 (min (field.getD 0 0).val 27)) := by
  cases field with
  | nil => simp at h
  | cons b rest =>
    have hb : indexByte (b :: rest) 0 = .ok b := by
      simp only [indexByte, List.getElem?_cons_zero]
    have hg : (b :: rest).getD 0 0 = b := rfl
    have hmin : (if b.val > 27 then 27 else b.val) = min b.val 27 := by
      split <;> omega
    have hbound : 1 ≤ 1 + min b.val 27 ∧ 1 + min b.val 27 ≤ (b :: rest).length := by
      rw [h]; omega
    have hsub : 1 + min b.val 27 - 1 = min b.val 27 := by omega
    simp only [describeHFSVolume.name, hb, hg, hmin, sliceBytes, hbound, and_self, if_true, hsub,
      slice]

/-- The fields of a Master Directory Block read from a file. -/
theorem mdb_read_facts (f : File) (off : Int) (mdb : MasterDirectoryBlock)
    (h : ReadBigEndian MasterDirectoryBlock.codec f off = .ok mdb) :
    mdb.DrVolName.length = 28 ∧ mdb.DrAlBlkSiz < 4294967296 ∧ mdb.DrNmAlBlks < 65536
      ∧ mdb.DrFreeBks < 65536 := by
  obtain ⟨_, hsz, hv⟩ := ReadBigEndian_inv _ _ _ _ h
  have e : MasterDirectoryBlock.codec.size = 162 := rfl
  rw [e] at hsz hv
  have hl : (slice f.data off.toNat 162).length = 162 := by
    rw [length_slice]; omega
  rw [hv]
  refine ⟨?_, u32At_lt _ _, u16At_lt _ _, u16At_lt _ _⟩
  show ((slice f.data off.toNat 162).drop 36 |>.take 28).length = 28
  rw [List.length_take, List.length_drop, hl]
  rfl

/-- The report of `describeHFSVolume` on an HFS volume whose boot block header
and Master Directory Block are read. -/
theorem describeHFSVolume_hfs (f : File) (offset : Int) (tab : Nat) (verbose : Bool)
    (bb : BootBlockHeader) (mdb : MasterDirectoryBlock)
    (hbb : ReadBigEndian BootBlockHeader.codec f offset = .ok bb)
    (hmdb : ReadBigEndian MasterDirectoryBlock.codec f (offset + 512 * 2) = .ok mdb)
    (hsig : mdb.DrSigWord = 0x4244) :
    describeHFSVolume f offset tab verbose
      = .ok ((if verbose then describeHFSVolume.verboseLines bb mdb tab else [])
          ++ [⟨tab, "Volume: %s\n",
                [.str (slice mdb.DrVolName 1 (min (mdb.DrVolName.getD 0 0).val 27))]⟩,
              ⟨tab, "Created: %s\n", [DateStringForHFSDate mdb.DrCrDate]⟩,
              ⟨tab, "Last modified: %s\n", [DateStringForHFSDate mdb.DrLsMod]⟩,
              ⟨tab, "Capacity: %.1f MB (%d bytes)\n",
                [.float (describeHFSVolume.capacityBytes mdb) (1024 * 1024),
                 .int (describeHFSVolume.capacityBytes mdb)]⟩,
              ⟨tab, "Used: %.1f MB (%d bytes)\n",
                [.float (describeHFSVolume.usedBytes mdb) (1024 * 1024),
                 .int (describeHFSVolume.usedBytes mdb)]⟩,
              ⟨tab, "Free: %.1f MB (%d bytes)\n",
                [.float (describeHFSVolume.freeBytes mdb) (1024 * 1024),
                 .int (describeHFSVolume.freeBytes mdb)]⟩]) := by
  obtain ⟨hname, _⟩ := mdb_read_facts f _ mdb hmdb
  unfold describeHFSVolume
  simp only [hbb, hmdb]
  rw [if_pos hsig]
  simp only [name_of_field _ hname, tabPrint, List.append_assoc, List.singleton_append,
    List.cons_append, List.nil_append]

theorem byte_counts_of_mdb (mdb : MasterDirectoryBlock) (ha : mdb.DrAlBlkSiz < 4294967296)
    (hn : mdb.DrNmAlBlks < 65536) (hf : mdb.DrFreeBks < 65536) :
    describeHFSVolume.capacityBytes mdb = mdb.DrAlBlkSiz * mdb.DrNmAlBlks
      ∧ describeHFSVolume.usedBytes mdb
          = mdb.DrAlBlkSiz * ((mdb.DrNmAlBlks + 2 ^ 32 - mdb.DrFreeBks) % 2 ^ 32)
      ∧ describeHFSVolume.freeBytes mdb = mdb.DrAlBlkSiz * mdb.DrFreeBks := by
  have h64 : (4294967296 : Nat) * 4294967296 = 2 ^ 64 := by decide
  have hu : (mdb.DrNmAlBlks + 2 ^ 32 - mdb.DrFreeBks) % 2 ^ 32 < 4294967296 :=
    Nat.mod_lt _ (by decide)
  have b1 : mdb.DrAlBlkSiz * mdb.DrNmAlBlks < 2 ^ 64 := by
    rw [← h64]
    exact Nat.mul_lt_mul'' ha (by omega)
  have b2 : mdb.DrAlBlkSiz * ((mdb.DrNmAlBlks + 2 ^ 32 - mdb.DrFreeBks) % 2 ^ 32) < 2 ^ 64 := by
    rw [← h64]
    exact Nat.mul_lt_mul'' ha hu
  have b3 : mdb.DrAlBlkSiz * mdb.DrFreeBks < 2 ^ 64 := by
    rw [← h64]
    exact Nat.mul_lt_mul'' ha (by omega)
  exact ⟨Nat.mod_eq_of_lt b1, Nat.mod_eq_of_lt b2, Nat.mod_eq_of_lt b3⟩

/-- C16 (as stated, refuted): on `corruptVolume` (signature `0x4244`, allocation
block size 512, 0 allocation blocks, 1 free block) `describeHFSVolume` reports
capacity 0, used 2199023255040 and free 512, so used + free is not the capacity. -/
theorem used_and_free_exceed_capacity :
    describeHFSVolume corruptVolume 0 0 false
        = .ok [⟨0, "Volume: %s\n", [.str []]⟩,
               ⟨0, "Created: %s\n", [.str []]⟩,
               ⟨0, "Last modified: %s\n", [.str []]⟩,
               ⟨0, "Capacity: %.1f MB (%d bytes)\n", [.float 0 1048576, .int 0]⟩,
               ⟨0, "Used: %.1f MB (%d bytes)\n", [.float 2199023255040 1048576,
                 .int 2199023255040]⟩,
               ⟨0, "Free: %.1f MB (%d bytes)\n", [.float 512 1048576, .int 512]⟩]
      ∧ (2199023255040 : Nat) + 512 ≠ 0 := by
  exact ⟨by decide!, by decide⟩

/-- C16 (amended): for every HFS Master Directory Block (signature `0x4244`)
that `describeHFSVolume` reads, the reported capacity is
`alloc_block_size * total_alloc_blocks`, the reported free count is
`alloc_block_size * free_blocks` and the reported used count is
`alloc_block_size * ((total_alloc_blocks - free_blocks) mod 2^32)`; when
`free_blocks ≤ total_alloc_blocks` the used count is capacity minus free, so
used + free = capacity. -/
theorem describeHFSVolume_byte_counts (f : File) (offset : Int) (tab : Nat) (verbose : Bool)
    (bb : BootBlockHeader) (mdb : MasterDirectoryBlock)
    (hbb : ReadBigEndian BootBlockHeader.codec f offset = .ok bb)
    (hmdb : ReadBigEndian MasterDirectoryBlock.codec f (offset + 512 * 2) = .ok mdb)
    (hsig : mdb.DrSigWord = 0x4244) :
    (∃ head : Report, describeHFSVolume f offset tab verbose
      = .ok (head ++
          [⟨tab, "Capacity: %.1f MB (%d bytes)\n",
              [.float (mdb.DrAlBlkSiz * mdb.DrNmAlBlks) (1024 * 1024),
               .int ((mdb.DrAlBlkSiz * mdb.DrNmAlBlks : Nat) : Int)]⟩,
           ⟨tab, "Used: %.1f MB (%d bytes)\n",
              [.float (mdb.DrAlBlkSiz * ((mdb.DrNmAlBlks + 2 ^ 32 - mdb.DrFreeBks) % 2 ^ 32))
                 (1024 * 1024),
               .int ((mdb.DrAlBlkSiz * ((mdb.DrNmAlBlks + 2 ^ 32 - mdb.DrFreeBks) % 2 ^ 32)
                 : Nat) : Int)]⟩,
           ⟨tab, "Free: %.1f MB (%d bytes)\n",
              [.float (mdb.DrAlBlkSiz * mdb.DrFreeBks) (1024 * 1024),
               .int ((mdb.DrAlBlkSiz * mdb.DrFreeBks : Nat) : Int)]⟩]))
    ∧ (mdb.DrFreeBks ≤ mdb.DrNmAlBlks →
        mdb.DrAlBlkSiz * ((mdb.DrNmAlBlks + 2 ^ 32 - mdb.DrFreeBks) % 2 ^ 32)
            = mdb.DrAlBlkSiz * mdb.DrNmAlBlks - mdb.DrAlBlkSiz * mdb.DrFreeBks
          ∧ mdb.DrAlBlkSiz * ((mdb.DrNmAlBlks + 2 ^ 32 - mdb.DrFreeBks) % 2 ^ 32)
              + mdb.DrAlBlkSiz * mdb.DrFreeBks
            = mdb.DrAlBlkSiz * mdb.DrNmAlBlks) := by
  obtain ⟨_, ha, hn, hf⟩ := mdb_read_facts f _ mdb hmdb
  obtain ⟨c1, c2, c3⟩ := byte_counts_of_mdb mdb ha hn hf
  constructor
  · refine ⟨(if verbose then describeHFSVolume.verboseLines bb mdb tab else [])
      ++ [⟨tab, "Volume: %s\n",
            [.str (slice mdb.DrVolName 1 (min (mdb.DrVolName.getD 0 0).val 27))]⟩,
          ⟨tab, "Created: %s\n", [DateStringForHFSDate mdb.DrCrDate]⟩,
          ⟨tab, "Last modified: %s\n", [DateStringForHFSDate mdb.DrLsMod]⟩], ?_⟩
    rw [describeHFSVolume_hfs f offset tab verbose bb mdb hbb hmdb hsig, c1, c2, c3]
    simp only [List.append_assoc, List.cons_append, List.nil_append]
  · intro hle
    have e : (mdb.DrNmAlBlks + 2 ^ 32 - mdb.DrFreeBks) % 2 ^ 32
        = mdb.DrNmAlBlks - mdb.DrFreeBks := by
      omega
    rw [e, Nat.mul_sub]
    refine ⟨rfl, ?_⟩
    exact Nat.sub_add_cancel (Nat.mul_le_mul_left _ hle)

theorem describeHFSVolume_byte_counts_witness :
    (∃ head : Report, describeHFSVolume sampleVolume 0 1 false
      = .ok (head ++
          [⟨1, "Capacity: %.1f MB (%d bytes)\n",
              [.float (sampleMDB.DrAlBlkSiz * sampleMDB.DrNmAlBlks) (1024 * 1024),
               .int ((sampleMDB.DrAlBlkSiz * sampleMDB.DrNmAlBlks : Nat) : Int)]⟩,
           ⟨1, "Used: %.1f MB (%d bytes)\n",
              [.float (sampleMDB.DrAlBlkSiz
                  * ((sampleMDB.DrNmAlBlks + 2 ^ 32 - sampleMDB.DrFreeBks) % 2 ^ 32))
                 (1024 * 1024),
               .int ((sampleMDB.DrAlBlkSiz
                  * ((sampleMDB.DrNmAlBlks + 2 ^ 32 - sampleMDB.DrFreeBks) % 2 ^ 32)
                 : Nat) : Int)]⟩,
           ⟨1, "Free: %.1f MB (%d bytes)\n",
              [.float (sampleMDB.DrAlBlkSiz * sampleMDB.DrFreeBks) (1024 * 1024),
               .int ((sampleMDB.DrAlBlkSiz * sampleMDB.DrFreeBks : Nat) : Int)]⟩]))
    ∧ (sampleMDB.DrFreeBks ≤ sampleMDB.DrNmAlBlks →
        sampleMDB.DrAlBlkSiz * ((sampleMDB.DrNmAlBlks + 2 ^ 32 - sampleMDB.DrFreeBks) % 2 ^ 32)
            = sampleMDB.DrAlBlkSiz * sampleMDB.DrNmAlBlks
              - sampleMDB.DrAlBlkSiz * sampleMDB.DrFreeBks
          ∧ sampleMDB.DrAlBlkSiz
                * ((sampleMDB.DrNmAlBlks + 2 ^ 32 - sampleMDB.DrFreeBks) % 2 ^ 32)
              + sampleMDB.DrAlBlkSiz * sampleMDB.DrFreeBks
            = sampleMDB.DrAlBlkSiz * sampleMDB.DrNmAlBlks) :=
  describeHFSVolume_byte_counts sampleVolume 0 1 false {} sampleMDB (by decide!) (by decide!)
    (by decide)

/-- C17: for every 28-byte volume-name field, whatever its length byte (28..255
included), the volume name is exactly bytes `[1, 1 + min(length_byte, 27))` of
the field and the slice stays inside the field (no panic); this is the name
`describeHFSVolume` reports for the Master Directory Block it reads. -/
theorem describeHFSVolume_volume_name (f : File) (offset : Int) (tab : Nat) (verbose : Bool)
    (bb : BootBlockHeader) (mdb : MasterDirectoryBlock)
    (hbb : ReadBigEndian BootBlockHeader.codec f offset = .ok bb)
    (hmdb : ReadBigEndian MasterDirectoryBlock.codec f (offset + 512 * 2) = .ok mdb)
    (hsig : mdb.DrSigWord = 0x4244) :
    (∀ field : List Byte, field.length = 28 →
        describeHFSVolume.name field = .ok (slice field 1 (min (field.getD 0 0).val 27))
          ∧ 1 + min (field.getD 0 0).val 27 ≤ field.length)
    ∧ mdb.DrVolName.length = 28
    ∧ ∃ head rest : Report, describeHFSVolume f offset tab verbose
        = .ok (head
            ++ [⟨tab, "Volume: %s\n",
                  [.str (slice mdb.DrVolName 1 (min (mdb.DrVolName.getD 0 0).val 27))]⟩]
            ++ rest) := by
  obtain ⟨hname, _⟩ := mdb_read_facts f _ mdb hmdb
  refine ⟨fun field hfield => ⟨name_of_field field hfield, by omega⟩, hname, ?_⟩
  refine ⟨if verbose then describeHFSVolume.verboseLines bb mdb tab else [],
    [⟨tab, "Created: %s\n", [DateStringForHFSDate mdb.DrCrDate]⟩,
     ⟨tab, "Last modified: %s\n", [DateStringForHFSDate mdb.DrLsMod]⟩,
     ⟨tab, "Capacity: %.1f MB (%d bytes)\n",
        [.float (describeHFSVolume.capacityBytes mdb) (1024 * 1024),
         .int (describeHFSVolume.capacityBytes mdb : Int)]⟩,
     ⟨tab, "Used: %.1f MB (%d bytes)\n",
        [.float (describeHFSVolume.usedBytes mdb) (1024 * 1024),
         .int (describeHFSVolume.usedBytes mdb : Int)]⟩,
     ⟨tab, "Free: %.1f MB (%d bytes)\n",
        [.float (describeHFSVolume.freeBytes mdb) (1024 * 1024),
         .int (describeHFSVolume.freeBytes mdb : Int)]⟩], ?_⟩
  rw [describeHFSVolume_hfs f offset tab verbose bb mdb hbb hmdb hsig]
  simp only [List.append_assoc, List.cons_append, List.nil_append]

theorem describeHFSVolume_volume_name_witness :
    (∀ field : List Byte, field.length = 28 →
        describeHFSVolume.name field = .ok (slice field 1 (min (field.getD 0 0).val 27))
          ∧ 1 + min (field.getD 0 0).val 27 ≤ field.length)
    ∧ sampleMDB.DrVolName.length = 28
    ∧ ∃ head rest : Report, describeHFSVolume sampleVolume 0 1 false
        = .ok (head
            ++ [⟨1, "Volume: %s\n",
                  [.str (slice sampleMDB.DrVolName 1
                    (min (sampleMDB.DrVolName.getD 0 0).val 27))]⟩]
            ++ rest) :=
  describeHFSVolume_volume_name sampleVolume 0 1 false {} sampleMDB (by decide!) (by decide!)
    (by decide)

/-! ## The report of a partition map -/

theorem computed_lt (f : File) (off : Int) (n : Nat) :
    valueOrZero (ComputeChecksum f off n) < 65536 := by
  unfold ComputeChecksum
  cases f.ReadAt n off with
  | error e => exact (by decide : (0 : Nat) < 65536)
  | ok b => exact Checksum16_lt b

theorem driver_not_hfs (t : List Byte) (h : HasPrefix t (strBytes "Apple_Driver") = true) :
    HasPrefix t (strBytes "Apple_HFS") = false := by
  cases h2 : HasPrefix t (strBytes "Apple_HFS") with
  | false => rfl
  | true =>
    unfold HasPrefix at h h2
    rw [List.isPrefixOf_iff_prefix] at h h2
    have h3 : strBytes "Apple_HFS" <+: strBytes "Apple_Driver" :=
      List.prefix_of_prefix_length_le h2 h (by decide)
    exact absurd h3 (by decide)

theorem describeHFSVolume_total (f : File) (offset : Int) (tab : Nat) (verbose : Bool) :
    ∃ r, describeHFSVolume f offset tab verbose = .ok r := by
  cases hbb : ReadBigEndian BootBlockHeader.codec f offset with
  | error e =>
    unfold describeHFSVolume
    simp only [hbb]
    exact ⟨_, rfl⟩
  | ok bb =>
    cases hmdb : ReadBigEndian MasterDirectoryBlock.codec f (offset + 512 * 2) with
    | error e =>
      unfold describeHFSVolume
      simp only [hbb, hmdb]
      exact ⟨_, rfl⟩
    | ok mdb =>
      by_cases hsig : mdb.DrSigWord = 0x4244
      · exact ⟨_, describeHFSVolume_hfs f offset tab verbose bb mdb hbb hmdb hsig⟩
      · unfold describeHFSVolume
        simp only [hbb, hmdb]
        rw [if_neg hsig]
        split
        · exact ⟨_, rfl⟩
        · exact ⟨_, rfl⟩

/-- No piece that `describeHFSVolume` prints has the format of a partition
heading or of the truncation mark. -/
theorem describeHFSVolume_formats (f : File) (offset : Int) (tab : Nat) (verbose : Bool)
    (r : Report) (h : describeHFSVolume f offset tab verbose = .ok r) :
    r.all (fun p => p.format != "Partition %d: %s (%s)\n" && p.format != " [TRUNCATED]")
      = true := by
  cases hbb : ReadBigEndian BootBlockHeader.codec f offset with
  | error e =>
    unfold describeHFSVolume at h
    simp only [hbb] at h
    cases h
    rfl
  | ok bb =>
    cases hmdb : ReadBigEndian MasterDirectoryBlock.codec f (offset + 512 * 2) with
    | error e =>
      unfold describeHFSVolume at h
      simp only [hbb, hmdb] at h
      cases h
      rfl
    | ok mdb =>
      have hv : (if verbose then describeHFSVolume.verboseLines bb mdb tab else []).all
          (fun p => p.format != "Partition %d: %s (%s)\n" && p.format != " [TRUNCATED]")
            = true := by
        unfold describeHFSVolume.verboseLines
        simp only [tabPrint]
        split_ifs <;> rfl
      by_cases hsig : mdb.DrSigWord = 0x4244
      · rw [describeHFSVolume_hfs f offset tab verbose bb mdb hbb hmdb hsig] at h
        cases h
        rw [List.all_append, hv]
        rfl
      · unfold describeHFSVolume at h
        simp only [hbb, hmdb] at h
        rw [if_neg hsig] at h
        split at h
        · cases h
          rw [List.all_append, hv]
          unfold describeHFSPlusVolume
          simp only [tabPrint]
          split <;> rfl
        · cases h
          exact hv

theorem entry_total (f : File) (fileSize : Int) (tab : Nat) (i : Int) (pme : Partition) :
    ∃ block, describePartitionMap.entry f fileSize tab i pme = .ok block := by
  unfold describePartitionMap.entry
  simp only
  split
  · obtain ⟨r, hr⟩ := describeHFSVolume_total f ((pme.PmPyPartStart : Int) * 512) (tab + 1) true
    rw [hr]
    exact ⟨_, rfl⟩
  · exact ⟨_, rfl⟩

theorem entry_driver (f : File) (fileSize : Int) (tab : Nat) (i : Int) (pme : Partition)
    (hty : HasPrefix (trimRightNul pme.PmPartType) (strBytes "Apple_Driver") = true) :
    describePartitionMap.entry f fileSize tab i pme
      = .ok (describePartitionMap.sizeLines fileSize tab i pme
          ++ describePartitionMap.driverLines f tab pme) := by
  unfold describePartitionMap.entry
  simp only [hty, driver_not_hfs _ hty, if_true, Bool.false_eq_true, if_false]

/-- The report of the map walk is made of one block per leading valid entry:
`items` lists these entries, each with the block that the loop body prints
for it. -/
theorem describe_loop_items (f : File) (fileSize : Int) (tab : Nat) :
    ∀ (fuel k : Nat), 1 ≤ fuel → f.data.length / 512 < k + fuel →
      ∃ items : List (Partition × Report),
        describePartitionMap.loop f fileSize tab fuel (512 * ((k : Int) + 1)) (k : Int)
          = .ok (items.map Prod.snd).flatten
        ∧ (∀ (j : Nat) (pme : Partition) (block : Report), items[j]? = some (pme, block) →
            ReadBigEndian Partition.codec f (512 * (((k + j : Nat) : Int) + 1)) = .ok pme
              ∧ pme.PmSig = 0x504D
              ∧ describePartitionMap.entry f fileSize tab ((k + j : Nat) : Int) pme = .ok block)
        ∧ (∀ pme, ReadBigEndian Partition.codec f (512 * (((k + items.length : Nat) : Int) + 1))
              = .ok pme → pme.PmSig ≠ 0x504D) := by
  intro fuel
  induction fuel with
  | zero =>
    intro k h1 _
    omega
  | succ fuel ih =>
    intro k _ hk
    simp only [describePartitionMap.loop, entry_offset_pos k, if_true]
    cases hr : ReadBigEndian Partition.codec f (512 * ((k : Int) + 1)) with
    | error e =>
      refine ⟨[], rfl, ?_, ?_⟩
      · intro j pme block h
        simp only [List.getElem?_nil] at h
        cases h
      · intro pme h
        simp only [List.length_nil, Nat.add_zero] at h
        rw [hr] at h
        cases h
    | ok pme =>
      by_cases hsig : pme.PmSig = 0x504D
      · obtain ⟨_, hread, _⟩ := ReadBigEndian_inv _ _ _ _ hr
        have hsz : Partition.codec.size = 512 := rfl
        rw [hsz] at hread
        obtain ⟨block, hb⟩ := entry_total f fileSize tab (k : Int) pme
        obtain ⟨rest, hrest, hitems, hstop⟩ := ih (k + 1) (by omega) (by omega)
        have ek : ((k : Int) + 1) = ((k + 1 : Nat) : Int) := by push_cast; rfl
        refine ⟨(pme, block) :: rest, ?_, ?_, ?_⟩
        · have e2 : (512 : Int) * ((k + 1 : Nat) : Int) + 512 = 512 * (((k + 1 : Nat) : Int) + 1) := by
            omega
          simp only [hsig, ne_eq, not_true_eq_false, if_false, hb, ek, e2, hrest,
            List.map_cons, List.flatten_cons]
        · intro j q b h
          cases j with
          | zero =>
            simp only [List.getElem?_cons_zero, Option.some.injEq, Prod.mk.injEq] at h
            obtain ⟨h1, h2⟩ := h
            subst h1
            subst h2
            exact ⟨hr, hsig, hb⟩
          | succ j =>
            simp only [List.getElem?_cons_succ] at h
            have e : k + (j + 1) = k + 1 + j := by omega
            rw [e]
            exact hitems j q b h
        · intro q h
          have e : k + ((pme, block) :: rest).length = k + 1 + rest.length := by
            simp only [List.length_cons]
            omega
          rw [e] at h
          exact hstop q h
      · refine ⟨[], ?_, ?_, ?_⟩
        · simp only [hsig, ne_eq, not_false_eq_true, if_true, List.map_nil, List.flatten_nil]
        · intro j q block h
          simp only [List.getElem?_nil] at h
          cases h
        · intro q h
          simp only [List.length_nil, Nat.add_zero] at h
          rw [hr] at h
          cases h
          exact hsig

theorem describePartitionMap_items (f : File) (fileSize : Int) (tab : Nat) :
    ∃ items : List (Partition × Report),
      describePartitionMap f fileSize tab = .ok (items.map Prod.snd).flatten
      ∧ (∀ (j : Nat) (pme : Partition) (block : Report), items[j]? = some (pme, block) →
          ReadBigEndian Partition.codec f (512 * ((j : Int) + 1)) = .ok pme
            ∧ pme.PmSig = 0x504D
            ∧ describePartitionMap.entry f fileSize tab (j : Int) pme = .ok block)
      ∧ (∀ pme, ReadBigEndian Partition.codec f (512 * ((items.length : Int) + 1)) = .ok pme →
          pme.PmSig ≠ 0x504D) := by
  obtain ⟨items, h1, h2, h3⟩ :=
    describe_loop_items f fileSize tab (f.data.length / 512 + 1) 0 (by omega) (by omega)
  refine ⟨items, ?_, ?_, ?_⟩
  · unfold describePartitionMap
    exact h1
  · intro j pme block h
    have := h2 j pme block h
    rw [Nat.zero_add] at this
    exact this
  · intro pme h
    have := h3 pme
    rw [Nat.zero_add] at this
    exact this h

/-- The block of an entry that is read at index `k`, past `k` valid entries, is
part of the report. -/
theorem describePartitionMap_block (f : File) (fileSize : Int) (tab : Nat) (k : Nat)
    (pme : Partition)
    (hvalid : ∀ i, i < k →
      ∃ q, ReadBigEndian Partition.codec f (512 * ((i : Int) + 1)) = .ok q ∧ q.PmSig = 0x504D)
    (hk : ReadBigEndian Partition.codec f (512 * ((k : Int) + 1)) = .ok pme)
    (hsig : pme.PmSig = 0x504D) :
    ∃ block before after : Report,
      describePartitionMap.entry f fileSize tab (k : Int) pme = .ok block
        ∧ describePartitionMap f fileSize tab = .ok (before ++ block ++ after) := by
  obtain ⟨items, h1, h2, h3⟩ := describePartitionMap_items f fileSize tab
  have hlen : k < items.length := by
    by_contra hc
    have hle : items.length ≤ k := by omega
    rcases Nat.lt_or_eq_of_le hle with hlt | heq
    · obtain ⟨q, hq, hqs⟩ := hvalid items.length hlt
      exact h3 q hq hqs
    · rw [← heq] at hk
      exact h3 pme hk hsig
  have hget : items[k]? = some (items[k].1, items[k].2) := by
    rw [List.getElem?_eq_getElem hlen]
  obtain ⟨hr, _, hb⟩ := h2 k _ _ hget
  rw [hk] at hr
  cases hr
  obtain ⟨s, t, hst⟩ := List.append_of_mem (List.getElem_mem hlen)
  refine ⟨items[k].2, (s.map Prod.snd).flatten, (t.map Prod.snd).flatten, hb, ?_⟩
  rw [h1]
  conv_lhs => rw [hst]
  simp only [List.map_append, List.map_cons, List.flatten_append, List.flatten_cons,
    List.append_assoc]

theorem driverLines_nonzero (f : File) (tab : Nat) (pme : Partition)
    (hck : pme.PmBootCksum ≠ 0) :
    describePartitionMap.driverLines f tab pme
      = [⟨tab + 1, "Code: %d bytes (offset %d in file)\n",
            [.int pme.PmBootSize, .int ((pme.PmPyPartStart : Int) * 512)]⟩,
         ⟨tab + 1, "Checksum: 0x%08X", [.int pme.PmBootCksum]⟩,
         ⟨0, " (computed 0x%04X) ",
            [.int (valueOrZero
              (ComputeChecksum f ((pme.PmPyPartStart : Int) * 512) pme.PmBootSize))]⟩,
         if valueOrZero (ComputeChecksum f ((pme.PmPyPartStart : Int) * 512) pme.PmBootSize)
              = pme.PmBootCksum
           then ⟨0, " [VERIFIED]", []⟩ else ⟨0, " [VERIFY FAILED]", []⟩,
         ⟨0, "\n", []⟩] := by
  have e : ((pme.PmBootSize : Int)).toNat = pme.PmBootSize := by omega
  have hlt := computed_lt f ((pme.PmPyPartStart : Int) * 512) pme.PmBootSize
  have hmod : valueOrZero (ComputeChecksum f ((pme.PmPyPartStart : Int) * 512) pme.PmBootSize)
      % 4294967296
      = valueOrZero (ComputeChecksum f ((pme.PmPyPartStart : Int) * 512) pme.PmBootSize) :=
    Nat.mod_eq_of_lt (by omega)
  unfold describePartitionMap.driverLines
  simp only [e, hmod, tabPrint]
  rw [if_neg hck]
  split_ifs <;> rfl

theorem driverLines_zero (f : File) (tab : Nat) (pme : Partition) (hck : pme.PmBootCksum = 0) :
    describePartitionMap.driverLines f tab pme
      = [⟨tab + 1, "Code: %d bytes (offset %d in file)\n",
            [.int pme.PmBootSize, .int ((pme.PmPyPartStart : Int) * 512)]⟩,
         ⟨tab + 1, "Checksum: 0x%08X", [.int 0]⟩]
        ++ (if HasPrefix (trimRightNul pme.PmPartName) (strBytes "Maci") = true
              then [⟨0, " (driver will not load)", []⟩] else [])
        ++ [⟨0, "\n", []⟩] := by
  unfold describePartitionMap.driverLines
  simp only [tabPrint]
  rw [if_pos hck, hck]
  rfl

/-- C13 (as stated, refuted): the driver of `driverMap "Macintosh" 0x100B0` has
the boot code `12 34`, whose checksum is `0x00B0`; the stored checksum
`0x000100B0` has these low 16 bits, and the report says VERIFY FAILED. -/
theorem low_bits_equal_verify_failed :
    describePartitionMap (driverMap "Macintosh" 0x100B0) 1536 0
        = .ok [⟨0, "\n", []⟩,
               ⟨0, "Partition %d: %s (%s)\n",
                  [.int 0, .str (strBytes "Macintosh"), .str (strBytes "Apple_Driver43")]⟩,
               ⟨1, "Size: %d bytes (offset %d to %d)", [.int 512, .int 1024, .int 1536]⟩,
               ⟨0, "\n", []⟩,
               ⟨1, "Code: %d bytes (offset %d in file)\n", [.int 2, .int 1024]⟩,
               ⟨1, "Checksum: 0x%08X", [.int 0x100B0]⟩,
               ⟨0, " (computed 0x%04X) ", [.int 0xB0]⟩,
               ⟨0, " [VERIFY FAILED]", []⟩,
               ⟨0, "\n", []⟩]
      ∧ ComputeChecksum (driverMap "Macintosh" 0x100B0) 1024 2 = .ok 0xB0
      ∧ 0x100B0 % 2 ^ 16 = 0xB0 := by
  decide!

/-- C13 (amended): for an entry of a type that starts with "Apple_Driver", read
at index `k` past `k` valid entries, with a stored checksum other than 0, the
report holds the block of that entry, which ends with the stored checksum, the
computed one (below `2^16`; 0 when the boot code cannot be read), and
VERIFIED exactly when the computed value equals the whole stored 32-bit
value, VERIFY FAILED otherwise. -/
theorem describePartitionMap_checksum_marker (f : File) (fileSize : Int) (tab : Nat) (k : Nat)
    (pme : Partition)
    (hvalid : ∀ i, i < k →
      ∃ q, ReadBigEndian Partition.codec f (512 * ((i : Int) + 1)) = .ok q ∧ q.PmSig = 0x504D)
    (hk : ReadBigEndian Partition.codec f (512 * ((k : Int) + 1)) = .ok pme)
    (hsig : pme.PmSig = 0x504D)
    (hty : HasPrefix (trimRightNul pme.PmPartType) (strBytes "Apple_Driver") = true)
    (hck : pme.PmBootCksum ≠ 0) :
    valueOrZero (ComputeChecksum f ((pme.PmPyPartStart : Int) * 512) pme.PmBootSize) < 65536
    ∧ ∃ before after : Report, describePartitionMap f fileSize tab
        = .ok (before
          ++ (describePartitionMap.sizeLines fileSize tab k pme
            ++ [⟨tab + 1, "Code: %d bytes (offset %d in file)\n",
                  [.int pme.PmBootSize, .int ((pme.PmPyPartStart : Int) * 512)]⟩,
                ⟨tab + 1, "Checksum: 0x%08X", [.int pme.PmBootCksum]⟩,
                ⟨0, " (computed 0x%04X) ",
                  [.int (valueOrZero
                    (ComputeChecksum f ((pme.PmPyPartStart : Int) * 512) pme.PmBootSize))]⟩,
                if valueOrZero
                      (ComputeChecksum f ((pme.PmPyPartStart : Int) * 512) pme.PmBootSize)
                    = pme.PmBootCksum
                  then ⟨0, " [VERIFIED]", []⟩ else ⟨0, " [VERIFY FAILED]", []⟩,
                ⟨0, "\n", []⟩])
          ++ after) := by
  refine ⟨computed_lt _ _ _, ?_⟩
  obtain ⟨block, before, after, hb, hrep⟩ :=
    describePartitionMap_block f fileSize tab k pme hvalid hk hsig
  rw [entry_driver f fileSize tab k pme hty, driverLines_nonzero f tab pme hck] at hb
  cases hb
  exact ⟨before, after, hrep⟩

theorem describePartitionMap_checksum_marker_witness :
    valueOrZero (ComputeChecksum (driverMap "Macintosh" 0xB0)
        (((driverEntry "Macintosh" 0xB0).PmPyPartStart : Int) * 512)
        (driverEntry "Macintosh" 0xB0).PmBootSize) < 65536
    ∧ ∃ before after : Report, describePartitionMap (driverMap "Macintosh" 0xB0) 1536 0
        = .ok (before
          ++ (describePartitionMap.sizeLines 1536 0 (0 : Nat) (driverEntry "Macintosh" 0xB0)
            ++ [⟨0 + 1, "Code: %d bytes (offset %d in file)\n",
                  [.int (driverEntry "Macintosh" 0xB0).PmBootSize,
                   .int (((driverEntry "Macintosh" 0xB0).PmPyPartStart : Int) * 512)]⟩,
                ⟨0 + 1, "Checksum: 0x%08X", [.int (driverEntry "Macintosh" 0xB0).PmBootCksum]⟩,
                ⟨0, " (computed 0x%04X) ",
                  [.int (valueOrZero
                    (ComputeChecksum (driverMap "Macintosh" 0xB0)
                      (((driverEntry "Macintosh" 0xB0).PmPyPartStart : Int) * 512)
                      (driverEntry "Macintosh" 0xB0).PmBootSize))]⟩,
                if valueOrZero
                      (ComputeChecksum (driverMap "Macintosh" 0xB0)
                        (((driverEntry "Macintosh" 0xB0).PmPyPartStart : Int) * 512)
                        (driverEntry "Macintosh" 0xB0).PmBootSize)
                    = (driverEntry "Macintosh" 0xB0).PmBootCksum
                  then ⟨0, " [VERIFIED]", []⟩ else ⟨0, " [VERIFY FAILED]", []⟩,
                ⟨0, "\n", []⟩])
          ++ after) :=
  describePartitionMap_checksum_marker (driverMap "Macintosh" 0xB0) 1536 0 0
    (driverEntry "Macintosh" 0xB0) (fun i hi => absurd hi (Nat.not_lt_zero i)) (by decide!)
    (by decide) (by decide) (by decide)

/-! ## The text of the partition map report -/

theorem textOf_append (F : Formats) (a b : Report) :
    textOf F (a ++ b) = textOf F a ++ textOf F b := by
  simp only [textOf, List.map_append, List.flatten_append]

theorem textOf_cons (F : Formats) (p : Piece) (r : Report) :
    textOf F (p :: r) = Piece.text F p ++ textOf F r := by
  simp only [textOf, List.map_cons, List.flatten_cons]

theorem textOf_nil (F : Formats) : textOf F [] = [] := rfl

theorem Piece_text_eq (F : Formats) (tab : Nat) (format : String) (args : List Arg) :
    Piece.text F ⟨tab, format, args⟩
      = List.replicate (4 * tab) (byte ' '.toNat) ++ Sprintf F format.toList args := rfl

theorem Sprintf_newline (F : Formats) : Sprintf F "\n".toList [] = strBytes "\n" := rfl

theorem Sprintf_heading (F : Formats) (i : Int) (n t : List Byte) :
    Sprintf F "Partition %d: %s (%s)\n".toList [.int i, .str n, .str t]
      = strBytes "Partition " ++ (decimal i ++ (strBytes ": " ++ (n ++ (strBytes " ("
          ++ (t ++ strBytes ")\n"))))) := rfl

theorem Sprintf_size (F : Formats) (a b c : Int) :
    Sprintf F "Size: %d bytes (offset %d to %d)".toList [.int a, .int b, .int c]
      = strBytes "Size: " ++ (decimal a ++ (strBytes " bytes (offset " ++ (decimal b
          ++ (strBytes " to " ++ (decimal c ++ strBytes ")"))))) := rfl

theorem Sprintf_truncated (F : Formats) :
    Sprintf F " [TRUNCATED]".toList [] = strBytes " [TRUNCATED]" := rfl

theorem Sprintf_code (F : Formats) (a b : Int) :
    Sprintf F "Code: %d bytes (offset %d in file)\n".toList [.int a, .int b]
      = strBytes "Code: " ++ (decimal a ++ (strBytes " bytes (offset " ++ (decimal b
          ++ strBytes " in file)\n"))) := rfl

theorem Sprintf_checksum (F : Formats) (v : Int) :
    Sprintf F "Checksum: 0x%08X".toList [.int v]
      = strBytes "Checksum: 0x" ++ hexUpper 8 v.toNat := by
  have h : Sprintf F "Checksum: 0x%08X".toList [.int v]
      = strBytes "Checksum: 0x" ++ (hexUpper 8 v.toNat ++ []) := rfl
  rw [h, List.append_nil]

theorem Sprintf_note (F : Formats) :
    Sprintf F " (driver will not load)".toList [] = strBytes " (driver will not load)" := rfl

/-- The text of the size lines of an entry. -/
theorem text_sizeLines (F : Formats) (fileSize : Int) (tab : Nat) (i : Int) (pme : Partition) :
    textOf F (describePartitionMap.sizeLines fileSize tab i pme)
      = List.flatten
          [List.replicate (4 * tab) (byte ' '.toNat), strBytes "\n",
           List.replicate (4 * tab) (byte ' '.toNat), strBytes "Partition ", decimal i,
           strBytes ": ", trimRightNul pme.PmPartName, strBytes " (",
           trimRightNul pme.PmPartType, strBytes ")\n",
           List.replicate (4 * (tab + 1)) (byte ' '.toNat), strBytes "Size: ",
           decimal ((pme.PmPartBlkCnt : Int) * 512), strBytes " bytes (offset ",
           decimal ((pme.PmPyPartStart : Int) * 512), strBytes " to ",
           decimal ((pme.PmPyPartStart : Int) * 512 + (pme.PmPartBlkCnt : Int) * 512),
           strBytes ")",
           if (pme.PmPyPartStart : Int) * 512 + (pme.PmPartBlkCnt : Int) * 512 > fileSize
             then strBytes " [TRUNCATED]" else [],
           strBytes "\n"] := by
  unfold describePartitionMap.sizeLines
  simp only [tabPrint]
  split_ifs
  all_goals
    simp only [textOf_append, textOf_cons, textOf_nil, Piece_text_eq, Sprintf_newline,
      Sprintf_heading, Sprintf_size, Sprintf_truncated, List.flatten_cons, List.flatten_nil,
      List.append_assoc, List.append_nil, List.nil_append, Nat.mul_zero, List.replicate_zero]

/-- The text of the driver lines of an entry whose stored checksum is 0. -/
theorem text_driverLines_zero (F : Formats) (f : File) (tab : Nat) (pme : Partition)
    (hck : pme.PmBootCksum = 0) :
    textOf F (describePartitionMap.driverLines f tab pme)
      = List.flatten
          [List.replicate (4 * (tab + 1)) (byte ' '.toNat), strBytes "Code: ",
           decimal (pme.PmBootSize : Int), strBytes " bytes (offset ",
           decimal ((pme.PmPyPartStart : Int) * 512), strBytes " in file)\n",
           List.replicate (4 * (tab + 1)) (byte ' '.toNat), strBytes "Checksum: 0x00000000",
           if HasPrefix (trimRightNul pme.PmPartName) (strBytes "Maci") = true
             then strBytes " (driver will not load)" else [],
           strBytes "\n"] := by
  have hx : strBytes "Checksum: 0x" ++ hexUpper 8 (0 : Int).toNat
      = strBytes "Checksum: 0x00000000" := by decide
  rw [driverLines_zero f tab pme hck]
  split_ifs
  all_goals
    simp only [textOf_append, textOf_cons, textOf_nil, Piece_text_eq, Sprintf_newline,
      Sprintf_code, Sprintf_checksum, Sprintf_note, hx, List.flatten_cons, List.flatten_nil,
      List.append_assoc, List.append_nil, List.nil_append, Nat.mul_zero, List.replicate_zero]

/-! ## Where a marker can occur in a text -/

theorem hasPair_cons_cons (c d x y : Byte) (rest : List Byte) :
    hasPair c d (x :: y :: rest) = ((x == c && y == d) || hasPair c d (y :: rest)) := rfl

theorem hasPair_append_left (c d : Byte) (a b : List Byte) (h : hasPair c d a = true) :
    hasPair c d (a ++ b) = true := by
  induction a with
  | nil => cases h
  | cons x a ih =>
    cases a with
    | nil => cases h
    | cons y rest =>
      rw [hasPair_cons_cons, Bool.or_eq_true] at h
      rw [List.cons_append, List.cons_append, hasPair_cons_cons, Bool.or_eq_true]
      rcases h with h | h
      · exact Or.inl h
      · exact Or.inr (ih h)

theorem hasPair_append_right (c d : Byte) (a b : List Byte) (h : hasPair c d b = true) :
    hasPair c d (a ++ b) = true := by
  induction a with
  | nil => exact h
  | cons x a ih =>
    cases hab : a ++ b with
    | nil =>
      rw [hab] at ih
      cases ih
    | cons y rest =>
      rw [List.cons_append, hab, hasPair_cons_cons, Bool.or_eq_true]
      rw [hab] at ih
      exact Or.inr ih

theorem hasPair_of_infix (c d : Byte) {p l : List Byte} (h : p <:+: l)
    (hp : hasPair c d p = true) : hasPair c d l = true := by
  obtain ⟨s, t, rfl⟩ := h
  exact hasPair_append_left c d _ _ (hasPair_append_right c d _ _ hp)

/-- A text in which `c` is never followed by `d` and which does not end in
`c`. -/
theorem clean_append (c d : Byte) (a b : List Byte)
    (ha : hasPair c d a = false ∧ a.getLast? ≠ some c)
    (hb : hasPair c d b = false ∧ b.getLast? ≠ some c) :
    hasPair c d (a ++ b) = false ∧ (a ++ b).getLast? ≠ some c := by
  induction a with
  | nil => exact hb
  | cons x a ih =>
    cases a with
    | nil =>
      have hx : x ≠ c := by
        intro e
        exact ha.2 (by rw [e]; rfl)
      cases b with
      | nil => exact ha
      | cons y rest =>
        refine ⟨?_, ?_⟩
        · show hasPair c d (x :: y :: rest) = false
          rw [hasPair_cons_cons, hb.1]
          simp [hx]
        · have : ([x] ++ y :: rest).getLast? = (y :: rest).getLast? := by
            simp [List.getLast?_cons_cons]
          rw [this]
          exact hb.2
    | cons y rest =>
      have h1 : hasPair c d (x :: y :: rest) = false := ha.1
      rw [hasPair_cons_cons, Bool.or_eq_false_iff] at h1
      have hl : (x :: y :: rest).getLast? = (y :: rest).getLast? := List.getLast?_cons_cons
      have := ih ⟨h1.2, by rw [← hl]; exact ha.2⟩
      refine ⟨?_, ?_⟩
      · show hasPair c d (x :: y :: (rest ++ b)) = false
        rw [hasPair_cons_cons, Bool.or_eq_false_iff]
        exact ⟨h1.1, this.1⟩
      · have e : (x :: y :: rest ++ b).getLast? = (y :: rest ++ b).getLast? := by
          show (x :: y :: (rest ++ b)).getLast? = _
          exact List.getLast?_cons_cons
        rw [e]
        exact this.2

theorem clean_of_not_mem (c d : Byte) (a : List Byte) (h : c ∉ a) :
    hasPair c d a = false ∧ a.getLast? ≠ some c := by
  induction a with
  | nil => exact ⟨rfl, by simp⟩
  | cons x a ih =>
    have hx : x ≠ c := fun e => h (by rw [e]; exact List.mem_cons_self _ _)
    have ha : c ∉ a := fun e => h (List.mem_cons_of_mem _ e)
    have := clean_append c d [x] a ⟨rfl, by simpa using hx⟩ (ih ha)
    exact this

theorem clean_flatten (c d : Byte) (segs : List (List Byte))
    (h : ∀ s ∈ segs, hasPair c d s = false ∧ s.getLast? ≠ some c) :
    hasPair c d segs.flatten = false ∧ segs.flatten.getLast? ≠ some c := by
  induction segs with
  | nil => exact ⟨rfl, by simp⟩
  | cons s segs ih =>
    rw [List.flatten_cons]
    exact clean_append c d _ _ (h s (List.mem_cons_self _ _))
      (ih (fun t ht => h t (List.mem_cons_of_mem _ ht)))

theorem digitChar_range (n : Nat) (h : n < 10) :
    48 ≤ (Nat.digitChar n).toNat ∧ (Nat.digitChar n).toNat ≤ 57 := by
  interval_cases n <;> decide

theorem toDigitsCore_range (fuel : Nat) : ∀ (n : Nat) (acc : List Char),
    (∀ c ∈ acc, 48 ≤ c.toNat ∧ c.toNat ≤ 57) →
    ∀ c ∈ Nat.toDigitsCore 10 fuel n acc, 48 ≤ c.toNat ∧ c.toNat ≤ 57 := by
  induction fuel with
  | zero =>
    intro n acc hacc c hc
    exact hacc c hc
  | succ fuel ih =>
    intro n acc hacc c hc
    unfold Nat.toDigitsCore at hc
    have hcons : ∀ c ∈ Nat.digitChar (n % 10) :: acc, 48 ≤ c.toNat ∧ c.toNat ≤ 57 := by
      intro c hc
      rcases List.mem_cons.1 hc with e | e
      · rw [e]
        exact digitChar_range _ (Nat.mod_lt _ (by decide))
      · exact hacc c e
    simp only at hc
    by_cases h0 : n / 10 = 0
    · rw [if_pos h0] at hc
      exact hcons c hc
    · rw [if_neg h0] at hc
      exact ih _ _ hcons c hc

/-- A decimal numeral consists of digits and a sign. -/
theorem decimal_range (v : Int) (b : Byte) (hb : b ∈ decimal v) :
    b.val = 45 ∨ (48 ≤ b.val ∧ b.val ≤ 57) := by
  have hd : ∀ n : Nat, ∀ b ∈ (Nat.toDigits 10 n).map (fun c => byte c.toNat),
      48 ≤ b.val ∧ b.val ≤ 57 := by
    intro n b hb
    rw [List.mem_map] at hb
    obtain ⟨c, hc, rfl⟩ := hb
    have := toDigitsCore_range _ _ [] (by simp) c hc
    show 48 ≤ c.toNat % 256 ∧ c.toNat % 256 ≤ 57
    omega
  cases v with
  | ofNat n => exact Or.inr (hd n b hb)
  | negSucc n =>
    rcases List.mem_cons.1 hb with e | e
    · left
      rw [e]
      rfl
    · exact Or.inr (hd _ b e)

theorem clean_decimal (c d : Byte) (v : Int) (h1 : c.val ≠ 45)
    (h2 : c.val < 48 ∨ 57 < c.val) :
    hasPair c d (decimal v) = false ∧ (decimal v).getLast? ≠ some c := by
  refine clean_of_not_mem c d _ (fun hc => ?_)
  rcases decimal_range v c hc with e | e
  · exact h1 e
  · omega

theorem clean_indent (c d : Byte) (n : Nat) (h : c ≠ byte ' '.toNat) :
    hasPair c d (List.replicate n (byte ' '.toNat)) = false
      ∧ (List.replicate n (byte ' '.toNat)).getLast? ≠ some c := by
  refine clean_of_not_mem c d _ (fun hc => ?_)
  exact h (List.eq_of_mem_replicate hc)

theorem clean_nil (c d : Byte) :
    hasPair c d ([] : List (List Byte)).flatten = false
      ∧ ([] : List (List Byte)).flatten.getLast? ≠ some c :=
  ⟨rfl, by simp⟩

theorem clean_cons (c d : Byte) (s : List Byte) (segs : List (List Byte))
    (hs : hasPair c d s = false ∧ s.getLast? ≠ some c)
    (h : hasPair c d segs.flatten = false ∧ segs.flatten.getLast? ≠ some c) :
    hasPair c d (s :: segs).flatten = false ∧ (s :: segs).flatten.getLast? ≠ some c := by
  rw [List.flatten_cons]
  exact clean_append c d _ _ hs h

/-- In the text of the size lines of an entry whose name and type hold no `[`,
no `[` is followed by `V`. -/
theorem sizeLines_no_marker (F : Formats) (fileSize : Int) (tab : Nat) (i : Int)
    (pme : Partition) (hn : byte '['.toNat ∉ trimRightNul pme.PmPartName)
    (ht : byte '['.toNat ∉ trimRightNul pme.PmPartType) :
    hasPair (byte '['.toNat) (byte 'V'.toNat)
        (textOf F (describePartitionMap.sizeLines fileSize tab i pme)) = false
      ∧ (textOf F (describePartitionMap.sizeLines fileSize tab i pme)).getLast?
          ≠ some (byte '['.toNat) := by
  rw [text_sizeLines]
  repeat' (first | exact clean_nil _ _ | refine clean_cons _ _ _ _ ?_ ?_)
  all_goals
    first
    | exact clean_indent _ _ _ (by decide)
    | exact clean_decimal _ _ _ (by decide) (by decide)
    | exact clean_of_not_mem _ _ _ hn
    | exact clean_of_not_mem _ _ _ ht
    | exact ⟨by decide, by decide⟩
    | (split_ifs <;> exact ⟨by decide, by decide⟩)

/-- In the text of the size lines of an entry that does not overrun the file
and whose name and type hold no `[`, no `[` is followed by `T`. -/
theorem sizeLines_no_mark (F : Formats) (fileSize : Int) (tab : Nat) (i : Int)
    (pme : Partition) (hn : byte '['.toNat ∉ trimRightNul pme.PmPartName)
    (ht : byte '['.toNat ∉ trimRightNul pme.PmPartType)
    (hfit : ¬ (pme.PmPyPartStart : Int) * 512 + (pme.PmPartBlkCnt : Int) * 512 > fileSize) :
    hasPair (byte '['.toNat) (byte 'T'.toNat)
        (textOf F (describePartitionMap.sizeLines fileSize tab i pme)) = false
      ∧ (textOf F (describePartitionMap.sizeLines fileSize tab i pme)).getLast?
          ≠ some (byte '['.toNat) := by
  rw [text_sizeLines, if_neg hfit]
  repeat' (first | exact clean_nil _ _ | refine clean_cons _ _ _ _ ?_ ?_)
  all_goals
    first
    | exact clean_indent _ _ _ (by decide)
    | exact clean_decimal _ _ _ (by decide) (by decide)
    | exact clean_of_not_mem _ _ _ hn
    | exact clean_of_not_mem _ _ _ ht
    | exact ⟨by decide, by decide⟩

/-- The size line of an entry that overruns the file holds the mark. -/
theorem sizeLines_mark (F : Formats) (fileSize : Int) (tab : Nat) (i : Int)
    (pme : Partition)
    (hover : (pme.PmPyPartStart : Int) * 512 + (pme.PmPartBlkCnt : Int) * 512 > fileSize) :
    strBytes "[TRUNCATED]"
      <:+: textOf F (describePartitionMap.sizeLines fileSize tab i pme) := by
  rw [text_sizeLines, if_pos hover]
  have e : strBytes " [TRUNCATED]" = strBytes " " ++ strBytes "[TRUNCATED]" := by decide
  rw [e]
  refine ⟨List.flatten
    [List.replicate (4 * tab) (byte ' '.toNat), strBytes "\n",
      List.replicate (4 * tab) (byte ' '.toNat), strBytes "Partition ", decimal i,
      strBytes ": ", trimRightNul pme.PmPartName, strBytes " (",
      trimRightNul pme.PmPartType, strBytes ")\n",
      List.replicate (4 * (tab + 1)) (byte ' '.toNat), strBytes "Size: ",
      decimal ((pme.PmPartBlkCnt : Int) * 512), strBytes " bytes (offset ",
      decimal ((pme.PmPyPartStart : Int) * 512), strBytes " to ",
      decimal ((pme.PmPyPartStart : Int) * 512 + (pme.PmPartBlkCnt : Int) * 512),
      strBytes ")", strBytes " "], strBytes "\n", ?_⟩
  simp only [List.flatten_cons, List.flatten_nil, List.append_assoc, List.append_nil]

/-- The mark on the size line, for a name and a type without `[`. -/
theorem sizeLines_mark_iff (F : Formats) (fileSize : Int) (tab : Nat) (i : Int)
    (pme : Partition) (hn : byte '['.toNat ∉ trimRightNul pme.PmPartName)
    (ht : byte '['.toNat ∉ trimRightNul pme.PmPartType) :
    strBytes "[TRUNCATED]" <:+: textOf F (describePartitionMap.sizeLines fileSize tab i pme)
      ↔ (pme.PmPyPartStart : Int) * 512 + (pme.PmPartBlkCnt : Int) * 512 > fileSize := by
  constructor
  · intro h
    by_contra hfit
    have h1 := hasPair_of_infix (byte '['.toNat) (byte 'T'.toNat) h (by decide)
    rw [(sizeLines_no_mark F fileSize tab i pme hn ht hfit).1] at h1
    cases h1
  · exact sizeLines_mark F fileSize tab i pme

/-- In the text of the driver lines of an entry whose stored checksum is 0, no
`[` occurs. -/
theorem driverLines_zero_no_marker (F : Formats) (f : File) (tab : Nat) (pme : Partition)
    (hck : pme.PmBootCksum = 0) :
    hasPair (byte '['.toNat) (byte 'V'.toNat)
        (textOf F (describePartitionMap.driverLines f tab pme)) = false
      ∧ (textOf F (describePartitionMap.driverLines f tab pme)).getLast?
          ≠ some (byte '['.toNat) := by
  rw [text_driverLines_zero F f tab pme hck]
  repeat' (first | exact clean_nil _ _ | refine clean_cons _ _ _ _ ?_ ?_)
  all_goals
    first
    | exact clean_indent _ _ _ (by decide)
    | exact clean_decimal _ _ _ (by decide) (by decide)
    | exact ⟨by decide, by decide⟩
    | (split_ifs <;> exact ⟨by decide, by decide⟩)

/-- The text of a driver entry with stored checksum 0 holds neither marker
when the name and the type hold no `[`. -/
theorem zero_block_no_marker (F : Formats) (f : File) (fileSize : Int) (tab : Nat) (i : Int)
    (pme : Partition) (hck : pme.PmBootCksum = 0)
    (hn : byte '['.toNat ∉ trimRightNul pme.PmPartName)
    (ht : byte '['.toNat ∉ trimRightNul pme.PmPartType) :
    ¬ strBytes "[VERIFIED]"
        <:+: textOf F (describePartitionMap.sizeLines fileSize tab i pme
          ++ describePartitionMap.driverLines f tab pme)
      ∧ ¬ strBytes "[VERIFY FAILED]"
        <:+: textOf F (describePartitionMap.sizeLines fileSize tab i pme
          ++ describePartitionMap.driverLines f tab pme) := by
  have hc := clean_append (byte '['.toNat) (byte 'V'.toNat) _ _
    (sizeLines_no_marker F fileSize tab i pme hn ht)
    (driverLines_zero_no_marker F f tab pme hck)
  rw [← textOf_append] at hc
  constructor
  · intro h
    have h1 := hasPair_of_infix (byte '['.toNat) (byte 'V'.toNat) h (by decide)
    rw [hc.1] at h1
    cases h1
  · intro h
    have h1 := hasPair_of_infix (byte '['.toNat) (byte 'V'.toNat) h (by decide)
    rw [hc.1] at h1
    cases h1

/-- In the text of the size lines of a driver entry whose name and type hold
no `(`, no `(` is followed by `d`: the type, which follows the first `(`,
starts with `A`. -/
theorem sizeLines_no_note (F : Formats) (fileSize : Int) (tab : Nat) (i : Int)
    (pme : Partition)
    (hty : HasPrefix (trimRightNul pme.PmPartType) (strBytes "Apple_Driver") = true)
    (hn : byte '('.toNat ∉ trimRightNul pme.PmPartName)
    (ht : byte '('.toNat ∉ trimRightNul pme.PmPartType) :
    hasPair (byte '('.toNat) (byte 'd'.toNat)
        (textOf F (describePartitionMap.sizeLines fileSize tab i pme)) = false
      ∧ (textOf F (describePartitionMap.sizeLines fileSize tab i pme)).getLast?
          ≠ some (byte '('.toNat) := by
  obtain ⟨r, hr⟩ := List.isPrefixOf_iff_prefix.1 hty
  have hr2 : byte '('.toNat ∉ r := by
    intro h
    exact ht (by rw [← hr]; exact List.mem_append_right _ h)
  have e : textOf F (describePartitionMap.sizeLines fileSize tab i pme)
      = List.flatten
          [List.replicate (4 * tab) (byte ' '.toNat), strBytes "\n",
           List.replicate (4 * tab) (byte ' '.toNat), strBytes "Partition ", decimal i,
           strBytes ": ", trimRightNul pme.PmPartName,
           strBytes " (" ++ strBytes "Apple_Driver", r, strBytes ")\n",
           List.replicate (4 * (tab + 1)) (byte ' '.toNat), strBytes "Size: ",
           decimal ((pme.PmPartBlkCnt : Int) * 512), strBytes " bytes (offset ",
           decimal ((pme.PmPyPartStart : Int) * 512), strBytes " to ",
           decimal ((pme.PmPyPartStart : Int) * 512 + (pme.PmPartBlkCnt : Int) * 512),
           strBytes ")",
           if (pme.PmPyPartStart : Int) * 512 + (pme.PmPartBlkCnt : Int) * 512 > fileSize
             then strBytes " [TRUNCATED]" else [],
           strBytes "\n"] := by
    rw [text_sizeLines, ← hr]
    simp only [List.flatten_cons, List.flatten_nil, List.append_assoc, List.append_nil]
  rw [e]
  repeat' (first | exact clean_nil _ _ | refine clean_cons _ _ _ _ ?_ ?_)
  all_goals
    first
    | exact clean_indent _ _ _ (by decide)
    | exact clean_decimal _ _ _ (by decide) (by decide)
    | exact clean_of_not_mem _ _ _ hn
    | exact clean_of_not_mem _ _ _ hr2
    | exact ⟨by decide, by decide⟩
    | (split_ifs <;> exact ⟨by decide, by decide⟩)

/-- The note in the text of a driver entry with stored checksum 0, for a name
and a type without `(`. -/
theorem zero_block_note_iff (F : Formats) (f : File) (fileSize : Int) (tab : Nat) (i : Int)
    (pme : Partition) (hck : pme.PmBootCksum = 0)
    (hty : HasPrefix (trimRightNul pme.PmPartType) (strBytes "Apple_Driver") = true)
    (hn : byte '('.toNat ∉ trimRightNul pme.PmPartName)
    (ht : byte '('.toNat ∉ trimRightNul pme.PmPartType) :
    strBytes " (driver will not load)"
        <:+: textOf F (describePartitionMap.sizeLines fileSize tab i pme
          ++ describePartitionMap.driverLines f tab pme)
      ↔ HasPrefix (trimRightNul pme.PmPartName) (strBytes "Maci") = true := by
  constructor
  · intro h
    by_contra hm
    have hd : hasPair (byte '('.toNat) (byte 'd'.toNat)
          (textOf F (describePartitionMap.driverLines f tab pme)) = false
        ∧ (textOf F (describePartitionMap.driverLines f tab pme)).getLast?
          ≠ some (byte '('.toNat) := by
      rw [text_driverLines_zero F f tab pme hck, if_neg hm]
      repeat' (first | exact clean_nil _ _ | refine clean_cons _ _ _ _ ?_ ?_)
      all_goals
        first
        | exact clean_indent _ _ _ (by decide)
        | exact clean_decimal _ _ _ (by decide) (by decide)
        | exact ⟨by decide, by decide⟩
    have hc := clean_append (byte '('.toNat) (byte 'd'.toNat) _ _
      (sizeLines_no_note F fileSize tab i pme hty hn ht) hd
    rw [← textOf_append] at hc
    have h1 := hasPair_of_infix (byte '('.toNat) (byte 'd'.toNat) h (by decide)
    rw [hc.1] at h1
    cases h1
  · intro hm
    rw [textOf_append, text_driverLines_zero F f tab pme hck, if_pos hm]
    refine ⟨textOf F (describePartitionMap.sizeLines fileSize tab i pme) ++ List.flatten
      [List.replicate (4 * (tab + 1)) (byte ' '.toNat), strBytes "Code: ",
        decimal (pme.PmBootSize : Int), strBytes " bytes (offset ",
        decimal ((pme.PmPyPartStart : Int) * 512), strBytes " in file)\n",
        List.replicate (4 * (tab + 1)) (byte ' '.toNat), strBytes "Checksum: 0x00000000"],
      strBytes "\n", ?_⟩
    simp only [List.flatten_cons, List.flatten_nil, List.append_assoc, List.append_nil]

/-- C14 (as stated, refuted): two driver entries of type "Apple_Driver43" with
the stored checksum 0.  The text for the one named "Apple" has no "driver
will not load" note; the text for the one named "Maci [VERIFIED]" contains
the marker ` [VERIFIED]`, which comes with the name. -/
theorem zero_checksum_without_note :
    (∃ r, describePartitionMap (driverMap "Apple" 0) 1536 0 = .ok r
      ∧ ∀ F : Formats,
          textOf F r = strBytes ("\nPartition 0: Apple (Apple_Driver43)\n"
            ++ "    Size: 512 bytes (offset 1024 to 1536)\n"
            ++ "    Code: 2 bytes (offset 1024 in file)\n"
            ++ "    Checksum: 0x00000000\n")
          ∧ ¬ strBytes " (driver will not load)" <:+: textOf F r)
    ∧ (∃ r, describePartitionMap (driverMap "Maci [VERIFIED]" 0) 1536 0 = .ok r
      ∧ ∀ F : Formats,
          textOf F r = strBytes ("\nPartition 0: Maci [VERIFIED] (Apple_Driver43)\n"
            ++ "    Size: 512 bytes (offset 1024 to 1536)\n"
            ++ "    Code: 2 bytes (offset 1024 in file)\n"
            ++ "    Checksum: 0x00000000 (driver will not load)\n")
          ∧ strBytes " [VERIFIED]" <:+: textOf F r)
    ∧ HasPrefix (trimRightNul (driverEntry "Apple" 0).PmPartType) (strBytes "Apple_Driver")
        = true
    ∧ (driverEntry "Apple" 0).PmBootCksum = 0
    ∧ HasPrefix (trimRightNul (driverEntry "Maci [VERIFIED]" 0).PmPartType)
        (strBytes "Apple_Driver") = true
    ∧ (driverEntry "Maci [VERIFIED]" 0).PmBootCksum = 0 := by
  refine ⟨⟨[⟨0, "\n", []⟩,
      ⟨0, "Partition %d: %s (%s)\n",
        [.int 0, .str (strBytes "Apple"), .str (strBytes "Apple_Driver43")]⟩,
      ⟨1, "Size: %d bytes (offset %d to %d)", [.int 512, .int 1024, .int 1536]⟩,
      ⟨0, "\n", []⟩,
      ⟨1, "Code: %d bytes (offset %d in file)\n", [.int 2, .int 1024]⟩,
      ⟨1, "Checksum: 0x%08X", [.int 0]⟩,
      ⟨0, "\n", []⟩], by decide!, fun F => ?_⟩,
    ⟨[⟨0, "\n", []⟩,
      ⟨0, "Partition %d: %s (%s)\n",
        [.int 0, .str (strBytes "Maci [VERIFIED]"), .str (strBytes "Apple_Driver43")]⟩,
      ⟨1, "Size: %d bytes (offset %d to %d)", [.int 512, .int 1024, .int 1536]⟩,
      ⟨0, "\n", []⟩,
      ⟨1, "Code: %d bytes (offset %d in file)\n", [.int 2, .int 1024]⟩,
      ⟨1, "Checksum: 0x%08X", [.int 0]⟩,
      ⟨0, " (driver will not load)", []⟩,
      ⟨0, "\n", []⟩], by decide!, fun F => ?_⟩,
    by decide, by decide, by decide, by decide⟩
  · have e : textOf F [⟨0, "\n", []⟩,
        ⟨0, "Partition %d: %s (%s)\n",
          [.int 0, .str (strBytes "Apple"), .str (strBytes "Apple_Driver43")]⟩,
        ⟨1, "Size: %d bytes (offset %d to %d)", [.int 512, .int 1024, .int 1536]⟩,
        ⟨0, "\n", []⟩,
        ⟨1, "Code: %d bytes (offset %d in file)\n", [.int 2, .int 1024]⟩,
        ⟨1, "Checksum: 0x%08X", [.int 0]⟩,
        ⟨0, "\n", []⟩]
        = strBytes ("\nPartition 0: Apple (Apple_Driver43)\n"
            ++ "    Size: 512 bytes (offset 1024 to 1536)\n"
            ++ "    Code: 2 bytes (offset 1024 in file)\n"
            ++ "    Checksum: 0x00000000\n") := rfl
    rw [e]
    exact ⟨rfl, by decide!⟩
  · have e : textOf F [⟨0, "\n", []⟩,
        ⟨0, "Partition %d: %s (%s)\n",
          [.int 0, .str (strBytes "Maci [VERIFIED]"), .str (strBytes "Apple_Driver43")]⟩,
        ⟨1, "Size: %d bytes (offset %d to %d)", [.int 512, .int 1024, .int 1536]⟩,
        ⟨0, "\n", []⟩,
        ⟨1, "Code: %d bytes (offset %d in file)\n", [.int 2, .int 1024]⟩,
        ⟨1, "Checksum: 0x%08X", [.int 0]⟩,
        ⟨0, " (driver will not load)", []⟩,
        ⟨0, "\n", []⟩]
        = strBytes ("\nPartition 0: Maci [VERIFIED] (Apple_Driver43)\n"
            ++ "    Size: 512 bytes (offset 1024 to 1536)\n"
            ++ "    Code: 2 bytes (offset 1024 in file)\n"
            ++ "    Checksum: 0x00000000 (driver will not load)\n") := rfl
    rw [e]
    exact ⟨rfl, by decide!⟩

/-- C14 (amended): for an entry of a type that starts with "Apple_Driver", read
at index `k` past `k` valid entries, with the stored checksum 0, the calls
that print the entry are the size lines, the Code line, the Checksum line,
the "driver will not load" note exactly when the partition name starts with
"Maci", and a newline: no call prints the VERIFIED or the VERIFY FAILED
marker.  The text of the entry is the text of these calls, given in full:
the name and the type are copied into it as they are.  When neither holds a
`[`, the text holds neither marker; when neither holds a `(`, the text holds
the note exactly when the name starts with "Maci". -/
theorem describePartitionMap_zero_checksum (f : File) (fileSize : Int) (tab : Nat) (k : Nat)
    (pme : Partition)
    (hvalid : ∀ i, i < k →
      ∃ q, ReadBigEndian Partition.codec f (512 * ((i : Int) + 1)) = .ok q ∧ q.PmSig = 0x504D)
    (hk : ReadBigEndian Partition.codec f (512 * ((k : Int) + 1)) = .ok pme)
    (hsig : pme.PmSig = 0x504D)
    (hty : HasPrefix (trimRightNul pme.PmPartType) (strBytes "Apple_Driver") = true)
    (hck : pme.PmBootCksum = 0) :
    ∃ block before after : Report,
      describePartitionMap f fileSize tab = .ok (before ++ block ++ after)
      ∧ block = describePartitionMap.sizeLines fileSize tab k pme
          ++ ([⟨tab + 1, "Code: %d bytes (offset %d in file)\n",
                [.int pme.PmBootSize, .int ((pme.PmPyPartStart : Int) * 512)]⟩,
              ⟨tab + 1, "Checksum: 0x%08X", [.int 0]⟩]
            ++ (if HasPrefix (trimRightNul pme.PmPartName) (strBytes "Maci") = true
                  then [⟨0, " (driver will not load)", []⟩] else [])
            ++ [⟨0, "\n", []⟩])
      ∧ (⟨0, " (driver will not load)", []⟩ ∈ block
          ↔ HasPrefix (trimRightNul pme.PmPartName) (strBytes "Maci") = true)
      ∧ ⟨0, " [VERIFIED]", []⟩ ∉ block
      ∧ ⟨0, " [VERIFY FAILED]", []⟩ ∉ block
      ∧ ∀ F : Formats,
          textOf F (before ++ block ++ after)
            = textOf F before ++ textOf F block ++ textOf F after
          ∧ textOf F block
            = List.flatten
                [List.replicate (4 * tab) (byte ' '.toNat), strBytes "\n",
                 List.replicate (4 * tab) (byte ' '.toNat), strBytes "Partition ",
                 decimal k, strBytes ": ", trimRightNul pme.PmPartName, strBytes " (",
                 trimRightNul pme.PmPartType, strBytes ")\n",
                 List.replicate (4 * (tab + 1)) (byte ' '.toNat), strBytes "Size: ",
                 decimal ((pme.PmPartBlkCnt : Int) * 512), strBytes " bytes (offset ",
                 decimal ((pme.PmPyPartStart : Int) * 512), strBytes " to ",
                 decimal ((pme.PmPyPartStart : Int) * 512 + (pme.PmPartBlkCnt : Int) * 512),
                 strBytes ")",
                 if (pme.PmPyPartStart : Int) * 512 + (pme.PmPartBlkCnt : Int) * 512 > fileSize
                   then strBytes " [TRUNCATED]" else [],
                 strBytes "\n"]
              ++ List.flatten
                [List.replicate (4 * (tab + 1)) (byte ' '.toNat), strBytes "Code: ",
                 decimal (pme.PmBootSize : Int), strBytes " bytes (offset ",
                 decimal ((pme.PmPyPartStart : Int) * 512), strBytes " in file)\n",
                 List.replicate (4 * (tab + 1)) (byte ' '.toNat),
                 strBytes "Checksum: 0x00000000",
                 if HasPrefix (trimRightNul pme.PmPartName) (strBytes "Maci") = true
                   then strBytes " (driver will not load)" else [],
                 strBytes "\n"]
          ∧ (byte '['.toNat ∉ trimRightNul pme.PmPartName →
              byte '['.toNat ∉ trimRightNul pme.PmPartType →
              ¬ strBytes "[VERIFIED]" <:+: textOf F block
                ∧ ¬ strBytes "[VERIFY FAILED]" <:+: textOf F block)
          ∧ (byte '('.toNat ∉ trimRightNul pme.PmPartName →
              byte '('.toNat ∉ trimRightNul pme.PmPartType →
              (strBytes " (driver will not load)" <:+: textOf F block
                ↔ HasPrefix (trimRightNul pme.PmPartName) (strBytes "Maci") = true)) := by
  obtain ⟨block, before, after, hb, hrep⟩ :=
    describePartitionMap_block f fileSize tab k pme hvalid hk hsig
  rw [entry_driver f fileSize tab k pme hty] at hb
  cases hb
  have htext : ∀ F : Formats,
      textOf F (describePartitionMap.sizeLines fileSize tab k pme
          ++ describePartitionMap.driverLines f tab pme)
        = textOf F (describePartitionMap.sizeLines fileSize tab k pme)
          ++ textOf F (describePartitionMap.driverLines f tab pme) :=
    fun F => textOf_append F _ _
  simp only [text_sizeLines, text_driverLines_zero _ f tab pme hck] at htext
  have hmark := fun F : Formats => zero_block_no_marker F f fileSize tab k pme hck
  have hnote := fun F : Formats => zero_block_note_iff F f fileSize tab k pme hck hty
  rw [driverLines_zero f tab pme hck] at hrep htext hmark hnote
  refine ⟨_, before, after, hrep, rfl, ?_, ?_, ?_,
    fun F => ⟨?_, htext F, hmark F, hnote F⟩⟩
  · unfold describePartitionMap.sizeLines
    by_cases hn : HasPrefix (trimRightNul pme.PmPartName) (strBytes "Maci") = true
    · rw [if_pos hn]
      simp only [tabPrint]
      split_ifs <;> simp [hn]
    · rw [if_neg hn]
      simp only [tabPrint]
      split_ifs <;> simp [hn]
  · unfold describePartitionMap.sizeLines
    simp only [tabPrint]
    split_ifs <;> simp
  · unfold describePartitionMap.sizeLines
    simp only [tabPrint]
    split_ifs <;> simp
  · rw [textOf_append, textOf_append]

theorem describePartitionMap_zero_checksum_witness :
    ∃ block before after : Report,
      describePartitionMap (driverMap "Macintosh" 0) 1536 0 = .ok (before ++ block ++ after)
      ∧ block = describePartitionMap.sizeLines 1536 0 (0 : Nat) (driverEntry "Macintosh" 0)
          ++ ([⟨0 + 1, "Code: %d bytes (offset %d in file)\n",
                [.int (driverEntry "Macintosh" 0).PmBootSize,
                 .int (((driverEntry "Macintosh" 0).PmPyPartStart : Int) * 512)]⟩,
              ⟨0 + 1, "Checksum: 0x%08X", [.int 0]⟩]
            ++ (if HasPrefix (trimRightNul (driverEntry "Macintosh" 0).PmPartName)
                    (strBytes "Maci") = true
                  then [⟨0, " (driver will not load)", []⟩] else [])
            ++ [⟨0, "\n", []⟩])
      ∧ (⟨0, " (driver will not load)", []⟩ ∈ block
          ↔ HasPrefix (trimRightNul (driverEntry "Macintosh" 0).PmPartName) (strBytes "Maci")
              = true)
      ∧ ⟨0, " [VERIFIED]", []⟩ ∉ block
      ∧ ⟨0, " [VERIFY FAILED]", []⟩ ∉ block
      ∧ ∀ F : Formats,
          textOf F (before ++ block ++ after)
            = textOf F before ++ textOf F block ++ textOf F after
          ∧ textOf F block
            = List.flatten
                [List.replicate (4 * 0) (byte ' '.toNat), strBytes "\n",
                 List.replicate (4 * 0) (byte ' '.toNat), strBytes "Partition ",
                 decimal (0 : Nat), strBytes ": ",
                 trimRightNul (driverEntry "Macintosh" 0).PmPartName, strBytes " (",
                 trimRightNul (driverEntry "Macintosh" 0).PmPartType, strBytes ")\n",
                 List.replicate (4 * (0 + 1)) (byte ' '.toNat), strBytes "Size: ",
                 decimal (((driverEntry "Macintosh" 0).PmPartBlkCnt : Int) * 512),
                 strBytes " bytes (offset ",
                 decimal (((driverEntry "Macintosh" 0).PmPyPartStart : Int) * 512),
                 strBytes " to ",
                 decimal (((driverEntry "Macintosh" 0).PmPyPartStart : Int) * 512
                   + ((driverEntry "Macintosh" 0).PmPartBlkCnt : Int) * 512),
                 strBytes ")",
                 if ((driverEntry "Macintosh" 0).PmPyPartStart : Int) * 512
                     + ((driverEntry "Macintosh" 0).PmPartBlkCnt : Int) * 512 > 1536
                   then strBytes " [TRUNCATED]" else [],
                 strBytes "\n"]
              ++ List.flatten
                [List.replicate (4 * (0 + 1)) (byte ' '.toNat), strBytes "Code: ",
                 decimal ((driverEntry "Macintosh" 0).PmBootSize : Int),
                 strBytes " bytes (offset ",
                 decimal (((driverEntry "Macintosh" 0).PmPyPartStart : Int) * 512),
                 strBytes " in file)\n",
                 List.replicate (4 * (0 + 1)) (byte ' '.toNat),
                 strBytes "Checksum: 0x00000000",
                 if HasPrefix (trimRightNul (driverEntry "Macintosh" 0).PmPartName)
                     (strBytes "Maci") = true
                   then strBytes " (driver will not load)" else [],
                 strBytes "\n"]
          ∧ (byte '['.toNat ∉ trimRightNul (driverEntry "Macintosh" 0).PmPartName →
              byte '['.toNat ∉ trimRightNul (driverEntry "Macintosh" 0).PmPartType →
              ¬ strBytes "[VERIFIED]" <:+: textOf F block
                ∧ ¬ strBytes "[VERIFY FAILED]" <:+: textOf F block)
          ∧ (byte '('.toNat ∉ trimRightNul (driverEntry "Macintosh" 0).PmPartName →
              byte '('.toNat ∉ trimRightNul (driverEntry "Macintosh" 0).PmPartType →
              (strBytes " (driver will not load)" <:+: textOf F block
                ↔ HasPrefix (trimRightNul (driverEntry "Macintosh" 0).PmPartName)
                    (strBytes "Maci") = true)) :=
  describePartitionMap_zero_checksum (driverMap "Macintosh" 0) 1536 0 0
    (driverEntry "Macintosh" 0) (fun i hi => absurd hi (Nat.not_lt_zero i)) (by decide!)
    (by decide) (by decide) (by decide)

/-- The text of `driverMap "Macintosh" 0`: the right-hand side of the amended
statement, evaluated. -/
theorem text_driverMap_Macintosh (F : Formats) :
    ∃ r, describePartitionMap (driverMap "Macintosh" 0) 1536 0 = .ok r
      ∧ textOf F r = strBytes ("\nPartition 0: Macintosh (Apple_Driver43)\n"
          ++ "    Size: 512 bytes (offset 1024 to 1536)\n"
          ++ "    Code: 2 bytes (offset 1024 in file)\n"
          ++ "    Checksum: 0x00000000 (driver will not load)\n") :=
  ⟨[⟨0, "\n", []⟩,
    ⟨0, "Partition %d: %s (%s)\n",
      [.int 0, .str (strBytes "Macintosh"), .str (strBytes "Apple_Driver43")]⟩,
    ⟨1, "Size: %d bytes (offset %d to %d)", [.int 512, .int 1024, .int 1536]⟩,
    ⟨0, "\n", []⟩,
    ⟨1, "Code: %d bytes (offset %d in file)\n", [.int 2, .int 1024]⟩,
    ⟨1, "Checksum: 0x%08X", [.int 0]⟩,
    ⟨0, " (driver will not load)", []⟩,
    ⟨0, "\n", []⟩], by decide!, rfl⟩

theorem driverLines_formats (f : File) (tab : Nat) (pme : Partition) :
    (describePartitionMap.driverLines f tab pme).all
        (fun p => p.format != "Partition %d: %s (%s)\n" && p.format != " [TRUNCATED]")
      = true := by
  unfold describePartitionMap.driverLines
  simp only [tabPrint]
  split_ifs <;> rfl

/-- The block of an entry starts with the size lines; what follows holds no
partition heading and no truncation mark. -/
theorem entry_shape (f : File) (fileSize : Int) (tab : Nat) (i : Int) (pme : Partition)
    (block : Report) (h : describePartitionMap.entry f fileSize tab i pme = .ok block) :
    ∃ tail : Report, block = describePartitionMap.sizeLines fileSize tab i pme ++ tail
      ∧ tail.all (fun p => p.format != "Partition %d: %s (%s)\n" && p.format != " [TRUNCATED]")
          = true := by
  unfold describePartitionMap.entry at h
  simp only at h
  by_cases hd : HasPrefix (trimRightNul pme.PmPartType) (strBytes "Apple_Driver") = true
  · have hh := driver_not_hfs _ hd
    simp only [hd, hh, if_true, Bool.false_eq_true, if_false] at h
    cases h
    exact ⟨_, rfl, driverLines_formats f tab pme⟩
  · simp only [hd, if_false] at h
    split at h
    · cases hv : describeHFSVolume f ((pme.PmPyPartStart : Int) * 512) (tab + 1) true with
      | error e =>
        rw [hv] at h
        cases h
      | ok vol =>
        rw [hv] at h
        cases h
        exact ⟨vol, rfl, describeHFSVolume_formats _ _ _ _ vol hv⟩
    · cases h
      exact ⟨[], (List.append_nil _).symm, rfl⟩

theorem sizeLines_eq (fileSize : Int) (tab : Nat) (i : Int) (pme : Partition) :
    describePartitionMap.sizeLines fileSize tab i pme
      = [⟨tab, "\n", []⟩,
         ⟨tab, "Partition %d: %s (%s)\n",
            [.int i, .str (trimRightNul pme.PmPartName), .str (trimRightNul pme.PmPartType)]⟩,
         ⟨tab + 1, "Size: %d bytes (offset %d to %d)",
            [.int ((pme.PmPartBlkCnt : Int) * 512), .int ((pme.PmPyPartStart : Int) * 512),
             .int ((pme.PmPyPartStart : Int) * 512 + (pme.PmPartBlkCnt : Int) * 512)]⟩]
        ++ ((if (pme.PmPyPartStart : Int) * 512 + (pme.PmPartBlkCnt : Int) * 512 > fileSize
              then [⟨0, " [TRUNCATED]", []⟩] else [])
          ++ [⟨0, "\n", []⟩]) := by
  unfold describePartitionMap.sizeLines
  simp only [tabPrint]
  split_ifs <;> rfl

theorem textOf_flatten (F : Formats) (l : List Report) :
    textOf F l.flatten = (l.map (textOf F)).flatten := by
  induction l with
  | nil => rfl
  | cons a l ih => rw [List.flatten_cons, textOf_append, ih, List.map_cons, List.flatten_cons]

/-- C15 (as stated, refuted): the only entry of `driverMap "A [TRUNCATED]" 0`
lies within the 1536 bytes of the file (`2 * 512 + 1 * 512 = 1536`), and the
text of its block carries `[TRUNCATED]`, which comes with the name. -/
theorem untruncated_entry_carries_mark :
    ReadBigEndian Partition.codec (driverMap "A [TRUNCATED]" 0) 512
        = .ok (driverEntry "A [TRUNCATED]" 0)
      ∧ ¬ (((driverEntry "A [TRUNCATED]" 0).PmPyPartStart : Int) * 512
            + ((driverEntry "A [TRUNCATED]" 0).PmPartBlkCnt : Int) * 512 > 1536)
      ∧ ∃ r, describePartitionMap (driverMap "A [TRUNCATED]" 0) 1536 0 = .ok r
        ∧ ∀ F : Formats,
            textOf F r = strBytes ("\nPartition 0: A [TRUNCATED] (Apple_Driver43)\n"
              ++ "    Size: 512 bytes (offset 1024 to 1536)\n"
              ++ "    Code: 2 bytes (offset 1024 in file)\n"
              ++ "    Checksum: 0x00000000\n")
            ∧ strBytes "[TRUNCATED]" <:+: textOf F r := by
  refine ⟨by decide!, by decide, [⟨0, "\n", []⟩,
      ⟨0, "Partition %d: %s (%s)\n",
        [.int 0, .str (strBytes "A [TRUNCATED]"), .str (strBytes "Apple_Driver43")]⟩,
      ⟨1, "Size: %d bytes (offset %d to %d)", [.int 512, .int 1024, .int 1536]⟩,
      ⟨0, "\n", []⟩,
      ⟨1, "Code: %d bytes (offset %d in file)\n", [.int 2, .int 1024]⟩,
      ⟨1, "Checksum: 0x%08X", [.int 0]⟩,
      ⟨0, "\n", []⟩], by decide!, fun F => ?_⟩
  have e : textOf F [⟨0, "\n", []⟩,
      ⟨0, "Partition %d: %s (%s)\n",
        [.int 0, .str (strBytes "A [TRUNCATED]"), .str (strBytes "Apple_Driver43")]⟩,
      ⟨1, "Size: %d bytes (offset %d to %d)", [.int 512, .int 1024, .int 1536]⟩,
      ⟨0, "\n", []⟩,
      ⟨1, "Code: %d bytes (offset %d in file)\n", [.int 2, .int 1024]⟩,
      ⟨1, "Checksum: 0x%08X", [.int 0]⟩,
      ⟨0, "\n", []⟩]
      = strBytes ("\nPartition 0: A [TRUNCATED] (Apple_Driver43)\n"
          ++ "    Size: 512 bytes (offset 1024 to 1536)\n"
          ++ "    Code: 2 bytes (offset 1024 in file)\n"
          ++ "    Checksum: 0x00000000\n") := rfl
  rw [e]
  exact ⟨rfl, by decide!⟩

/-- C15 (amended): for every store and `fileSize`, `describePartitionMap`
returns the blocks of the entries `items` in order, where `items` are the
entries read at offsets 512, 1024, ... with signature `0x504D` up to the first
block that is unreadable or has another signature, and the text of the report
is the text of these blocks in order.  The calls of the block of index `j`
are the heading "Partition j" and the size line, then the TRUNCATED mark if
and only if `start * 512 + count * 512 > fileSize`, a newline, and calls
`rest` among which there is no other heading and no other TRUNCATED mark; the
text of the block is given in full up to `rest`: the name and the type are
copied into it as they are.  When neither holds a `[`, the text of the heading
and the size line holds `[TRUNCATED]` if and only if
`start * 512 + count * 512 > fileSize`. -/
theorem describePartitionMap_blocks (f : File) (fileSize : Int) (tab : Nat) :
    ∃ items : List (Partition × Report),
      describePartitionMap f fileSize tab = .ok (items.map Prod.snd).flatten
      ∧ (∀ F : Formats, textOf F (items.map Prod.snd).flatten
          = (items.map (fun it => textOf F it.2)).flatten)
      ∧ (∀ (j : Nat) (pme : Partition) (block : Report), items[j]? = some (pme, block) →
          ReadBigEndian Partition.codec f (512 * ((j : Int) + 1)) = .ok pme
            ∧ pme.PmSig = 0x504D
            ∧ ∃ rest : Report,
                block =
                  [⟨tab, "\n", []⟩,
                   ⟨tab, "Partition %d: %s (%s)\n",
                      [.int j, .str (trimRightNul pme.PmPartName),
                       .str (trimRightNul pme.PmPartType)]⟩,
                   ⟨tab + 1, "Size: %d bytes (offset %d to %d)",
                      [.int ((pme.PmPartBlkCnt : Int) * 512),
                       .int ((pme.PmPyPartStart : Int) * 512),
                       .int ((pme.PmPyPartStart : Int) * 512 + (pme.PmPartBlkCnt : Int) * 512)]⟩]
                  ++ (if (pme.PmPyPartStart : Int) * 512 + (pme.PmPartBlkCnt : Int) * 512
                        > fileSize then [⟨0, " [TRUNCATED]", []⟩] else [])
                  ++ [⟨0, "\n", []⟩] ++ rest
                ∧ (∀ p ∈ rest, p.format ≠ "Partition %d: %s (%s)\n"
                    ∧ p.format ≠ " [TRUNCATED]")
                ∧ (⟨0, " [TRUNCATED]", []⟩ ∈ block
                    ↔ (pme.PmPyPartStart : Int) * 512 + (pme.PmPartBlkCnt : Int) * 512
                        > fileSize)
                ∧ ∀ F : Formats, textOf F block
                    = List.flatten
                        [List.replicate (4 * tab) (byte ' '.toNat), strBytes "\n",
                         List.replicate (4 * tab) (byte ' '.toNat), strBytes "Partition ",
                         decimal j, strBytes ": ", trimRightNul pme.PmPartName,
                         strBytes " (", trimRightNul pme.PmPartType, strBytes ")\n",
                         List.replicate (4 * (tab + 1)) (byte ' '.toNat), strBytes "Size: ",
                         decimal ((pme.PmPartBlkCnt : Int) * 512),
                         strBytes " bytes (offset ",
                         decimal ((pme.PmPyPartStart : Int) * 512), strBytes " to ",
                         decimal ((pme.PmPyPartStart : Int) * 512
                           + (pme.PmPartBlkCnt : Int) * 512),
                         strBytes ")",
                         if (pme.PmPyPartStart : Int) * 512 + (pme.PmPartBlkCnt : Int) * 512
                             > fileSize then strBytes " [TRUNCATED]" else [],
                         strBytes "\n"]
                      ++ textOf F rest
                  ∧ textOf F block
                    = textOf F (describePartitionMap.sizeLines fileSize tab j pme)
                      ++ textOf F rest
                  ∧ (byte '['.toNat ∉ trimRightNul pme.PmPartName →
                      byte '['.toNat ∉ trimRightNul pme.PmPartType →
                      (strBytes "[TRUNCATED]"
                          <:+: textOf F (describePartitionMap.sizeLines fileSize tab j pme)
                        ↔ (pme.PmPyPartStart : Int) * 512 + (pme.PmPartBlkCnt : Int) * 512
                            > fileSize)))
      ∧ (∀ pme, ReadBigEndian Partition.codec f (512 * ((items.length : Int) + 1)) = .ok pme →
          pme.PmSig ≠ 0x504D) := by
  obtain ⟨items, h1, h2, h3⟩ := describePartitionMap_items f fileSize tab
  refine ⟨items, h1, ?_, ?_, h3⟩
  · intro F
    rw [textOf_flatten, List.map_map]
    rfl
  intro j pme block hj
  obtain ⟨hr, hsig, hb⟩ := h2 j pme block hj
  obtain ⟨tail, htail, hclean⟩ := entry_shape f fileSize tab j pme block hb
  have hall := List.all_eq_true.mp hclean
  have hfmt : ∀ p ∈ tail, p.format ≠ "Partition %d: %s (%s)\n" ∧ p.format ≠ " [TRUNCATED]" := by
    intro p hp
    have := hall p hp
    simpa using this
  have hno : (⟨0, " [TRUNCATED]", []⟩ : Piece) ∉ tail := fun hm => (hfmt _ hm).2 rfl
  have htext : ∀ F : Formats, textOf F block
      = textOf F (describePartitionMap.sizeLines fileSize tab j pme) ++ textOf F tail := by
    intro F
    rw [htail, textOf_append]
  have htext2 := htext
  simp only [text_sizeLines] at htext
  rw [sizeLines_eq] at htail
  refine ⟨hr, hsig, tail, ?_, hfmt, ?_, fun F => ⟨htext F, htext2 F,
    fun hn ht => sizeLines_mark_iff F fileSize tab j pme hn ht⟩⟩
  · rw [htail]
    simp only [List.append_assoc]
  · rw [htail]
    by_cases hc : (pme.PmPyPartStart : Int) * 512 + (pme.PmPartBlkCnt : Int) * 512 > fileSize
    · simp [hc]
    · simp [hc, hno]

/-- The three entries of `threeEntryMap` are listed as 0, 1, 2; with 2560 bytes
of file only the last one is marked TRUNCATED. -/
theorem describePartitionMap_threeEntryMap :
    describePartitionMap threeEntryMap 2560 0
      = .ok [⟨0, "\n", []⟩,
             ⟨0, "Partition %d: %s (%s)\n",
                [.int 0, .str (strBytes "Apple"), .str (strBytes "Apple_partition_map")]⟩,
             ⟨1, "Size: %d bytes (offset %d to %d)", [.int 1536, .int 512, .int 2048]⟩,
             ⟨0, "\n", []⟩,
             ⟨0, "\n", []⟩,
             ⟨0, "Partition %d: %s (%s)\n",
                [.int 1, .str (strBytes "Macintosh"), .str (strBytes "Apple_Driver43")]⟩,
             ⟨1, "Size: %d bytes (offset %d to %d)", [.int 512, .int 2048, .int 2560]⟩,
             ⟨0, "\n", []⟩,
             ⟨1, "Code: %d bytes (offset %d in file)\n", [.int 2, .int 2048]⟩,
             ⟨1, "Checksum: 0x%08X", [.int 0xB0]⟩,
             ⟨0, " (computed 0x%04X) ", [.int 0xB0]⟩,
             ⟨0, " [VERIFIED]", []⟩,
             ⟨0, "\n", []⟩,
             ⟨0, "\n", []⟩,
             ⟨0, "Partition %d: %s (%s)\n",
                [.int 2, .str (strBytes "MacOS"), .str (strBytes "Apple_HFS")]⟩,
             ⟨1, "Size: %d bytes (offset %d to %d)", [.int 4096, .int 2560, .int 6656]⟩,
             ⟨0, " [TRUNCATED]", []⟩,
             ⟨0, "\n", []⟩,
             ⟨1, "Error reading HFS boot blocks\n", []⟩] := by
  decide!

theorem describePartitionMap_blocks_witness :
    ∃ items : List (Partition × Report),
      describePartitionMap threeEntryMap 2560 0 = .ok (items.map Prod.snd).flatten
      ∧ (∀ F : Formats, textOf F (items.map Prod.snd).flatten
          = (items.map (fun it => textOf F it.2)).flatten)
      ∧ (∀ (j : Nat) (pme : Partition) (block : Report), items[j]? = some (pme, block) →
          ReadBigEndian Partition.codec threeEntryMap (512 * ((j : Int) + 1)) = .ok pme
            ∧ pme.PmSig = 0x504D
            ∧ ∃ rest : Report,
                block =
                  [⟨0, "\n", []⟩,
                   ⟨0, "Partition %d: %s (%s)\n",
                      [.int j, .str (trimRightNul pme.PmPartName),
                       .str (trimRightNul pme.PmPartType)]⟩,
                   ⟨0 + 1, "Size: %d bytes (offset %d to %d)",
                      [.int ((pme.PmPartBlkCnt : Int) * 512),
                       .int ((pme.PmPyPartStart : Int) * 512),
                       .int ((pme.PmPyPartStart : Int) * 512 + (pme.PmPartBlkCnt : Int) * 512)]⟩]
                  ++ (if (pme.PmPyPartStart : Int) * 512 + (pme.PmPartBlkCnt : Int) * 512
                        > 2560 then [⟨0, " [TRUNCATED]", []⟩] else [])
                  ++ [⟨0, "\n", []⟩] ++ rest
                ∧ (∀ p ∈ rest, p.format ≠ "Partition %d: %s (%s)\n"
                    ∧ p.format ≠ " [TRUNCATED]")
                ∧ (⟨0, " [TRUNCATED]", []⟩ ∈ block
                    ↔ (pme.PmPyPartStart : Int) * 512 + (pme.PmPartBlkCnt : Int) * 512
                        > 2560)
                ∧ ∀ F : Formats, textOf F block
                    = List.flatten
                        [List.replicate (4 * 0) (byte ' '.toNat), strBytes "\n",
                         List.replicate (4 * 0) (byte ' '.toNat), strBytes "Partition ",
                         decimal j, strBytes ": ", trimRightNul pme.PmPartName,
                         strBytes " (", trimRightNul pme.PmPartType, strBytes ")\n",
                         List.replicate (4 * (0 + 1)) (byte ' '.toNat), strBytes "Size: ",
                         decimal ((pme.PmPartBlkCnt : Int) * 512),
                         strBytes " bytes (offset ",
                         decimal ((pme.PmPyPartStart : Int) * 512), strBytes " to ",
                         decimal ((pme.PmPyPartStart : Int) * 512
                           + (pme.PmPartBlkCnt : Int) * 512),
                         strBytes ")",
                         if (pme.PmPyPartStart : Int) * 512 + (pme.PmPartBlkCnt : Int) * 512
                             > 2560 then strBytes " [TRUNCATED]" else [],
                         strBytes "\n"]
                      ++ textOf F rest
                  ∧ textOf F block
                    = textOf F (describePartitionMap.sizeLines 2560 0 j pme)
                      ++ textOf F rest
                  ∧ (byte '['.toNat ∉ trimRightNul pme.PmPartName →
                      byte '['.toNat ∉ trimRightNul pme.PmPartType →
                      (strBytes "[TRUNCATED]"
                          <:+: textOf F (describePartitionMap.sizeLines 2560 0 j pme)
                        ↔ (pme.PmPyPartStart : Int) * 512 + (pme.PmPartBlkCnt : Int) * 512
                            > 2560)))
      ∧ (∀ pme, ReadBigEndian Partition.codec threeEntryMap (512 * ((items.length : Int) + 1))
            = .ok pme → pme.PmSig ≠ 0x504D) :=
  describePartitionMap_blocks threeEntryMap 2560 0

/-! ## The progress calls of the copy loop -/

theorem progressCalls_succ (hfsLen : Int) (m : Nat) :
    progressCalls hfsLen (m + 1)
      = progressCalls hfsLen m ++ [(min (((m : Int) + 1) * 262144) hfsLen, hfsLen)] := by
  simp only [progressCalls, List.range_succ, List.map_append, List.map_cons, List.map_nil]

theorem copy_loop_calls (hfsLen : Int) :
    ∀ (fuel : Nat) (ofd ifd : File) (r : Int) (m : Nat),
      r.toNat ≤ fuel → r = max 0 (hfsLen - 262144 * (m : Int)) →
      (m = 0 ∨ 262144 * ((m : Int) - 1) < hfsLen) →
      (0 < r → ifd.pos + r.toNat ≤ ifd.data.length) →
      ∃ ofd1 ifd1, WriteHFSVolumeData.loop hfsLen true fuel ofd ifd r (progressCalls hfsLen m)
        = .ok (ofd1, ifd1, progressCalls hfsLen ((hfsLen + 262143) / 262144).toNat) := by
  intro fuel
  induction fuel with
  | zero =>
    intro ofd ifd r m hf hrm hm _
    have hr : ¬ r > 0 := by omega
    have e : ((hfsLen + 262143) / 262144).toNat = m := by omega
    refine ⟨ofd, ifd, ?_⟩
    simp only [WriteHFSVolumeData.loop, hr, if_false, e]
  | succ fuel ih =>
    intro ofd ifd r m hf hrm hm hen
    by_cases hr : r > 0
    · have hen1 := hen hr
      have ht := toRead_cases r hr
      generalize hT : (if r < 256 * 1024 then r else (256 * 1024 : Int)).toNat = t at ht
      have hlen : (slice ifd.data ifd.pos t).length = t := by
        rw [length_slice]; omega
      have hread := Read_ok ifd t (by omega)
      rw [hlen] at hread
      have hcall : hfsLen - (r - (t : Int)) = min (((m : Int) + 1) * 262144) hfsLen := by
        omega
      obtain ⟨ofd1, ifd1, hc⟩ := ih (ofd.Write (slice ifd.data ifd.pos t))
        ⟨ifd.data, ifd.pos + t⟩ (r - (t : Int)) (m + 1) (by omega) (by push_cast; omega)
        (by right; push_cast; omega) (by intro _; simp only; omega)
      refine ⟨ofd1, ifd1, ?_⟩
      simp only [WriteHFSVolumeData.loop, hr, if_true, hT, hread, hlen, hcall]
      rw [← progressCalls_succ]
      exact hc
    · have e : ((hfsLen + 262143) / 262144).toNat = m := by omega
      refine ⟨ofd, ifd, ?_⟩
      simp only [WriteHFSVolumeData.loop, hr, if_false, e]

/-- The progress calls of a conversion of `len > 0` bytes that succeeds: one
per chunk, `ceil (len / 262144)` of them, the `k`-th with the operands
`min (k * 262144) len` and `len` of the quotient that is passed on. -/
theorem WriteHFSVolumeData_calls (ofd ifd : File) (rd wr len : Int) (rw : Bool)
    (dst : File) (calls : List (Int × Int)) (hlen : 0 < len)
    (h : WriteHFSVolumeData ofd ifd rd wr len rw true = .ok (dst, calls)) :
    calls = progressCalls len ((len + 262143) / 262144).toNat
      ∧ calls.length = ((len + 262143) / 262144).toNat := by
  obtain ⟨hrd, hwr, hsrc, _, _⟩ := WriteHFSVolumeData_inv ofd ifd rd wr len rw true dst calls h
  obtain ⟨ofd1, ifd1, hc⟩ := copy_loop_calls len len.toNat ⟨ofd.data, wr.toNat⟩
    ⟨ifd.data, rd.toNat⟩ len 0 (Nat.le_refl _) (by push_cast; omega) (Or.inl rfl) hsrc
  have e0 : progressCalls len 0 = [] := rfl
  rw [e0] at hc
  simp only [WriteHFSVolumeData, Seek_ok _ _ hrd, Seek_ok _ _ hwr, hc] at h
  cases hw : WriteHFSVolumeAttributes ofd1 wr rw with
  | error e =>
    rw [hw] at h
    cases h
  | ok ofd3 =>
    rw [hw] at h
    cases h
    refine ⟨rfl, ?_⟩
    simp only [progressCalls, List.length_map, List.length_range]

/-- The operands of the calls, in order: each numerator is positive and at
most `len`, it grows from one call to the next, and the last one is `len`. -/
theorem progressCalls_values (len : Int) (hlen : 0 < len) (k : Nat)
    (hk : k < ((len + 262143) / 262144).toNat) :
    (progressCalls len ((len + 262143) / 262144).toNat)[k]?
        = some (min (((k : Int) + 1) * 262144) len, len)
      ∧ 0 < min (((k : Int) + 1) * 262144) len
      ∧ min (((k : Int) + 1) * 262144) len ≤ len
      ∧ (k + 1 < ((len + 262143) / 262144).toNat →
          min (((k : Int) + 1) * 262144) len < min (((k : Int) + 2) * 262144) len)
      ∧ (k + 1 = ((len + 262143) / 262144).toNat → min (((k : Int) + 1) * 262144) len = len) := by
  refine ⟨?_, by omega, by omega, by omega, by omega⟩
  simp only [progressCalls, List.getElem?_map, List.getElem?_range hk, Option.map_some']

/-- A conversion of the 1036 bytes of `zeroVolume` with a callback: one chunk,
one call, with the operands 1036 and 1036. -/
theorem WriteHFSVolumeData_calls_zeroVolume :
    WriteHFSVolumeData ⟨[], 0⟩ zeroVolume 0 0 1036 false true
        = .ok (zeroVolumeLocked, [(1036, 1036)])
      ∧ progressCalls 1036 (((1036 : Int) + 262143) / 262144).toNat = [(1036, 1036)] := by
  exact ⟨by decide!, by decide⟩

/-! ## The record codec on a store -/

/-- Writing a record of `n > 0` bytes at `off ≥ 0`: the store holds its image at
`off`, keeps every other byte it had, fills a gap before `off` with zero
bytes, and the record read back at `off` is the decoded image. -/
theorem WriteBigEndian_frame {T : Type} (c : Codec T) (f : File) (off : Int) (v : T) (n : Nat)
    (h0 : 0 ≤ off) (hn : (c.encode v).length = n) (hsz : c.size = n) (hpos : 0 < n) :
    ∃ g, WriteBigEndian c f off v = .ok g
      ∧ slice g.data off.toNat n = c.encode v
      ∧ g.data.length = max f.data.length (off.toNat + n)
      ∧ (∀ j : Nat, j < f.data.length → (j < off.toNat ∨ off.toNat + n ≤ j) →
          g.data[j]? = f.data[j]?)
      ∧ (∀ j : Nat, f.data.length ≤ j → j < off.toNat → g.data[j]? = some 0)
      ∧ ReadBigEndian c g off = .ok (c.decode (c.encode v)) := by
  have hne : c.encode v ≠ [] := by
    intro hc
    rw [hc] at hn
    simp only [List.length_nil] at hn
    omega
  obtain ⟨g, hw, hr⟩ := ReadBigEndian_WriteBigEndian f off h0 c v (by rw [hn, hsz])
    (by rw [hsz]; exact hpos)
  have hg := WriteBigEndian_ok c f off v h0
  rw [hw] at hg
  cases hg
  refine ⟨_, hw, ?_, ?_, ?_, ?_, hr⟩
  · rw [← hn]
    exact slice_writeAt_self _ _ _
  · simp only
    rw [length_writeAt _ _ _ hne, hn]
  · intro j hj hout
    simp only
    rw [getElem?_writeAt, hn]
    have e : ¬ (off.toNat ≤ j ∧ j < off.toNat + n) := by omega
    rw [if_neg e, if_pos hj]
  · intro j hj hlt
    simp only
    rw [getElem?_writeAt, hn]
    have e : ¬ (off.toNat ≤ j ∧ j < off.toNat + n) := by omega
    have e2 : ¬ j < f.data.length := by omega
    rw [if_neg e, if_neg e2, if_pos ⟨hlt, hne⟩]

/-- A negative offset is rejected by `Seek`: nothing is written, nothing is read. -/
theorem record_codec_negative_offset {T : Type} (c : Codec T) (f : File) (off : Int) (v : T)
    (h : off < 0) :
    WriteBigEndian c f off v = .error .EINVAL ∧ ReadBigEndian c f off = .error .EINVAL := by
  simp only [WriteBigEndian, ReadBigEndian, Seek_error f off h, and_self]

/-- C21: for every `Partition` value `p` and `DDRecord` value `d` (fields within
the ranges of their Go types), every store and every offset `off ≥ 0`,
`WriteBigEndian` succeeds and writes the 512-byte (26-byte) big-endian image of
the record at `off`: the store grows to `max length (off + size)`, every other
byte it had is unchanged (a gap before `off` is zero-filled), and
`ReadBigEndian` at `off` then returns the record.  `ReadBigEndian` fails
whenever fewer bytes than the size of the record are left at the offset. -/
theorem record_codec_round_trip (f : File) (off : Int) (p : Partition) (d : DDRecord)
    (h0 : 0 ≤ off) (hp : p.WF) (hd : d.WF) :
    (∃ g, WriteBigEndian Partition.codec f off p = .ok g
      ∧ (Partition.codec.encode p).length = 512
      ∧ slice g.data off.toNat 512 = Partition.codec.encode p
      ∧ g.data.length = max f.data.length (off.toNat + 512)
      ∧ (∀ j : Nat, j < f.data.length → (j < off.toNat ∨ off.toNat + 512 ≤ j) →
          g.data[j]? = f.data[j]?)
      ∧ (∀ j : Nat, f.data.length ≤ j → j < off.toNat → g.data[j]? = some 0)
      ∧ ReadBigEndian Partition.codec g off = .ok p)
    ∧ (∃ g, WriteBigEndian DDRecord.codec f off d = .ok g
      ∧ (DDRecord.codec.encode d).length = 26
      ∧ slice g.data off.toNat 26 = DDRecord.codec.encode d
      ∧ g.data.length = max f.data.length (off.toNat + 26)
      ∧ (∀ j : Nat, j < f.data.length → (j < off.toNat ∨ off.toNat + 26 ≤ j) →
          g.data[j]? = f.data[j]?)
      ∧ (∀ j : Nat, f.data.length ≤ j → j < off.toNat → g.data[j]? = some 0)
      ∧ ReadBigEndian DDRecord.codec g off = .ok d)
    ∧ (∀ (h : File) (o : Int), h.data.length - o.toNat < 512 →
        ∃ e, ReadBigEndian Partition.codec h o = .error e)
    ∧ (∀ (h : File) (o : Int), h.data.length - o.toNat < 26 →
        ∃ e, ReadBigEndian DDRecord.codec h o = .error e) := by
  refine ⟨?_, ?_, ?_, ?_⟩
  · obtain ⟨g, hw, hs, hl, hfr, hgap, hr⟩ := WriteBigEndian_frame Partition.codec f off p 512 h0
      (Partition_length_encode p) rfl (by decide)
    rw [Partition_decode_encode p hp] at hr
    exact ⟨g, hw, Partition_length_encode p, hs, hl, hfr, hgap, hr⟩
  · obtain ⟨g, hw, hs, hl, hfr, hgap, hr⟩ := WriteBigEndian_frame DDRecord.codec f off d 26 h0
      (DDRecord_length_encode d) rfl (by decide)
    rw [DDRecord_decode_encode d hd] at hr
    exact ⟨g, hw, DDRecord_length_encode d, hs, hl, hfr, hgap, hr⟩
  · intro h o hlt
    exact ReadBigEndian_error Partition.codec h o (Or.inr hlt)
  · intro h o hlt
    exact ReadBigEndian_error DDRecord.codec h o (Or.inr hlt)

theorem record_codec_round_trip_witness :
    (∃ g, WriteBigEndian Partition.codec sampleMap 1024 (WriteApplePartitionMapEntry.pme 3)
        = .ok g
      ∧ (Partition.codec.encode (WriteApplePartitionMapEntry.pme 3)).length = 512
      ∧ slice g.data (1024 : Int).toNat 512
          = Partition.codec.encode (WriteApplePartitionMapEntry.pme 3)
      ∧ g.data.length = max sampleMap.data.length ((1024 : Int).toNat + 512)
      ∧ (∀ j : Nat, j < sampleMap.data.length →
          (j < (1024 : Int).toNat ∨ (1024 : Int).toNat + 512 ≤ j) →
          g.data[j]? = sampleMap.data[j]?)
      ∧ (∀ j : Nat, sampleMap.data.length ≤ j → j < (1024 : Int).toNat → g.data[j]? = some 0)
      ∧ ReadBigEndian Partition.codec g 1024 = .ok (WriteApplePartitionMapEntry.pme 3))
    ∧ (∃ g, WriteBigEndian DDRecord.codec sampleMap 1024 (WriteDriverDescriptorRecord.ddr 1536)
        = .ok g
      ∧ (DDRecord.codec.encode (WriteDriverDescriptorRecord.ddr 1536)).length = 26
      ∧ slice g.data (1024 : Int).toNat 26
          = DDRecord.codec.encode (WriteDriverDescriptorRecord.ddr 1536)
      ∧ g.data.length = max sampleMap.data.length ((1024 : Int).toNat + 26)
      ∧ (∀ j : Nat, j < sampleMap.data.length →
          (j < (1024 : Int).toNat ∨ (1024 : Int).toNat + 26 ≤ j) →
          g.data[j]? = sampleMap.data[j]?)
      ∧ (∀ j : Nat, sampleMap.data.length ≤ j → j < (1024 : Int).toNat → g.data[j]? = some 0)
      ∧ ReadBigEndian DDRecord.codec g 1024 = .ok (WriteDriverDescriptorRecord.ddr 1536))
    ∧ (∀ (h : File) (o : Int), h.data.length - o.toNat < 512 →
        ∃ e, ReadBigEndian Partition.codec h o = .error e)
    ∧ (∀ (h : File) (o : Int), h.data.length - o.toNat < 26 →
        ∃ e, ReadBigEndian DDRecord.codec h o = .error e) :=
  record_codec_round_trip sampleMap 1024 (WriteApplePartitionMapEntry.pme 3)
    (WriteDriverDescriptorRecord.ddr 1536) (by decide) apple_pme_WF (ddr_WF 1536)

/-! ## The attribute word of a Master Directory Block -/

theorem u32At_congr (a b : List Byte) (p : Nat) (h0 : a[p]? = b[p]?)
    (h1 : a[p + 1]? = b[p + 1]?) (h2 : a[p + 2]? = b[p + 2]?) (h3 : a[p + 3]? = b[p + 3]?) :
    u32At a p = u32At b p := by
  simp only [u32At, List.getD_eq_getElem?_getD, h0, h1, h2, h3]

/-- Two buffers that agree outside bytes 10 and 11 decode to Master Directory
Blocks that agree outside `DrAtrb`. -/
theorem mdb_decode_congr (a b : List Byte) (h : ∀ i : Nat, i ≠ 10 → i ≠ 11 → a[i]? = b[i]?) :
    MasterDirectoryBlock.codec.decode a
      = { MasterDirectoryBlock.codec.decode b with DrAtrb := u16At a 10 } := by
  have h16 : ∀ k : Nat, (k + 1 < 10 ∨ 12 ≤ k) → u16At a k = u16At b k := fun k hk =>
    u16At_congr a b k k (h k (by omega) (by omega)) (h (k + 1) (by omega) (by omega))
  have h32 : ∀ k : Nat, (k + 3 < 10 ∨ 12 ≤ k) → u32At a k = u32At b k := fun k hk =>
    u32At_congr a b k (h k (by omega) (by omega)) (h (k + 1) (by omega) (by omega))
      (h (k + 2) (by omega) (by omega)) (h (k + 3) (by omega) (by omega))
  have hname : (a.drop 36).take 28 = (b.drop 36).take 28 := by
    apply List.ext_getElem?
    intro i
    simp only [List.getElem?_take, List.getElem?_drop]
    split
    · exact h _ (by omega) (by omega)
    · rfl
  have hf : u32sAt a 92 8 = u32sAt b 92 8 := by
    unfold u32sAt
    apply List.map_congr_left
    intro j _
    exact h32 _ (by omega)
  have hx : ∀ k : Nat, 12 ≤ k → extsAt a k = extsAt b k := by
    intro k hk
    unfold extsAt
    apply List.map_congr_left
    intro j _
    rw [h16 (k + 4 * j) (by omega), h16 (k + 4 * j + 2) (by omega)]
  simp only [MasterDirectoryBlock.codec, MasterDirectoryBlock.mk.injEq]
  exact ⟨h16 0 (by omega), h32 2 (by omega), h32 6 (by omega), trivial, h16 12 (by omega),
    h16 14 (by omega), h16 16 (by omega), h16 18 (by omega), h32 20 (by omega),
    h32 24 (by omega), h16 28 (by omega), h32 30 (by omega), h16 34 (by omega), hname,
    h32 64 (by omega), h16 68 (by omega), h32 70 (by omega), h32 74 (by omega),
    h32 78 (by omega), h16 82 (by omega), h32 84 (by omega), h32 88 (by omega), hf,
    h16 124 (by omega), h16 126 (by omega), h16 128 (by omega), h32 130 (by omega),
    hx 134 (by omega), h32 146 (by omega), hx 150 (by omega)⟩

theorem patch_eq (rw : Bool) (x : Nat) :
    WriteHFSVolumeAttributes.patch rw x
      = if rw then x &&& not16 0x8080 else x ||| 0x8080 := by
  cases rw with
  | true =>
    simp only [WriteHFSVolumeAttributes.patch, if_true]
    rw [Nat.and_assoc]
    rfl
  | false =>
    simp only [WriteHFSVolumeAttributes.patch, Bool.false_eq_true, if_false]
    rw [Nat.or_assoc]
    rfl

theorem patch_patch (rw : Bool) (x : Nat) :
    WriteHFSVolumeAttributes.patch rw (WriteHFSVolumeAttributes.patch rw x)
      = WriteHFSVolumeAttributes.patch rw x := by
  rw [patch_eq rw (WriteHFSVolumeAttributes.patch rw x), patch_eq rw x]
  cases rw with
  | true =>
    simp only [if_true]
    rw [Nat.and_assoc, Nat.and_self]
  | false =>
    simp only [Bool.false_eq_true, if_false]
    rw [Nat.or_assoc, Nat.or_self]

theorem writeAt_writeAt_same (d : List Byte) (p : Nat) (bs : List Byte) :
    writeAt (writeAt d p bs) p bs = writeAt d p bs := by
  by_cases hbs : bs = []
  · subst hbs
    simp only [writeAt_nil]
  apply List.ext_getElem?
  intro i
  rw [getElem?_writeAt (writeAt d p bs) p bs i]
  by_cases h : p ≤ i ∧ i < p + bs.length
  · rw [if_pos h, getElem?_writeAt, if_pos h]
  · rw [if_neg h]
    by_cases h2 : i < (writeAt d p bs).length
    · rw [if_pos h2]
    · have hl := length_writeAt d p bs hbs
      have e : ¬ (i < p ∧ bs ≠ []) := by omega
      rw [if_neg h2, if_neg e]
      exact (List.getElem?_eq_none (by omega)).symm

/-- Success of `WriteHFSVolumeAttributes` when the two bytes of the attribute
word lie within the file. -/
theorem WriteHFSVolumeAttributes_at (f : File) (s : Int) (rw : Bool) (A : Nat)
    (hA : s + 1024 = (A : Int)) (h : A + 12 ≤ f.data.length) :
    WriteHFSVolumeAttributes f s rw
      = .ok ⟨writeAt f.data (A + 10)
          (be16 (WriteHFSVolumeAttributes.patch rw (u16At f.data (A + 10)))), A + 12⟩ := by
  have e : (s + 512 * 2 + 10).toNat = A + 10 := by omega
  simp only [WriteHFSVolumeAttributes, Seek_ok _ _ (by omega : 0 ≤ s + 512 * 2 + 10), e]
  rw [ReadFull_ok _ _ (by simp only; omega)]
  simp only [File.Write, u16At_slice _ _ 2 0 (Nat.le_refl _), length_be16, Nat.add_zero]

/-- C22: when a Master Directory Block `mdb` is readable at `hfsStart + 1024`,
`WriteHFSVolumeAttributes` succeeds; reading the block again gives `mdb` with
`DrAtrb` replaced by `DrAtrb AND NOT 0x8080` (`rw`) or `DrAtrb OR 0x8080`
(not `rw`), that is bits 7 and 15 set to `!rw` and the 14 other bits kept;
the length of the store and every byte but the two of the attribute word
(at `hfsStart + 1034`) are unchanged, and a second application leaves the
store as the first one did. -/
theorem WriteHFSVolumeAttributes_mdb (f : File) (hfsStart : Int) (rw : Bool)
    (mdb : MasterDirectoryBlock)
    (hread : ReadBigEndian MasterDirectoryBlock.codec f (hfsStart + 1024) = .ok mdb) :
    ∃ g, WriteHFSVolumeAttributes f hfsStart rw = .ok g
      ∧ ReadBigEndian MasterDirectoryBlock.codec g (hfsStart + 1024)
          = .ok { mdb with
              DrAtrb := if rw then mdb.DrAtrb &&& not16 0x8080 else mdb.DrAtrb ||| 0x8080 }
      ∧ (∀ k : Nat,
          (if rw then mdb.DrAtrb &&& not16 0x8080 else mdb.DrAtrb ||| 0x8080).testBit k
            = if k = 7 ∨ k = 15 then !rw else mdb.DrAtrb.testBit k)
      ∧ g.data.length = f.data.length
      ∧ (∀ j : Nat, j ≠ (hfsStart + 1034).toNat → j ≠ (hfsStart + 1034).toNat + 1 →
          g.data[j]? = f.data[j]?)
      ∧ WriteHFSVolumeAttributes g hfsStart rw = .ok g := by
  obtain ⟨h0, hsz, hm⟩ := ReadBigEndian_inv _ _ _ _ hread
  have e162 : MasterDirectoryBlock.codec.size = 162 := rfl
  rw [e162] at hsz hm
  obtain ⟨A, hA⟩ : ∃ A : Nat, hfsStart + 1024 = (A : Int) := ⟨(hfsStart + 1024).toNat, by omega⟩
  have eA : (hfsStart + 1024).toNat = A := by omega
  have eB : (hfsStart + 1034).toNat = A + 10 := by omega
  rw [eA] at hsz hm
  rw [eB]
  have hx : mdb.DrAtrb = u16At f.data (A + 10) := by
    rw [hm]
    exact u16At_slice f.data A 162 10 (by omega)
  have hxlt : mdb.DrAtrb < 65536 := by
    rw [hx]
    exact u16At_lt _ _
  have hbe : be16 (WriteHFSVolumeAttributes.patch rw mdb.DrAtrb) ≠ [] := by
    simp only [be16, ne_eq, not_false_eq_true, List.cons_ne_nil]
  have hw := WriteHFSVolumeAttributes_at f hfsStart rw A hA (by omega)
  rw [← hx] at hw
  have hlen : (writeAt f.data (A + 10) (be16 (WriteHFSVolumeAttributes.patch rw mdb.DrAtrb))).length
      = f.data.length := by
    rw [length_writeAt _ _ _ hbe, length_be16]
    omega
  have hword : u16At (writeAt f.data (A + 10) (be16 (WriteHFSVolumeAttributes.patch rw mdb.DrAtrb)))
      (A + 10) = WriteHFSVolumeAttributes.patch rw mdb.DrAtrb := by
    rw [u16At_writeAt_self, Nat.mod_eq_of_lt (patch_lt rw _ hxlt)]
  have hother : ∀ j : Nat, j ≠ A + 10 → j ≠ A + 10 + 1 →
      (writeAt f.data (A + 10) (be16 (WriteHFSVolumeAttributes.patch rw mdb.DrAtrb)))[j]?
        = f.data[j]? := by
    intro j h1 h2
    rw [getElem?_writeAt, length_be16]
    have e : ¬ (A + 10 ≤ j ∧ j < A + 10 + 2) := by omega
    rw [if_neg e]
    by_cases hj : j < f.data.length
    · rw [if_pos hj]
    · have e2 : ¬ (j < A + 10 ∧ be16 (WriteHFSVolumeAttributes.patch rw mdb.DrAtrb) ≠ []) := by
        omega
      rw [if_neg hj, if_neg e2]
      exact (List.getElem?_eq_none (by omega)).symm
  refine ⟨_, hw, ?_, ?_, hlen, hother, ?_⟩
  · rw [ReadBigEndian_ok _ _ _ h0 (by rw [e162, eA]; simp only; rw [hlen]; exact hsz), e162, eA]
    simp only
    rw [mdb_decode_congr _ (slice f.data A 162) (by
      intro i h1 h2
      rw [getElem?_slice, getElem?_slice]
      by_cases hi : i < 162
      · rw [if_pos hi, if_pos hi]
        exact hother (A + i) (by omega) (by omega)
      · rw [if_neg hi, if_neg hi]), ← hm, u16At_slice _ A 162 10 (by omega), hword, patch_eq]
  · intro k
    have h := patch_testBit rw mdb.DrAtrb k hxlt
    rw [patch_eq] at h
    exact h
  · have hw2 := WriteHFSVolumeAttributes_at
      ⟨writeAt f.data (A + 10) (be16 (WriteHFSVolumeAttributes.patch rw mdb.DrAtrb)), A + 12⟩
      hfsStart rw A hA (by simp only; rw [hlen]; omega)
    simp only at hw2
    rw [hword, patch_patch, writeAt_writeAt_same] at hw2
    exact hw2

theorem WriteHFSVolumeAttributes_mdb_witness :
    ∃ g, WriteHFSVolumeAttributes sampleVolume 0 false = .ok g
      ∧ ReadBigEndian MasterDirectoryBlock.codec g (0 + 1024)
          = .ok { sampleMDB with
              DrAtrb := if false then sampleMDB.DrAtrb &&& not16 0x8080
                else sampleMDB.DrAtrb ||| 0x8080 }
      ∧ (∀ k : Nat,
          (if false then sampleMDB.DrAtrb &&& not16 0x8080
              else sampleMDB.DrAtrb ||| 0x8080).testBit k
            = if k = 7 ∨ k = 15 then !false else sampleMDB.DrAtrb.testBit k)
      ∧ g.data.length = sampleVolume.data.length
      ∧ (∀ j : Nat, j ≠ ((0 : Int) + 1034).toNat → j ≠ ((0 : Int) + 1034).toNat + 1 →
          g.data[j]? = sampleVolume.data[j]?)
      ∧ WriteHFSVolumeAttributes g 0 false = .ok g :=
  WriteHFSVolumeAttributes_mdb sampleVolume 0 false sampleMDB (by decide!)

/-! ## The partition map of a written image -/

theorem getD_writeAt_below (d : List Byte) (off : Nat) (bs : List Byte) (i : Nat)
    (h : i < off) : (writeAt d off bs).getD i 0 = d.getD i 0 := by
  simp only [List.getD_eq_getElem?_getD]
  rw [getElem?_writeAt]
  have e : ¬ (off ≤ i ∧ i < off + bs.length) := by omega
  rw [if_neg e]
  by_cases h1 : i < d.length
  · rw [if_pos h1]
  · have e2 : d[i]? = none := List.getElem?_eq_none (by omega)
    rw [if_neg h1, e2]
    split <;> rfl

theorem length_writeAt_le (d : List Byte) (off : Nat) (bs : List Byte) :
    (writeAt d off bs).length ≤ max d.length (off + bs.length) := by
  by_cases h : bs = []
  · subst h
    rw [writeAt_nil]
    omega
  · rw [length_writeAt d off bs h]

/-- On an empty destination the four records end at `0x800`, and the header
ends with the driver. -/
theorem header_empty (AppleDriver43 : List Byte) (rw : Bool) (hfsLen : Int) :
    (header AppleDriver43 [] rw hfsLen).getD 0x800 0 = 0
      ∧ (header AppleDriver43 [] rw hfsLen).getD 0x801 0 = 0
      ∧ (header AppleDriver43 [] rw hfsLen).length ≤ max 0x800 (0x8000 + AppleDriver43.length)
      ∧ slice (header AppleDriver43 [] rw hfsLen) 0x8000 AppleDriver43.length = AppleDriver43 := by
  generalize hE0 : DDRecord.codec.encode (WriteDriverDescriptorRecord.ddr hfsLen) = E0
  generalize hE1 : Partition.codec.encode (WriteApplePartitionMapEntry.pme 3) = E1
  generalize hE2 : Partition.codec.encode (WriteDriverPartitionEntry.pme AppleDriver43 3) = E2
  generalize hE3 : Partition.codec.encode (WriteHFSPartitionEntry.pme 3 rw hfsLen) = E3
  have l0 : E0.length = 26 := by rw [← hE0]; exact DDRecord_length_encode _
  have l1 : E1.length = 512 := by rw [← hE1]; exact Partition_length_encode _
  have l2 : E2.length = 512 := by rw [← hE2]; exact Partition_length_encode _
  have l3 : E3.length = 512 := by rw [← hE3]; exact Partition_length_encode _
  simp only [header, hE0, hE1, hE2, hE3]
  generalize hH1 : writeAt ([] : List Byte) 0 E0 = H1
  generalize hH2 : writeAt H1 0x200 E1 = H2
  generalize hH3 : writeAt H2 0x400 E2 = H3
  generalize hH4 : writeAt H3 0x600 E3 = H4
  have b1 : H1.length ≤ 26 := by
    have := length_writeAt_le ([] : List Byte) 0 E0
    rw [hH1, l0] at this
    simpa using this
  have b2 : H2.length ≤ 0x400 := by
    have := length_writeAt_le H1 0x200 E1
    rw [hH2, l1] at this
    omega
  have b3 : H3.length ≤ 0x600 := by
    have := length_writeAt_le H2 0x400 E2
    rw [hH3, l2] at this
    omega
  have b4 : H4.length ≤ 0x800 := by
    have := length_writeAt_le H3 0x600 E3
    rw [hH4, l3] at this
    omega
  have hlen := length_writeAt_le H4 0x8000 AppleDriver43
  refine ⟨?_, ?_, by omega, slice_writeAt_self _ _ _⟩
  · rw [getD_writeAt_below _ _ _ _ (by decide)]
    exact List.getD_eq_default _ _ b4
  · rw [getD_writeAt_below _ _ _ _ (by decide)]
    exact List.getD_eq_default _ _ (by omega)

/-- The image that a successful `WriteDeviceImage` leaves on an empty
destination: the three map entries read back at `0x200`, `0x400` and `0x600`,
the block at `0x800` is part of the zero-filled gap, the driver is at `0x8000`
up to `0xC000`, and the source span is at `0xC000` but for the attribute
word. -/
theorem WriteDeviceImage_map (AppleDriver43 : List Byte) (ifd : File)
    (hfsStart hfsLen : Int) (rw progress : Bool) (dst : File) (calls : List (Int × Int))
    (h : WriteDeviceImage AppleDriver43 ⟨[], 0⟩ ifd hfsStart hfsLen rw progress
      = .ok (dst, calls)) :
    ReadBigEndian Partition.codec dst 0x200 = .ok (WriteApplePartitionMapEntry.pme 3)
      ∧ ReadBigEndian Partition.codec dst 0x400
          = .ok (WriteDriverPartitionEntry.pme AppleDriver43 3)
      ∧ ReadBigEndian Partition.codec dst 0x600 = .ok (WriteHFSPartitionEntry.pme 3 rw hfsLen)
      ∧ (∃ p4, ReadBigEndian Partition.codec dst 0x800 = .ok p4 ∧ p4.PmSig = 0)
      ∧ slice dst.data 0x8000 (min AppleDriver43.length 0x4000) = AppleDriver43.take 0x4000
      ∧ (∀ i : Nat, i < hfsLen.toNat → i ≠ 1034 → i ≠ 1035 →
          dst.data[0xC000 + i]? = ifd.data[hfsStart.toNat + i]?) := by
  obtain ⟨pos, hp⟩ := WriteDeviceImage_eq AppleDriver43 ⟨[], 0⟩ ifd hfsStart hfsLen rw progress
  rw [hp] at h
  obtain ⟨_, _, hsrc, hfit, hdst⟩ := WriteHFSVolumeData_inv _ _ _ _ _ _ _ _ _ h
  have e : (0xC000 : Int).toNat = 0xC000 := rfl
  rw [e] at hfit hdst
  simp only at hfit hdst hsrc
  obtain ⟨hh, _, s1, s2, s3⟩ := header_slices AppleDriver43 [] rw hfsLen
  obtain ⟨z0, z1, _, sd⟩ := header_empty AppleDriver43 rw hfsLen
  have wf3 := hfs_pme_WF 3 rw hfsLen (by decide)
  have hL := length_converted (header AppleDriver43 [] rw hfsLen) ifd.data hfsStart.toNat
    0xC000 hfsLen.toNat rw hfit
  have hcl : (header AppleDriver43 [] rw hfsLen).length
      ≤ (copied (header AppleDriver43 [] rw hfsLen) ifd.data hfsStart.toNat 0xC000
          hfsLen.toNat).length := by
    unfold copied
    exact length_writeAt_ge _ _ _
  have t1 := slice_converted_header (header AppleDriver43 [] rw hfsLen) ifd.data
    hfsStart.toNat hfsLen.toNat rw 0x200 512 hfit (by decide) hh
  have t2 := slice_converted_header (header AppleDriver43 [] rw hfsLen) ifd.data
    hfsStart.toNat hfsLen.toNat rw 0x400 512 hfit (by decide) hh
  have t3 := slice_converted_header (header AppleDriver43 [] rw hfsLen) ifd.data
    hfsStart.toNat hfsLen.toNat rw 0x600 512 hfit (by decide) hh
  rw [s1] at t1
  rw [s2] at t2
  rw [s3] at t3
  have g0 : (converted (header AppleDriver43 [] rw hfsLen) ifd.data hfsStart.toNat 0xC000
      hfsLen.toNat rw).getD 0x800 0 = 0 := by
    unfold converted copied
    rw [getD_writeAt_below _ _ _ _ (by decide), getD_writeAt_below _ _ _ _ (by decide)]
    exact z0
  have g1 : (converted (header AppleDriver43 [] rw hfsLen) ifd.data hfsStart.toNat 0xC000
      hfsLen.toNat rw).getD 0x801 0 = 0 := by
    unfold converted copied
    rw [getD_writeAt_below _ _ _ _ (by decide), getD_writeAt_below _ _ _ _ (by decide)]
    exact z1
  have dD : slice (converted (header AppleDriver43 [] rw hfsLen) ifd.data hfsStart.toNat
      0xC000 hfsLen.toNat rw) 0x8000 (min AppleDriver43.length 0x4000)
        = AppleDriver43.take 0x4000 := by
    by_cases hne : AppleDriver43 = []
    · rw [hne]
      simp only [slice, List.length_nil, Nat.zero_min, List.take_zero, List.take_nil]
    · have hpos : 0 < AppleDriver43.length := List.length_pos.mpr hne
      have hsl : (slice (header AppleDriver43 [] rw hfsLen) 0x8000
          AppleDriver43.length).length = AppleDriver43.length := by rw [sd]
      rw [length_slice] at hsl
      have hpart : slice (header AppleDriver43 [] rw hfsLen) 0x8000
          (min AppleDriver43.length 0x4000) = AppleDriver43.take 0x4000 := by
        have e1 : slice (header AppleDriver43 [] rw hfsLen) 0x8000
            (min AppleDriver43.length 0x4000)
            = (slice (header AppleDriver43 [] rw hfsLen) 0x8000 AppleDriver43.length).take
                0x4000 := by
          simp only [slice, List.take_take]
          rw [Nat.min_comm]
        rw [e1, sd]
      unfold converted
      rw [slice_writeAt_of_le _ _ _ _ _ (by omega) (by omega)]
      unfold copied
      rw [slice_writeAt_of_le _ _ _ _ _ (by omega) (by omega), hpart]
  have dV : ∀ i : Nat, i < hfsLen.toNat → i ≠ 1034 → i ≠ 1035 →
      (converted (header AppleDriver43 [] rw hfsLen) ifd.data hfsStart.toNat 0xC000
        hfsLen.toNat rw)[0xC000 + i]? = ifd.data[hfsStart.toNat + i]? := by
    intro i hi h1 h2
    rw [getElem?_converted _ _ _ _ _ _ _ hfit (by omega),
      getElem?_copied_inside _ _ _ _ _ _ (hsrc (by omega)) hi]
  generalize converted (header AppleDriver43 [] rw hfsLen) ifd.data hfsStart.toNat 0xC000
    hfsLen.toNat rw = D at hdst hL t1 t2 t3 g0 g1 dD dV
  have r1 := read_entry D dst.pos 0x200 512 _ (by decide) (by omega) t1 apple_pme_WF
  have r2 := read_entry D dst.pos 0x400 1024 _ (by decide) (by omega) t2
    (driver_pme_WF AppleDriver43)
  have r3 := read_entry D dst.pos 0x600 1536 _ (by decide) (by omega) t3 wf3
  have r4 : ReadBigEndian Partition.codec ⟨D, dst.pos⟩ 0x800
      = .ok (Partition.codec.decode (slice D 0x800 512)) :=
    ReadBigEndian_ok Partition.codec ⟨D, dst.pos⟩ 0x800 (by decide) (by
      have e : Partition.codec.size = 512 := rfl
      have e2 : (0x800 : Int).toNat = 0x800 := rfl
      rw [e, e2]
      simp only
      omega)
  have hsig4 : (Partition.codec.decode (slice D 0x800 512)).PmSig = 0 := by
    have e : (Partition.codec.decode (slice D 0x800 512)).PmSig = u16At (slice D 0x800 512) 0 :=
      rfl
    rw [e, u16At_slice D 0x800 512 0 (by decide)]
    unfold u16At
    rw [g0, g1]
    rfl
  have hd : dst = ⟨D, dst.pos⟩ := by
    rw [hdst]
  rw [hd]
  exact ⟨r1, r2, r3, ⟨_, r4, hsig4⟩, dD, dV⟩

/-- C23 (as stated, refuted): a volume of `2^41` bytes is converted onto an
empty destination; `floor(hfsLength / 512)` is `2^32` and the "Apple_HFS"
entry of the image has the block count 0, so its block range is `[96, 96)`,
not `[96, 96 + 2^32)`. -/
theorem hfs_entry_count_wraps :
    ∃ calls p3,
      WriteDeviceImage sampleDriver ⟨[], 0⟩ hugeVolume 0 2199023255552 false false
        = .ok (imageOf (WriteDeviceImage sampleDriver ⟨[], 0⟩ hugeVolume 0 2199023255552 false
            false), calls)
      ∧ ReadBigEndian Partition.codec
          (imageOf (WriteDeviceImage sampleDriver ⟨[], 0⟩ hugeVolume 0 2199023255552 false
            false)) 0x600 = .ok p3
      ∧ p3.PmSig = 0x504D ∧ p3.PmPyPartStart = 96 ∧ p3.PmPartBlkCnt = 0
      ∧ (2199023255552 : Int) / 512 = 4294967296 := by
  have hl : hugeVolume.data.length = 2199023255552 := List.length_replicate _ _
  obtain ⟨calls, h⟩ := WriteDeviceImage_ok sampleDriver ⟨[], 0⟩ hugeVolume 0 2199023255552
    false false (by decide) (by decide) (by rw [hl]; decide)
  have hi := imageOf_spec _ _ _ h
  obtain ⟨_, _, r3, _⟩ := WriteDeviceImage_map sampleDriver hugeVolume 0 2199023255552 false
    false _ calls hi
  have hc := hfs_pme_count false 2199023255552 (by decide)
  have e : (2199023255552 : Int) / 512 % 4294967296 = 0 := by decide
  rw [e] at hc
  exact ⟨calls, _, hi, r3, rfl, rfl, by omega, by decide⟩

/-- C23 (amended): in the image that `WriteDeviceImage` writes onto an empty
destination, for `hfsLength ≥ 0`, the blocks at `0x200`, `0x400` and `0x600`
decode to entries with signature `0x504D` and the block at `0x800` decodes to
another signature; the three entries have map-block count 3 and the block
ranges `[1, 64)`, `[64, 96)` and `[96, 96 + floor(hfsLength / 512) mod 2^32)`,
each starting where the one before ends, the last count being
`floor(hfsLength / 512)` when `hfsLength < 2^41`; the driver entry starts at
byte `0x8000`, where the image holds the driver blob (its first `0x4000` bytes:
the volume is written over the rest), and the HFS entry at byte `0xC000`, where
the image holds the source span (but for the attribute word at 1034 and
1035). -/
theorem WriteDeviceImage_partition_map (AppleDriver43 : List Byte) (ifd : File)
    (hfsStart hfsLength : Int) (rw progress : Bool) (dst : File) (calls : List (Int × Int))
    (h : WriteDeviceImage AppleDriver43 ⟨[], 0⟩ ifd hfsStart hfsLength rw progress
      = .ok (dst, calls))
    (h0 : 0 ≤ hfsLength) :
    ∃ p1 p2 p3 p4 : Partition,
      (ReadBigEndian Partition.codec dst 0x200 = .ok p1
        ∧ ReadBigEndian Partition.codec dst 0x400 = .ok p2
        ∧ ReadBigEndian Partition.codec dst 0x600 = .ok p3
        ∧ ReadBigEndian Partition.codec dst 0x800 = .ok p4)
      ∧ (p1.PmSig = 0x504D ∧ p2.PmSig = 0x504D ∧ p3.PmSig = 0x504D ∧ p4.PmSig ≠ 0x504D)
      ∧ (p1.PmMapBlkCnt = 3 ∧ p2.PmMapBlkCnt = 3 ∧ p3.PmMapBlkCnt = 3)
      ∧ (p1.PmPyPartStart = 1 ∧ p1.PmPyPartStart + p1.PmPartBlkCnt = p2.PmPyPartStart)
      ∧ (p2.PmPyPartStart = 64 ∧ p2.PmPyPartStart + p2.PmPartBlkCnt = p3.PmPyPartStart)
      ∧ (p3.PmPyPartStart = 96
        ∧ (p3.PmPartBlkCnt : Int) = hfsLength / 512 % 4294967296
        ∧ (hfsLength < 2199023255552 → (p3.PmPartBlkCnt : Int) = hfsLength / 512))
      ∧ (p2.PmPyPartStart * 512 = 0x8000
        ∧ slice dst.data 0x8000 (min AppleDriver43.length 0x4000) = AppleDriver43.take 0x4000)
      ∧ (p3.PmPyPartStart * 512 = 0xC000
        ∧ ∀ i : Nat, i < hfsLength.toNat → i ≠ 1034 → i ≠ 1035 →
            dst.data[0xC000 + i]? = ifd.data[hfsStart.toNat + i]?) := by
  obtain ⟨r1, r2, r3, ⟨p4, r4, hsig4⟩, dD, dV⟩ := WriteDeviceImage_map AppleDriver43 ifd hfsStart
    hfsLength rw progress dst calls h
  have hB := hfs_pme_count rw hfsLength h0
  have sig1 : (WriteApplePartitionMapEntry.pme 3).PmSig = 0x504D := rfl
  have sig2 : (WriteDriverPartitionEntry.pme AppleDriver43 3).PmSig = 0x504D := rfl
  have sig3 : (WriteHFSPartitionEntry.pme 3 rw hfsLength).PmSig = 0x504D := rfl
  have sig4 : p4.PmSig ≠ 0x504D := by
    rw [hsig4]
    decide
  have map1 : (WriteApplePartitionMapEntry.pme 3).PmMapBlkCnt = 3 := rfl
  have map2 : (WriteDriverPartitionEntry.pme AppleDriver43 3).PmMapBlkCnt = 3 := rfl
  have map3 : (WriteHFSPartitionEntry.pme 3 rw hfsLength).PmMapBlkCnt = 3 := rfl
  have st1 : (WriteApplePartitionMapEntry.pme 3).PmPyPartStart = 1 := rfl
  have st2 : (WriteDriverPartitionEntry.pme AppleDriver43 3).PmPyPartStart = 64 := rfl
  have st3 : (WriteHFSPartitionEntry.pme 3 rw hfsLength).PmPyPartStart = 96 := rfl
  have cn1 : (WriteApplePartitionMapEntry.pme 3).PmPartBlkCnt = 63 := rfl
  have cn2 : (WriteDriverPartitionEntry.pme AppleDriver43 3).PmPartBlkCnt = 32 := rfl
  refine ⟨_, _, _, _, ⟨r1, r2, r3, r4⟩, ⟨sig1, sig2, sig3, sig4⟩, ⟨map1, map2, map3⟩,
    ⟨st1, ?_⟩, ⟨st2, ?_⟩, ⟨st3, hB, ?_⟩, ⟨?_, dD⟩, ⟨?_, dV⟩⟩
  · rw [st1, cn1, st2]
  · rw [st2, cn2, st3]
  · intro hlt
    rw [hB]
    omega
  · rw [st2]
  · rw [st3]

theorem WriteDeviceImage_partition_map_witness :
    ∃ p1 p2 p3 p4 : Partition,
      (ReadBigEndian Partition.codec
          (imageOf (WriteDeviceImage sampleDriver ⟨[], 0⟩ hfsPlusVolume 0 1536 true false)) 0x200
          = .ok p1
        ∧ ReadBigEndian Partition.codec
          (imageOf (WriteDeviceImage sampleDriver ⟨[], 0⟩ hfsPlusVolume 0 1536 true false)) 0x400
          = .ok p2
        ∧ ReadBigEndian Partition.codec
          (imageOf (WriteDeviceImage sampleDriver ⟨[], 0⟩ hfsPlusVolume 0 1536 true false)) 0x600
          = .ok p3
        ∧ ReadBigEndian Partition.codec
          (imageOf (WriteDeviceImage sampleDriver ⟨[], 0⟩ hfsPlusVolume 0 1536 true false)) 0x800
          = .ok p4)
      ∧ (p1.PmSig = 0x504D ∧ p2.PmSig = 0x504D ∧ p3.PmSig = 0x504D ∧ p4.PmSig ≠ 0x504D)
      ∧ (p1.PmMapBlkCnt = 3 ∧ p2.PmMapBlkCnt = 3 ∧ p3.PmMapBlkCnt = 3)
      ∧ (p1.PmPyPartStart = 1 ∧ p1.PmPyPartStart + p1.PmPartBlkCnt = p2.PmPyPartStart)
      ∧ (p2.PmPyPartStart = 64 ∧ p2.PmPyPartStart + p2.PmPartBlkCnt = p3.PmPyPartStart)
      ∧ (p3.PmPyPartStart = 96
        ∧ (p3.PmPartBlkCnt : Int) = 1536 / 512 % 4294967296
        ∧ ((1536 : Int) < 2199023255552 → (p3.PmPartBlkCnt : Int) = 1536 / 512))
      ∧ (p2.PmPyPartStart * 512 = 0x8000
        ∧ slice (imageOf (WriteDeviceImage sampleDriver ⟨[], 0⟩ hfsPlusVolume 0 1536 true
            false)).data 0x8000 (min sampleDriver.length 0x4000) = sampleDriver.take 0x4000)
      ∧ (p3.PmPyPartStart * 512 = 0xC000
        ∧ ∀ i : Nat, i < (1536 : Int).toNat → i ≠ 1034 → i ≠ 1035 →
            (imageOf (WriteDeviceImage sampleDriver ⟨[], 0⟩ hfsPlusVolume 0 1536 true
              false)).data[0xC000 + i]? = hfsPlusVolume.data[(0 : Int).toNat + i]?) := by
  obtain ⟨calls, h⟩ := WriteDeviceImage_ok sampleDriver ⟨[], 0⟩ hfsPlusVolume 0 1536 true false
    (by decide) (by decide) (by decide!)
  exact WriteDeviceImage_partition_map sampleDriver hfsPlusVolume 0 1536 true false _ calls
    (imageOf_spec _ _ _ h) (by decide)

/-! ## Termination of the partition map walk -/

/-- An entry that decodes at index `k` lies within the file, two blocks before
its end at the latest. -/
theorem entry_read_bound (f : File) (k : Nat) (pme : Partition)
    (hr : ReadBigEndian Partition.codec f (512 * ((k : Int) + 1)) = .ok pme) :
    k + 2 ≤ f.data.length / 512 := by
  obtain ⟨_, hread, _⟩ := ReadBigEndian_inv _ _ _ _ hr
  have hsz : Partition.codec.size = 512 := rfl
  rw [hsz] at hread
  omega

/-- Two runs of the walk from entry `k` agree as soon as each has one round per
block of the file left. -/
theorem walk_fuel_irrelevant (f : File) (fs : Int) :
    ∀ (fuel fuel' k : Nat), 1 ≤ fuel → f.data.length / 512 ≤ k + fuel →
      1 ≤ fuel' → f.data.length / 512 ≤ k + fuel' →
      ProbePartitionMap.loop f fs fuel (512 * ((k : Int) + 1))
        = ProbePartitionMap.loop f fs fuel' (512 * ((k : Int) + 1)) := by
  intro fuel
  induction fuel with
  | zero =>
    intro fuel' k h1 _ _ _
    omega
  | succ fuel ih =>
    intro fuel' k _ hk h1 hk'
    obtain ⟨m, hm⟩ : ∃ m, fuel' = m + 1 := ⟨fuel' - 1, by omega⟩
    subst hm
    simp only [ProbePartitionMap.loop, entry_offset_pos k, if_true]
    cases hr : ReadBigEndian Partition.codec f (512 * ((k : Int) + 1)) with
    | error e => rfl
    | ok pme =>
      simp only
      by_cases hsig : pme.PmSig = 0x504D
      · simp only [hsig, ne_eq, not_true_eq_false, if_false]
        by_cases hty : trimRightNul pme.PmPartType = strBytes "Apple_HFS"
        · simp only [hty, if_true]
        · simp only [hty, if_false]
          have hb := entry_read_bound f k pme hr
          rw [entry_offset_succ]
          exact ih m (k + 1) (by omega) (by omega) (by omega) (by omega)
      · simp only [ne_eq, hsig, not_false_eq_true, if_true]

theorem loop_from_512 (f : File) (fs : Int) (fuel : Nat) :
    ProbePartitionMap.loop f fs fuel 512
      = ProbePartitionMap.loop f fs fuel (512 * (((0 : Nat) : Int) + 1)) := by
  have e : (512 : Int) * (((0 : Nat) : Int) + 1) = 512 := by decide
  rw [e]

/-- C24: `ProbePartitionMap` terminates on every store: the walk, which the
model runs for `length / 512 + 1` rounds, never runs out of rounds, and any
number of rounds from `max 1 (length / 512)` on gives the same result, one
entry being decoded per round.  The offsets `512 * (k + 1)` of the loop are
all positive; an entry decodes at index `k` only when `k + 2 ≤ length / 512`,
so fewer than `length / 512` entries decode, and a decode with fewer than 512
bytes left at its offset is an error. -/
theorem ProbePartitionMap_terminates (f : File) (fileSize : Int) :
    ProbePartitionMap f fileSize ≠ .error .outOfFuel
      ∧ (∀ fuel : Nat, 1 ≤ fuel → f.data.length / 512 ≤ fuel →
          ProbePartitionMap.loop f fileSize fuel 512 = ProbePartitionMap f fileSize)
      ∧ (∀ k : Nat, (512 : Int) * ((k : Int) + 1) > 0)
      ∧ (∀ (k : Nat) (pme : Partition),
          ReadBigEndian Partition.codec f (512 * ((k : Int) + 1)) = .ok pme →
          k + 2 ≤ f.data.length / 512)
      ∧ (∀ off : Int, f.data.length - off.toNat < 512 →
          ∃ e, ReadBigEndian Partition.codec f off = .error e) := by
  refine ⟨ProbePartitionMap_total f fileSize, ?_, entry_offset_pos, entry_read_bound f, ?_⟩
  · intro fuel h1 hf
    rw [loop_from_512, ProbePartitionMap_eq_loop]
    exact walk_fuel_irrelevant f fileSize fuel (f.data.length / 512 + 1) 0 h1 (by omega)
      (by omega) (by omega)
  · intro off h
    exact ReadBigEndian_error Partition.codec f off (Or.inr h)

theorem ProbePartitionMap_terminates_witness :
    ProbePartitionMap sampleMapWithoutHFS 1536 ≠ .error .outOfFuel
      ∧ (∀ fuel : Nat, 1 ≤ fuel → sampleMapWithoutHFS.data.length / 512 ≤ fuel →
          ProbePartitionMap.loop sampleMapWithoutHFS 1536 fuel 512
            = ProbePartitionMap sampleMapWithoutHFS 1536)
      ∧ (∀ k : Nat, (512 : Int) * ((k : Int) + 1) > 0)
      ∧ (∀ (k : Nat) (pme : Partition),
          ReadBigEndian Partition.codec sampleMapWithoutHFS (512 * ((k : Int) + 1)) = .ok pme →
          k + 2 ≤ sampleMapWithoutHFS.data.length / 512)
      ∧ (∀ off : Int, sampleMapWithoutHFS.data.length - off.toNat < 512 →
          ∃ e, ReadBigEndian Partition.codec sampleMapWithoutHFS off = .error e) :=
  ProbePartitionMap_terminates sampleMapWithoutHFS 1536

/-- On `sampleMapWithoutHFS`, three blocks long, the walk decodes the entries at
512 and 1024 and then stops: one round is not enough, two are, within the
three that the bound allows. -/
theorem ProbePartitionMap_rounds_sampleMapWithoutHFS :
    sampleMapWithoutHFS.data.length / 512 = 3
      ∧ ProbePartitionMap.loop sampleMapWithoutHFS 1536 1 512 = .error .outOfFuel
      ∧ ProbePartitionMap.loop sampleMapWithoutHFS 1536 2 512
          = .error (.Errorf "HFS partition not found")
      ∧ ProbePartitionMap sampleMapWithoutHFS 1536 = .error (.Errorf "HFS partition not found") := by
  decide!

/-! ## The progress values: rounding to `float64` -/

theorem roundHalfEven_intCast (n : ℤ) : roundHalfEven (n : ℚ) = n := by
  unfold roundHalfEven
  simp

theorem roundHalfEven_mono {x y : ℚ} (h : x ≤ y) : roundHalfEven x ≤ roundHalfEven y := by
  have hf : ⌊x⌋ ≤ ⌊y⌋ := Int.floor_mono h
  rcases hf.lt_or_eq with hlt | heq
  · have hx : roundHalfEven x ≤ ⌊x⌋ + 1 := by
      unfold roundHalfEven
      split_ifs <;> omega
    have hy : ⌊y⌋ ≤ roundHalfEven y := by
      unfold roundHalfEven
      split_ifs <;> omega
    omega
  · unfold roundHalfEven
    rw [← heq]
    split_ifs <;> first | omega | (exfalso; linarith)

theorem le_roundHalfEven {x : ℚ} {n : ℤ} (h : (n : ℚ) ≤ x) : n ≤ roundHalfEven x := by
  have := roundHalfEven_mono h
  rwa [roundHalfEven_intCast] at this

theorem roundHalfEven_le {x : ℚ} {n : ℤ} (h : x ≤ (n : ℚ)) : roundHalfEven x ≤ n := by
  have := roundHalfEven_mono h
  rwa [roundHalfEven_intCast] at this

theorem zpow_log_le (x : ℚ) (hx : 0 < x) : (2 : ℚ) ^ Int.log 2 x ≤ x := by
  have := Int.zpow_log_le_self (b := 2) (by norm_num) hx
  simpa using this

theorem lt_zpow_log_succ (x : ℚ) : x < (2 : ℚ) ^ (Int.log 2 x + 1) := by
  have := Int.lt_zpow_succ_log_self (b := 2) (by norm_num) x
  simpa using this

theorem binary64_of_pos {x : ℚ} (hx : 0 < x) :
    binary64 x
      = roundHalfEven (x / 2 ^ (Int.log 2 x - 52)) * 2 ^ (Int.log 2 x - 52) := by
  unfold binary64
  rw [if_neg hx.ne', abs_of_pos hx]

theorem significand_bounds {x : ℚ} (hx : 0 < x) :
    (4503599627370496 : ℚ) ≤ x / 2 ^ (Int.log 2 x - 52)
      ∧ x / 2 ^ (Int.log 2 x - 52) < 9007199254740992 := by
  have hp : (0 : ℚ) < 2 ^ (Int.log 2 x - 52) := zpow_pos (by norm_num) _
  have h52 : (2 : ℚ) ^ (52 : ℤ) = 4503599627370496 := by norm_num
  have h53 : (2 : ℚ) ^ (53 : ℤ) = 9007199254740992 := by norm_num
  constructor
  · rw [le_div_iff₀ hp, ← h52, ← zpow_add₀ (by norm_num : (2 : ℚ) ≠ 0)]
    have : (52 : ℤ) + (Int.log 2 x - 52) = Int.log 2 x := by ring
    rw [this]
    exact zpow_log_le x hx
  · rw [div_lt_iff₀ hp, ← h53, ← zpow_add₀ (by norm_num : (2 : ℚ) ≠ 0)]
    have : (53 : ℤ) + (Int.log 2 x - 52) = Int.log 2 x + 1 := by ring
    rw [this]
    exact lt_zpow_log_succ x

theorem significand_rounded {x : ℚ} (hx : 0 < x) :
    4503599627370496 ≤ roundHalfEven (x / 2 ^ (Int.log 2 x - 52))
      ∧ roundHalfEven (x / 2 ^ (Int.log 2 x - 52)) ≤ 9007199254740992 := by
  obtain ⟨h1, h2⟩ := significand_bounds hx
  exact ⟨le_roundHalfEven (by exact_mod_cast h1), roundHalfEven_le (by exact_mod_cast h2.le)⟩

theorem binary64_pos {x : ℚ} (hx : 0 < x) : 0 < binary64 x := by
  rw [binary64_of_pos hx]
  have h := (significand_rounded hx).1
  have hp : (0 : ℚ) < 2 ^ (Int.log 2 x - 52) := zpow_pos (by norm_num) _
  have : (0 : ℚ) < (roundHalfEven (x / 2 ^ (Int.log 2 x - 52)) : ℚ) := by
    exact_mod_cast (by omega : 0 < roundHalfEven (x / 2 ^ (Int.log 2 x - 52)))
  positivity

/-- A value whose significand is an integer is a `float64`. -/
theorem binary64_exact {x : ℚ} (hx : 0 < x) (m : ℤ)
    (hm : x / 2 ^ (Int.log 2 x - 52) = m) : binary64 x = x := by
  have hp : (0 : ℚ) < 2 ^ (Int.log 2 x - 52) := zpow_pos (by norm_num) _
  rw [binary64_of_pos hx, hm, roundHalfEven_intCast, ← hm]
  field_simp

theorem log_eq_of_bounds {x : ℚ} (hx : 0 < x) (e : ℤ) (h1 : (2 : ℚ) ^ e ≤ x)
    (h2 : x < (2 : ℚ) ^ (e + 1)) : Int.log 2 x = e := by
  have a : e ≤ Int.log 2 x := by
    have := (Int.zpow_le_iff_le_log (b := 2) (by norm_num) (x := e) hx).1 (by simpa using h1)
    exact this
  have b : Int.log 2 x < e + 1 := by
    have := (Int.lt_zpow_iff_log_lt (b := 2) (by norm_num) (x := e + 1) hx).1 (by simpa using h2)
    exact this
  omega

theorem binary64_intCast (n : ℤ) (h0 : 0 < n) (hn : n ≤ 9007199254740992) :
    binary64 (n : ℚ) = n := by
  have hx : (0 : ℚ) < n := by exact_mod_cast h0
  rcases hn.lt_or_eq with hlt | heq
  · have hl : Int.log 2 (n : ℚ) < 53 := by
      refine (Int.lt_zpow_iff_log_lt (b := 2) (by norm_num) (x := 53) hx).1 ?_
      have : ((n : ℤ) : ℚ) < 9007199254740992 := by exact_mod_cast hlt
      norm_num
      exact this
    obtain ⟨k, hk⟩ := Int.exists_eq_neg_ofNat (by omega : Int.log 2 (n : ℚ) - 52 ≤ 0)
    refine binary64_exact hx (n * 2 ^ k) ?_
    rw [hk, zpow_neg, zpow_natCast, div_inv_eq_mul]
    push_cast
    rfl
  · subst heq
    have hl : Int.log 2 ((9007199254740992 : ℤ) : ℚ) = 53 :=
      log_eq_of_bounds hx 53 (by norm_num) (by norm_num)
    refine binary64_exact hx 4503599627370496 ?_
    rw [hl]
    norm_num

theorem binary64_one : binary64 1 = 1 := by
  have := binary64_intCast 1 (by norm_num) (by norm_num)
  simpa using this

theorem percent_self {b : Int} (hb : 0 < b) : percent (b, b) = 1 := by
  have hb' : (0 : ℚ) < b := by exact_mod_cast hb
  have hB := binary64_pos hb'
  show binary64 (binary64 (b : ℚ) / binary64 (b : ℚ)) = 1
  rw [div_self hB.ne', binary64_one]

theorem binary64_tie : binary64 9007199254740993 = 9007199254740992 := by
  have hx : (0 : ℚ) < 9007199254740993 := by norm_num
  have hl : Int.log 2 (9007199254740993 : ℚ) = 53 :=
    log_eq_of_bounds hx 53 (by norm_num) (by norm_num)
  rw [binary64_of_pos hx, hl]
  have hf : ⌊(9007199254740993 : ℚ) / 2 ^ ((53 : ℤ) - 52)⌋ = 4503599627370496 := by
    rw [Int.floor_eq_iff]
    norm_num
  have hr : roundHalfEven ((9007199254740993 : ℚ) / 2 ^ ((53 : ℤ) - 52))
      = 4503599627370496 := by
    unfold roundHalfEven
    rw [hf, if_neg (by norm_num), if_neg (by norm_num), if_pos (by decide)]
  rw [hr]
  norm_num

/-- Above `2^53` two calls in a row can pass the same value: a conversion of
`2^53 + 1` bytes makes `2^35 + 1` calls, and the last two, after `2^53` and
after `2^53 + 1` bytes, both pass 1. -/
theorem progress_values_repeat :
    ∃ dst calls,
      WriteHFSVolumeData ⟨[], 0⟩ longVolume 0 0 9007199254740993 false true = .ok (dst, calls)
        ∧ calls.length = 34359738369
        ∧ calls[34359738367]? = some (9007199254740992, 9007199254740993)
        ∧ calls[34359738368]? = some (9007199254740993, 9007199254740993)
        ∧ (calls.map percent)[34359738367]? = some 1
        ∧ (calls.map percent)[34359738368]? = some 1 := by
  have t0 : (0 : Int).toNat = 0 := rfl
  have t1 : (9007199254740993 : Int).toNat = 9007199254740993 := rfl
  have hd : longVolume.data.length = 9007199254740993 := List.length_replicate _ _
  have hl : (copied [] longVolume.data 0 0 9007199254740993).length = 9007199254740993 := by
    rw [length_copied _ _ _ _ _ (by rw [hd]) (by decide)]
    rfl
  obtain ⟨calls, hc⟩ := WriteHFSVolumeData_ok ⟨[], 0⟩ longVolume 0 0 9007199254740993
    false true (by decide) (by decide) (fun _ => by rw [hd, t0, t1])
    (by rw [t0, t1, hl]; decide)
  obtain ⟨hcalls, hlen⟩ := WriteHFSVolumeData_calls _ _ _ _ _ _ _ _ (by decide) hc
  have hN : (((9007199254740993 : Int) + 262143) / 262144).toNat = 34359738369 := by decide
  have v1 := (progressCalls_values 9007199254740993 (by decide) 34359738367
    (by rw [hN]; decide)).1
  have v2 := (progressCalls_values 9007199254740993 (by decide) 34359738368
    (by rw [hN]; decide)).1
  have m1 : min ((((34359738367 : Nat) : Int) + 1) * 262144) 9007199254740993
      = 9007199254740992 := by decide
  have m2 : min ((((34359738368 : Nat) : Int) + 1) * 262144) 9007199254740993
      = 9007199254740993 := by decide
  rw [← hcalls, m1] at v1
  rw [← hcalls, m2] at v2
  have p1 : percent (9007199254740992, 9007199254740993) = 1 := by
    show binary64 (binary64 ((9007199254740992 : ℤ) : ℚ)
      / binary64 ((9007199254740993 : ℤ) : ℚ)) = 1
    rw [binary64_intCast _ (by decide) (by decide)]
    have := binary64_tie
    push_cast
    rw [this]
    norm_num
    exact binary64_one
  have p2 : percent (9007199254740993, 9007199254740993) = 1 := percent_self (by decide)
  refine ⟨_, calls, hc, by rw [hlen, hN], v1, v2, ?_, ?_⟩
  · rw [List.getElem?_map, v1, Option.map_some', p1]
  · rw [List.getElem?_map, v2, Option.map_some', p2]

end core
